import Mathlib

/-!
# qtextract: a shallow embedding of `main.c`

The C program walks a Qt resource container (three byte buffers `tree`, `names`,
`data`) and materialises it on the filesystem.  The embedding below follows
`main.c` function by function:

* buffers are read-only memory reached through a pointer: `Buf = Nat → Nat`,
  the byte at distance `a` from the pointer being `b a % 256`;
* `uint32_t`/`uint16_t` values are naturals with explicit `% 2^32`, `int` values
  are integers, conversions between them are explicit;
* everything the program does to the outside (stdout, stderr, `mkdir`, `fopen`,
  `fwrite`, `fclose`, the call of `inflate`) is recorded as a list of `Event`s;
* what the outside answers (`fopen`, `malloc`, zlib) is taken from an `Env`;
* recursion is bounded by a fuel argument, because the C recursion need not
  terminate on a cyclic container;
* pointers are wider than 32 bits: `data + off` is the byte at distance `off`, whatever
  `off` is, while arithmetic on `uint32_t` values wraps modulo 2^32.
-/

namespace QtExtract

/-! ## Memory and byte order -/

/-- Read-only memory behind a `uint8_t*`: the value stored at each offset. -/
abbrev Buf := Nat → Nat

/-- The `uint8_t` stored at offset `a`. -/
def byteAt (b : Buf) (a : Nat) : Nat := b a % 256

/-- Byte order of the machine the program runs on. -/
inductive Endian where
  | little
  | big
deriving DecidableEq, Repr

/-- The value of `*(uint16_t*)(b + a)` on a host of byte order `e`. -/
def load16 (e : Endian) (b : Buf) (a : Nat) : Nat :=
  match e with
  | .big => byteAt b a * 256 + byteAt b (a + 1)
  | .little => byteAt b a + byteAt b (a + 1) * 256

/-- The value of `*(uint32_t*)(b + a)` on a host of byte order `e`. -/
def load32 (e : Endian) (b : Buf) (a : Nat) : Nat :=
  match e with
  | .big =>
      byteAt b a * 16777216 + byteAt b (a + 1) * 65536 + byteAt b (a + 2) * 256 + byteAt b (a + 3)
  | .little =>
      byteAt b a + byteAt b (a + 1) * 256 + byteAt b (a + 2) * 65536 + byteAt b (a + 3) * 16777216

/-- Byte swap of a 16-bit value. -/
def bswap16 (x : Nat) : Nat := (x % 256) * 256 + (x / 256) % 256

/-- Byte swap of a 32-bit value. -/
def bswap32 (x : Nat) : Nat :=
  (x % 256) * 16777216 + (x / 256 % 256) * 65536 + (x / 65536 % 256) * 256 + (x / 16777216) % 256

/-- The libc `htons` on a host of byte order `e`. -/
def htons (e : Endian) (x : Nat) : Nat :=
  match e with
  | .big => x % 65536
  | .little => bswap16 x

/-- The libc `htonl` on a host of byte order `e`. -/
def htonl (e : Endian) (x : Nat) : Nat :=
  match e with
  | .big => x % 4294967296
  | .little => bswap32 x

/-- Big-endian 16-bit value of the two bytes at `a`. -/
def be16 (b : Buf) (a : Nat) : Nat := byteAt b a * 256 + byteAt b (a + 1)

/-- Big-endian 32-bit value of the four bytes at `a`. -/
def be32 (b : Buf) (a : Nat) : Nat :=
  byteAt b a * 16777216 + byteAt b (a + 1) * 65536 + byteAt b (a + 2) * 256 + byteAt b (a + 3)

/-- The `len` bytes of `b` starting at offset `off`. -/
def readBytes (b : Buf) (off len : Nat) : List Nat :=
  (List.range len).map (fun k => byteAt b (off + k))

/-- A buffer holding the bytes of `l`, zero elsewhere (used for concrete inputs). -/
def bufOfList (l : List Nat) : Buf := fun a => l.getD a 0

/-! ## `struct tree_obj`, `enum Flags` -/

/-- `Compressed = 0x01`. -/
def Compressed : Nat := 1
/-- `Directory = 0x02`. -/
def Directory : Nat := 2
/-- `CompressedZstd = 0x04`. -/
def CompressedZstd : Nat := 4

/-- The fields of a packed `struct tree_obj` after `htons`/`htonl`, as `render_tree`
uses them.  `count` is the union `child_count`/`locale`, `offset` is the union
`child_offset`/`data_offset`. -/
structure TreeObj where
  name_offset : Nat
  flags : Nat
  count : Nat
  offset : Nat
deriving DecidableEq, Repr

/-- The node record overlaid at byte `base` of the tree buffer: packed fields at
offsets 0 (`uint32_t`), 4 (`uint16_t`), 6 (`uint32_t`), 10 (`uint32_t`), each passed
through `htonl`/`htons`. -/
def readNode (e : Endian) (tree : Buf) (base : Nat) : TreeObj :=
  { name_offset := htonl e (load32 e tree base)
    flags := htons e (load16 e tree (base + 4))
    count := htonl e (load32 e tree (base + 6))
    offset := htonl e (load32 e tree (base + 10)) }

/-- The offset `i * (ver == 1 ? 14 : 22)` of `render_tree`: `i` is `uint32_t`, so the
product is computed in `unsigned int`. -/
def nodeOffset (ver i : Nat) : Nat := (i * (if ver = 1 then 14 else 22)) % 4294967296

/-- Conversion `uint32_t → int` (modulo 2^32, as gcc and clang define it). -/
def toInt32 (x : Nat) : Int :=
  if x % 4294967296 < 2147483648 then ((x % 4294967296 : Nat) : Int)
  else ((x % 4294967296 : Nat) : Int) - 4294967296

/-- Conversion `int → uint32_t`. -/
def toUInt32 (c : Int) : Nat := (c % 4294967296).toNat

/-! ## Names: `name_convert` -/

/-- UTF-8 encoding of one code point. -/
def utf8Encode (cp : Nat) : List Nat :=
  if cp < 128 then [cp]
  else if cp < 2048 then [192 + cp / 64, 128 + cp % 64]
  else if cp < 65536 then [224 + cp / 4096, 128 + cp / 64 % 64, 128 + cp % 64]
  else [240 + cp / 262144 % 8, 128 + cp / 4096 % 64, 128 + cp / 64 % 64, 128 + cp % 64]

/-- The library call `iconv(conv, &source, &sourcelen, &ptarget, &targetlen)` for the
descriptor `iconv_open("UTF-8", "UTF-16BE")`: the bytes stored at the target.
Characters are converted one after the other; conversion stops at the first character
whose encoding does not fit the remaining `cap` bytes (E2BIG), at an unpaired
surrogate (EILSEQ) or at an incomplete character (EINVAL).  `name_convert` ignores
the return value, so only the bytes written matter. -/
def iconv : List Nat → Nat → List Nat
  | hi :: lo :: rest, cap =>
    let u := hi * 256 + lo
    if 55296 ≤ u ∧ u < 56320 then
      match rest with
      | hi2 :: lo2 :: rest2 =>
        let u2 := hi2 * 256 + lo2
        if 56320 ≤ u2 ∧ u2 < 57344 then
          let enc := utf8Encode (65536 + (u - 55296) * 1024 + (u2 - 56320))
          if enc.length ≤ cap then enc ++ iconv rest2 (cap - enc.length) else []
        else []
      | _ => []
    else if 56320 ≤ u ∧ u < 57344 then []
    else
      let enc := utf8Encode u
      if enc.length ≤ cap then enc ++ iconv rest (cap - enc.length) else []
  | _, _ => []

/-- The C string that starts at a buffer holding `bs` followed by a NUL byte. -/
def cstr (bs : List Nat) : List Nat := bs.takeWhile (fun x => x != 0)

/-- Embedding of `name_convert`: the returned C string.  `n->length` is at `offset`,
`n->hash` at `offset + 2`, `n->buf` at `offset + 6`; the target has room for
`htons(n->length) * 2 + 1` bytes and is terminated where the conversion stopped. -/
def name_convert (e : Endian) (names : Buf) (offset : Nat) : List Nat :=
  let length := htons e (load16 e names offset)
  let sourcelen := length * 2
  let targetlen := length * 2 + 1
  cstr (iconv (readBytes names (offset + 6) sourcelen) targetlen)

/-- One lower-case hexadecimal digit, as `%x` prints it. -/
def hexDigit (d : Nat) : Nat := if d < 10 then 48 + d else 87 + d

/-- The text printed by `%08x` for a 32-bit value. -/
def hex8 (x : Nat) : List Nat :=
  [hexDigit (x / 268435456 % 16), hexDigit (x / 16777216 % 16), hexDigit (x / 1048576 % 16),
   hexDigit (x / 65536 % 16), hexDigit (x / 4096 % 16), hexDigit (x / 256 % 16),
   hexDigit (x / 16 % 16), hexDigit (x % 16)]

/-- The root name `snprintf(name, 24, "__root_%08x__", tree)`: `treeAddr` is the numeric
value of the pointer `tree`, of which `%x` prints the low 32 bits. -/
def rootName (treeAddr : Nat) : List Nat :=
  [95, 95, 114, 111, 111, 116, 95] ++ hex8 (treeAddr % 4294967296) ++ [95, 95]

/-! ## The outside world -/

/-- `PATH_MAX` of `<limits.h>` on Linux. -/
def PATH_MAX : Nat := 4096

/-- zlib return code `Z_OK`. -/
def Z_OK : Int := 0
/-- zlib return code `Z_STREAM_END`. -/
def Z_STREAM_END : Int := 1

/-- What the program cannot decide by itself: the host, and the answers of libc and
zlib.  Paths are byte strings. -/
structure Env where
  /-- byte order of the host -/
  host : Endian
  /-- numeric value of the pointer `tree` (only printed into the root name) -/
  treeAddr : Nat
  /-- return value of `mkdir(path, S_IRWXU)` (0, or -1 on any failure) -/
  mkdirRet : List Nat → Int
  /-- whether `fopen(path, "wb")` returns a stream -/
  fopenOk : List Nat → Bool
  /-- whether `malloc(n)` returns a block -/
  mallocOk : Nat → Bool
  /-- the byte found at index `k` of a block fresh from `malloc` -/
  heap : Nat → Nat
  /-- return value of `inflateInit` -/
  inflateInitRet : Int
  /-- the call `inflate(&strm, Z_NO_FLUSH)`: from the `avail_in` input bytes and
  `avail_out`, the return code and the bytes stored at `next_out` -/
  inflate : List Nat → Nat → Int × List Nat

/-- Messages written to stderr. -/
inductive Msg where
  | openFailed
  | mallocFailed
  | inflateInitFailed
  | inflateFailed (ret : Int)
  | zstdWarning
  | hookCalled (ver : Int)
  | missingBase
deriving DecidableEq, Repr

/-- Observable actions of `render_tree`, in program order. -/
inductive Event where
  /-- lines 94-103: indentation by `depth`, index and flags -/
  | enter (depth i flags : Nat)
  /-- line 118: full path and name offset -/
  | showPath (fullpath : List Nat) (name_offset : Nat)
  /-- line 120: child count and child offset -/
  | showDir (child_count child_offset : Nat)
  /-- line 123: `mkdir(fullpath, S_IRWXU)` -/
  | mkdir (path : List Nat)
  /-- line 133: locale, data offset (already advanced by 4) and data length -/
  | showFile (locale data_offset data_length : Nat)
  /-- line 135: `fopen(fullpath, "wb")` -/
  | fopen (path : List Nat)
  /-- line 167: `inflate` called with input at `data + next_in`, `avail_in`, `avail_out` -/
  | inflate (next_in avail_in avail_out : Nat)
  /-- lines 175 and 184: `fwrite` of these bytes to the open file -/
  | fwrite (bytes : List Nat)
  /-- lines 187-188: `fflush` and `fclose` -/
  | fclose
  /-- a message on stderr -/
  | stderr (m : Msg)
  /-- line 207: the call of the original `qRegisterResourceData` -/
  | callOriginal (ver : Int)
deriving DecidableEq, Repr

/-- How a call ended. -/
inductive Status where
  /-- the function returned to its caller -/
  | returned
  /-- the process was ended by `exit(code)` -/
  | exited (code : Int)
  /-- the C standard gives the execution no meaning from here on -/
  | undefined
  /-- the bound on the recursion depth of the model was reached -/
  | outOfFuel
deriving DecidableEq, Repr

/-- Result of running a piece of the program: what it did, and how it ended. -/
structure Res where
  trace : List Event
  status : Status
deriving DecidableEq, Repr

/-- Sequencing: `k` runs after `r` only when `r` returned. -/
def Res.andThen (r k : Res) : Res :=
  match r.status with
  | .returned => ⟨r.trace ++ k.trace, k.status⟩
  | _ => r

/-- Actions `evs`, then `k`. -/
def Res.after (evs : List Event) (k : Res) : Res := ⟨evs ++ k.trace, k.status⟩

/-! ## `render_tree` -/

/-- The first `n` bytes of the block `out_buffer` after `inflate` stored `out` at its
start: what `inflate` did not write is what `malloc` left there. -/
def outBuffer (heap : Nat → Nat) (n : Nat) (out : List Nat) : List Nat :=
  (List.range n).map (fun k => if k < out.length then out.getD k 0 % 256 else heap k % 256)

/-- Lines 107-113: the name of node `i`, a placeholder for the root and the converted
name entry otherwise. -/
def nodeName (env : Env) (names : Buf) (i : Nat) (node : TreeObj) : List Nat :=
  if i = 0 then rootName env.treeAddr else name_convert env.host names node.name_offset

/-- Lines 128-188 of `render_tree`: the `else` branch taken by a node without the
`Directory` flag.  `node.offset` is `htonl(node->data_offset)`, `node.count` is
`htonl(node->locale)`. -/
def render_file (env : Env) (data : Buf) (node : TreeObj) (fullpath : List Nat) : Res :=
  let data_offset0 := node.offset
  let data_length0 := htonl env.host (load32 env.host data data_offset0)
  let data_offset := (data_offset0 + 4) % 4294967296
  let pre := [Event.showFile node.count data_offset data_length0, Event.fopen fullpath]
  if env.fopenOk fullpath = false then
    ⟨pre ++ [Event.stderr Msg.openFailed], Status.exited (-1)⟩
  else if node.flags &&& Compressed ≠ 0 then
    let expected_length := htonl env.host (load32 env.host data data_offset)
    let data_offset2 := (data_offset + 4) % 4294967296
    let data_length := (data_length0 + 4294967296 - 4) % 4294967296
    if env.mallocOk expected_length = false then
      ⟨pre ++ [Event.stderr Msg.mallocFailed], Status.exited (-1)⟩
    else if env.inflateInitRet ≠ Z_OK then
      ⟨pre ++ [Event.stderr Msg.inflateInitFailed], Status.exited (-1)⟩
    else
      let r := env.inflate (readBytes data data_offset2 data_length) expected_length
      let call := Event.inflate data_offset2 data_length expected_length
      if r.1 ≠ Z_STREAM_END then
        ⟨pre ++ [call, Event.stderr (Msg.inflateFailed r.1)], Status.exited (-1)⟩
      else
        ⟨pre ++ [call, Event.fwrite (outBuffer env.heap expected_length r.2), Event.fclose],
          Status.returned⟩
  else
    let warn := if node.flags &&& CompressedZstd ≠ 0 then [Event.stderr Msg.zstdWarning] else []
    ⟨pre ++ warn ++ [Event.fwrite (readBytes data data_offset data_length0), Event.fclose],
      Status.returned⟩

/-- The loop `for (int c = offset; c < offset + count; c++) render_tree(.., c, ..)` of
lines 124-126, started at `c` with at most `n` iterations left to do; `call` is the
recursive call, whose parameter `i` is `uint32_t`.  A call that does not return ends
the loop. -/
def childLoop (call : Nat → Res) (bound : Int) : Nat → Int → Res
  | 0, _ => ⟨[], Status.returned⟩
  | n + 1, c =>
    if c < bound then (call (toUInt32 c)).andThen (childLoop call bound n (c + 1))
    else ⟨[], Status.returned⟩

/-- Embedding of `render_tree(ver, tree, names, data, i, depth, path)`.  The first
argument bounds the depth of the recursion.  `path` is the content of the C string
`path`.  The execution has no meaning when `fullpath` overflows its `PATH_MAX` bytes
or when the `int` sum `offset + count` overflows. -/
def render_tree (env : Env) :
    Nat → Nat → Buf → Buf → Buf → Nat → Nat → List Nat → Res
  | 0, _, _, _, _, _, _, _ => ⟨[], Status.outOfFuel⟩
  | fuel + 1, ver, tree, names, data, i, depth, path =>
    let node := readNode env.host tree (nodeOffset ver i)
    let flags := node.flags
    let name := nodeName env names i node
    if PATH_MAX < path.length + 1 + name.length + 1 then
      ⟨[Event.enter depth i flags], Status.undefined⟩
    else
      let fullpath := path ++ [47] ++ name
      let head := [Event.enter depth i flags, Event.showPath fullpath node.name_offset]
      if flags &&& Directory ≠ 0 then
        let count := toInt32 node.count
        let offset := toInt32 node.offset
        let pre := head ++ [Event.showDir node.count node.offset, Event.mkdir fullpath]
        if offset + count < -2147483648 ∨ 2147483647 < offset + count then
          ⟨pre, Status.undefined⟩
        else
          Res.after pre
            (childLoop
              (fun c => render_tree env fuel ver tree names data c
                ((depth + 1) % 4294967296) fullpath)
              (offset + count) (offset + count - offset).toNat offset)
      else
        Res.after head (render_file env data node fullpath)

/-- Embedding of the interposed `_Z21qRegisterResourceDataiPKhS0_S0_` (lines 192-208):
`started` is the global flag, `extract_base` the value of `getenv("QTEXTRACT_BASE")`.
`ver` is an `int` here and a `uint8_t` in `render_tree`. -/
def qRegisterResourceData (env : Env) (started : Bool) (extract_base : Option (List Nat))
    (fuel : Nat) (ver : Int) (tree names data : Buf) : Res :=
  let hello := [Event.stderr (Msg.hookCalled ver)]
  if started then
    match extract_base with
    | none => ⟨hello ++ [Event.stderr Msg.missingBase], Status.exited 1⟩
    | some base =>
      (Res.after hello (render_tree env fuel (ver % 256).toNat tree names data 0 0 base)).andThen
        ⟨[Event.callOriginal ver], Status.returned⟩
  else ⟨hello ++ [Event.callOriginal ver], Status.returned⟩

/-! ## A reference inflater for stored blocks

zlib itself is outside the program.  To run the model on concrete containers, the
following function decodes the zlib streams whose deflate blocks are all of the stored
kind (RFC 1950 header, RFC 1951 blocks of type 00, Adler-32 trailer), with the
interface of one call `inflate(&strm, Z_NO_FLUSH)`. -/

/-- Adler-32 checksum of `bs`. -/
def adler32 (bs : List Nat) : Nat :=
  let r := bs.foldl (fun (ab : Nat × Nat) x => ((ab.1 + x) % 65521, (ab.2 + (ab.1 + x) % 65521) % 65521)) (1, 0)
  r.2 * 65536 + r.1

/-- zlib return code `Z_DATA_ERROR`. -/
def Z_DATA_ERROR : Int := -3
/-- zlib return code `Z_BUF_ERROR`. -/
def Z_BUF_ERROR : Int := -5

/-- The stored blocks of a deflate stream: `acc` is the output so far.  Result: the
return code and the bytes stored in the output, never more than `avail_out`. -/
def inflateBlocks (avail_out : Nat) : Nat → List Nat → List Nat → Int × List Nat
  | 0, _, acc => (Z_OK, acc)
  | n + 1, hdr :: l0 :: l1 :: n0 :: n1 :: rest, acc =>
    let len := l0 + l1 * 256
    if hdr % 8 / 2 ≠ 0 then (Z_DATA_ERROR, acc)
    else if len + (n0 + n1 * 256) ≠ 65535 then (Z_DATA_ERROR, acc)
    else if rest.length < len then
      (Z_OK, acc ++ (rest.take (avail_out - acc.length)))
    else if avail_out < acc.length + len then
      (Z_OK, acc ++ (rest.take (avail_out - acc.length)))
    else if hdr % 2 = 1 then
      match rest.drop len with
      | a3 :: a2 :: a1 :: a0 :: _ =>
        if a3 * 16777216 + a2 * 65536 + a1 * 256 + a0 = adler32 (acc ++ rest.take len) then
          (Z_STREAM_END, acc ++ rest.take len)
        else (Z_DATA_ERROR, acc ++ rest.take len)
      | _ => (Z_OK, acc ++ rest.take len)
    else inflateBlocks avail_out n (rest.drop len) (acc ++ rest.take len)
  | _ + 1, _, acc => (Z_OK, acc)

/-- One call `inflate(&strm, Z_NO_FLUSH)` on a zlib stream of stored blocks. -/
def inflateStored (input : List Nat) (avail_out : Nat) : Int × List Nat :=
  match input with
  | cmf :: flg :: rest =>
    if cmf % 16 ≠ 8 ∨ 7 < cmf / 16 ∨ (cmf * 256 + flg) % 31 ≠ 0 ∨ flg / 32 % 2 = 1 then
      (Z_DATA_ERROR, [])
    else inflateBlocks avail_out input.length rest []
  | _ => (Z_BUF_ERROR, [])

/-- The zlib stream that stores `p` (shorter than 65536 bytes) in one stored block. -/
def zlibStore (p : List Nat) : List Nat :=
  let a := adler32 p
  [120, 1, 1, p.length % 256, p.length / 256, 255 - p.length % 256, 255 - p.length / 256] ++ p ++
    [a / 16777216 % 256, a / 65536 % 256, a / 256 % 256, a % 256]

/-- Big-endian encoding of a 32-bit value. -/
def be32Bytes (x : Nat) : List Nat :=
  [x / 16777216 % 256, x / 65536 % 256, x / 256 % 256, x % 256]

/-- A host on which every library call succeeds and zlib is `inflateStored`. -/
def stdEnv : Env :=
  { host := Endian.little
    treeAddr := 0
    mkdirRet := fun _ => 0
    fopenOk := fun _ => true
    mallocOk := fun _ => true
    heap := fun _ => 0
    inflateInitRet := Z_OK
    inflate := inflateStored }

/-! ## Reading traces -/

/-- The byte string `c` is, for the zlib of `env`, a complete stream of the payload `p`:
one call of `inflate` on `c` with room for exactly `p.length` bytes stores `p` and
returns `Z_STREAM_END`. -/
def IsZlibStreamOf (env : Env) (c p : List Nat) : Prop :=
  env.inflate c p.length = (Z_STREAM_END, p)

/-- The bytes handed to `fwrite`, in order. -/
def written (tr : List Event) : List Nat :=
  tr.flatMap (fun ev => match ev with
    | Event.fwrite bs => bs
    | _ => [])

/-- The indices of the calls of `render_tree` made at recursion depth `depth + 1`:
the children on which a call at depth `depth` recursed. -/
def childVisits (depth : Nat) (tr : List Event) : List Nat :=
  tr.filterMap (fun ev => match ev with
    | Event.enter d i _ => if d = depth + 1 then some i else none
    | _ => none)

/-- Whether the event is the entry of a call of `render_tree`. -/
def Event.isEnter : Event → Bool
  | Event.enter _ _ _ => true
  | _ => false

/-- Whether the event is a call of `mkdir`. -/
def Event.isMkdir : Event → Bool
  | Event.mkdir _ => true
  | _ => false

/-- Whether the event is a call of `fopen`. -/
def Event.isFopen : Event → Bool
  | Event.fopen _ => true
  | _ => false

/-- Whether the event is a call of `fwrite`. -/
def Event.isFwrite : Event → Bool
  | Event.fwrite _ => true
  | _ => false

/-- Whether the event acts on an output file (`fopen`, `fwrite`, `fclose`). -/
def Event.isFileOp : Event → Bool
  | Event.fopen _ => true
  | Event.fwrite _ => true
  | Event.fclose => true
  | _ => false

/-- Every `fopen` in the trace that fails on the host `env` is followed by the
diagnostic of line 137 and by nothing else, and the run then ended in `exit(-1)`. -/
def failedOpenEnds (env : Env) (st : Status) : List Event → Prop
  | [] => True
  | Event.fopen p :: rest =>
    if env.fopenOk p = true then failedOpenEnds env st rest
    else rest = [Event.stderr Msg.openFailed] ∧ st = Status.exited (-1)
  | _ :: rest => failedOpenEnds env st rest

/-- The indices of all calls of `render_tree` in the trace, in the order of the calls:
the nodes that were processed. -/
def visited (tr : List Event) : List Nat :=
  tr.filterMap (fun ev => match ev with
    | Event.enter _ i _ => some i
    | _ => none)

/-- Record `j` of the node array of the data model: the node array is a contiguous
array of records of 14 bytes (version 1) or 22 bytes (version 2), so record `j` starts
at byte `14 * j` or `22 * j` of the tree buffer; its fields are big-endian. -/
def nodeRecord (ver : Nat) (tree : Buf) (j : Nat) : TreeObj :=
  { name_offset := be32 tree ((if ver = 1 then 14 else 22) * j)
    flags := be16 tree ((if ver = 1 then 14 else 22) * j + 4)
    count := be32 tree ((if ver = 1 then 14 else 22) * j + 6)
    offset := be32 tree ((if ver = 1 then 14 else 22) * j + 10) }

/-- Node `c` is a child of node `j` in the node array: record `j` is a directory and `c`
lies in its range `[child_offset, child_offset + child_count)`. -/
@[reducible] def isChildOf (ver : Nat) (tree : Buf) (j c : Nat) : Prop :=
  (nodeRecord ver tree j).flags &&& Directory ≠ 0
  ∧ (nodeRecord ver tree j).offset ≤ c
  ∧ c < (nodeRecord ver tree j).offset + (nodeRecord ver tree j).count

/-- Node `x` is node `a` or a descendant of node `a` in a node array of `N` nodes. -/
inductive Reach (ver : Nat) (tree : Buf) (N : Nat) (a : Nat) : Nat → Prop where
  | refl : Reach ver tree N a a
  | step (p c : Nat) : Reach ver tree N a p → p < N → isChildOf ver tree p c →
      Reach ver tree N a c

/-- The data-model invariant "the `N` nodes of the node array form a tree": the child
range of every directory lies inside the node array, no node is its own descendant
(`ht` bounds the height of the subtree below each node: it decreases from a directory to
each of its children) and no node has two parents. -/
structure TreeInvariant (ver : Nat) (tree : Buf) (N : Nat) (ht : Nat → Nat) : Prop where
  closed : ∀ j, j < N → (nodeRecord ver tree j).flags &&& Directory ≠ 0 →
    (nodeRecord ver tree j).offset + (nodeRecord ver tree j).count ≤ N
  acyclic : ∀ j, j < N → ∀ c, c < N → isChildOf ver tree j c → ht c < ht j
  oneParent : ∀ j1, j1 < N → ∀ j2, j2 < N → ∀ c, c < N →
    isChildOf ver tree j1 c → isChildOf ver tree j2 c → j1 = j2

/-! ## Concrete containers and hosts

Inputs on which the statements below are evaluated. -/

/-- A version 1 tree buffer in which node 1 has name offset 0, the given flags, locale 0
and the given `data_offset` field (4 bytes). -/
def fileTree (flags : Nat) (off : List Nat) : Buf :=
  bufOfList ([0, 0, 0, 0, 0, 2, 0, 0, 0, 1, 0, 0, 0, 1] ++ [0, 0, 0, 0, 0, flags, 0, 0, 0, 0] ++ off)

/-- A data buffer longer than 2^32 bytes: the length field 1 in bytes 2^32-4 .. 2^32-1,
the byte 34 at 2^32 and the byte 17 at 0. -/
def wrapData : Buf :=
  fun a => if a = 4294967295 then 1 else if a = 4294967296 then 34 else if a = 0 then 17 else 0

/-- A data buffer longer than 2^32 bytes that holds `bs` from byte 2^32-4 on and zero
before. -/
def highData (bs : List Nat) : Buf :=
  fun a => if a < 4294967292 then 0 else bs.getD (a - 4294967292) 0

/-- The host `stdEnv` on which every `fopen` fails. -/
def noOpenEnv : Env := { stdEnv with fopenOk := fun _ => false }

/-- The host `stdEnv` on which every `malloc` fails. -/
def noMallocEnv : Env := { stdEnv with mallocOk := fun _ => false }

/-- The host `stdEnv` on which `inflateInit` fails with `Z_MEM_ERROR`. -/
def noInitEnv : Env := { stdEnv with inflateInitRet := -4 }

/-- The host `stdEnv` where fresh heap blocks are filled with the byte 170. -/
def dirtyHeapEnv : Env := { stdEnv with heap := fun _ => 170 }

/-- A data entry at offset 0 for a `Compressed` node: length field, expected length
`exp`, then the stream `c`. -/
def compressedEntry (exp : Nat) (c : List Nat) : List Nat :=
  be32Bytes (c.length + 4) ++ be32Bytes exp ++ c

/-- A version 1 tree buffer: the root, a directory with the given `child_count` and
`child_offset` fields (4 bytes each), followed by the file nodes 1 and 2 with the given
flags, name offset 0 and data offset 0. -/
def dirTree (count off : List Nat) (flags1 flags2 : Nat) : Buf :=
  bufOfList ([0, 0, 0, 0, 0, 2] ++ count ++ off
    ++ [0, 0, 0, 0, 0, flags1, 0, 0, 0, 0, 0, 0, 0, 0]
    ++ [0, 0, 0, 0, 0, flags2, 0, 0, 0, 0, 0, 0, 0, 0])

/-- A version 1 tree buffer whose only non-zero byte is byte 15. -/
def wrapTree : Buf := fun a => if a = 15 then 2 else 0

/-- A version 2 tree buffer: the root, a directory with the one child 1, and node 1, a
file; bytes 14..21 of both records are zero. -/
def tinyTree2 : Buf :=
  bufOfList ([0, 0, 0, 0, 0, 2, 0, 0, 0, 1, 0, 0, 0, 1] ++ [0, 0, 0, 0, 0, 0, 0, 0]
    ++ [0, 0, 0, 0, 0, 0, 0, 0, 0, 0, 0, 0, 0, 0] ++ [0, 0, 0, 0, 0, 0, 0, 0])

/-- The buffer `tinyTree2` with other values in bytes 14..21 of both records. -/
def tinyTree2Hashed : Buf :=
  bufOfList ([0, 0, 0, 0, 0, 2, 0, 0, 0, 1, 0, 0, 0, 1] ++ [1, 2, 3, 4, 5, 6, 7, 8]
    ++ [0, 0, 0, 0, 0, 0, 0, 0, 0, 0, 0, 0, 0, 0] ++ [9, 10, 11, 12, 13, 14, 15, 16])

/-- The name entry at offset 0 with count 5, hash bytes DE AD BE EF and the UTF-16BE
code units of "hello". -/
def helloEntry : Buf :=
  bufOfList [0, 5, 222, 173, 190, 239, 0, 104, 0, 101, 0, 108, 0, 108, 0, 111]

/-- The name entry at offset 0 with count 2 and the code units U+4E2D, U+6587. -/
def cjkEntry : Buf := bufOfList [0, 2, 0, 0, 0, 0, 78, 45, 101, 135]

/-- The host `stdEnv` on which every `mkdir` and every `fopen` fails, as when the base
directory does not exist (`ENOENT`) or may not be written to (`EACCES`). -/
def nothingWorksEnv : Env := { stdEnv with mkdirRet := fun _ => -1, fopenOk := fun _ => false }

/-- A version 2 tree buffer: in record 0, the root, a directory (flags 2) with
`child_count = 1` and `child_offset = 195225787` (bytes 0B A2 E8 BB), and the byte `b` in
byte 21; zero elsewhere. -/
def farChildTree (b : Nat) : Buf := fun a =>
  if a = 5 then 2 else if a = 9 then 1 else if a = 10 then 11 else if a = 11 then 162
  else if a = 12 then 232 else if a = 13 then 187 else if a = 21 then b else 0

/-- The first two records of a version 1 node array of 306783380 nodes, all further
records being zero (files): the root, a directory with `child_count = 306783378` (bytes
12 49 24 92) and `child_offset = 1`; node 1, a directory with name offset 0x00020000,
`child_count = 1` and `child_offset = 306783379` (bytes 12 49 24 93). -/
def loopTree : Buf :=
  bufOfList ([0, 0, 0, 0, 0, 2, 18, 73, 36, 146, 0, 0, 0, 1]
    ++ [0, 2, 0, 0, 0, 2, 0, 0, 0, 1, 18, 73, 36, 147])

/-- A version 1 tree buffer of two nodes: the root, a directory with the child 1, and
node 1, a directory with name offset 0 and no children. -/
def dirOnlyTree : Buf :=
  bufOfList ([0, 0, 0, 0, 0, 2, 0, 0, 0, 1, 0, 0, 0, 1]
    ++ [0, 0, 0, 0, 0, 2, 0, 0, 0, 0, 0, 0, 0, 0])

/-- A version 1 tree buffer of four nodes: the root, a directory with the child 1; node
1, a directory named by the entry at 0 with the child 2; node 2, a directory named by
the entry at 8 with the child 3; node 3, a file named by the entry at 16 with data
offset 0. -/
def nestedTree : Buf :=
  bufOfList ([0, 0, 0, 0, 0, 2, 0, 0, 0, 1, 0, 0, 0, 1]
    ++ [0, 0, 0, 0, 0, 2, 0, 0, 0, 1, 0, 0, 0, 2]
    ++ [0, 0, 0, 8, 0, 2, 0, 0, 0, 1, 0, 0, 0, 3]
    ++ [0, 0, 0, 16, 0, 0, 0, 0, 0, 0, 0, 0, 0, 0])

/-- The name entries "a" at offset 0, "b" at offset 8 and "c.txt" at offset 16. -/
def nestedNames : Buf :=
  bufOfList ([0, 1, 0, 0, 0, 0, 0, 97] ++ [0, 1, 0, 0, 0, 0, 0, 98]
    ++ [0, 5, 0, 0, 0, 0, 0, 99, 0, 46, 0, 116, 0, 120, 0, 116])

/-! ## Byte order lemmas -/

theorem byteAt_lt (b : Buf) (a : Nat) : byteAt b a < 256 := Nat.mod_lt _ (by decide)

theorem htons_load16 (e : Endian) (b : Buf) (a : Nat) : htons e (load16 e b a) = be16 b a := by
  have h0 := byteAt_lt b a
  have h1 := byteAt_lt b (a + 1)
  cases e <;> simp only [htons, load16, be16, bswap16] <;> omega

theorem htonl_load32 (e : Endian) (b : Buf) (a : Nat) : htonl e (load32 e b a) = be32 b a := by
  have h0 := byteAt_lt b a
  have h1 := byteAt_lt b (a + 1)
  have h2 := byteAt_lt b (a + 2)
  have h3 := byteAt_lt b (a + 3)
  cases e <;> simp only [htonl, load32, be32, bswap32] <;> omega

theorem be16_lt (b : Buf) (a : Nat) : be16 b a < 65536 := by
  have h0 := byteAt_lt b a
  have h1 := byteAt_lt b (a + 1)
  simp only [be16]; omega

theorem be32_lt (b : Buf) (a : Nat) : be32 b a < 4294967296 := by
  have h0 := byteAt_lt b a
  have h1 := byteAt_lt b (a + 1)
  have h2 := byteAt_lt b (a + 2)
  have h3 := byteAt_lt b (a + 3)
  simp only [be32]; omega

theorem readNode_eq (e : Endian) (tree : Buf) (base : Nat) :
    readNode e tree base =
      { name_offset := be32 tree base, flags := be16 tree (base + 4),
        count := be32 tree (base + 6), offset := be32 tree (base + 10) } := by
  simp only [readNode, htons_load16, htonl_load32]

/-! ## Names -/

theorem readBytes_succ (b : Buf) (s n : Nat) :
    readBytes b s (n + 1) = byteAt b s :: readBytes b (s + 1) n := by
  simp only [readBytes, List.range_succ_eq_map, List.map_cons, List.map_map, Nat.add_zero]
  congr 1
  apply List.map_congr_left
  intro k _
  simp only [Function.comp_apply]
  congr 1
  omega

theorem readBytes_length (b : Buf) (s n : Nat) : (readBytes b s n).length = n := by
  simp [readBytes]

theorem iconv_bmp (hi lo : Nat) (rest : List Nat) (cap : Nat)
    (h : ¬ (55296 ≤ hi * 256 + lo ∧ hi * 256 + lo < 57344)) :
    iconv (hi :: lo :: rest) cap =
      if (utf8Encode (hi * 256 + lo)).length ≤ cap then
        utf8Encode (hi * 256 + lo) ++ iconv rest (cap - (utf8Encode (hi * 256 + lo)).length)
      else [] := by
  rw [iconv.eq_def]
  have h1 : ¬ (55296 ≤ hi * 256 + lo ∧ hi * 256 + lo < 56320) := by omega
  have h2 : ¬ (56320 ≤ hi * 256 + lo ∧ hi * 256 + lo < 57344) := by omega
  simp only [h1, h2, if_false]

theorem iconv_ascii (b : Buf) (n : Nat) :
    ∀ (s cap : Nat), n ≤ cap →
      (∀ k, k < n → byteAt b (s + 2 * k) = 0 ∧ byteAt b (s + 2 * k + 1) < 128) →
      iconv (readBytes b s (2 * n)) cap = (List.range n).map (fun k => byteAt b (s + 2 * k + 1)) := by
  induction n with
  | zero => intro s cap _ _; simp [readBytes, iconv]
  | succ n ih =>
    intro s cap hcap h
    have h0 := h 0 (Nat.succ_pos n)
    have e2 : 2 * (n + 1) = (2 * n + 1) + 1 := by omega
    rw [e2, readBytes_succ, readBytes_succ]
    have hrest : ∀ k, k < n →
        byteAt b (s + 1 + 1 + 2 * k) = 0 ∧ byteAt b (s + 1 + 1 + 2 * k + 1) < 128 := by
      intro k hk
      have := h (k + 1) (Nat.succ_lt_succ hk)
      have e3 : s + 2 * (k + 1) = s + 1 + 1 + 2 * k := by omega
      rw [e3] at this
      exact this
    have hz : byteAt b s = 0 := by simpa using h0.1
    have hl : byteAt b (s + 1) < 128 := by simpa using h0.2
    have henc : utf8Encode (byteAt b (s + 1)) = [byteAt b (s + 1)] := by
      simp [utf8Encode, hl]
    have hc1 : 1 ≤ cap := by omega
    rw [hz, iconv_bmp 0 _ _ _ (by omega)]
    simp only [Nat.zero_mul, Nat.zero_add, henc, List.length_singleton]
    rw [if_pos hc1, ih (s + 1 + 1) (cap - 1) (by omega) hrest, List.range_succ_eq_map]
    simp only [List.map_cons, List.map_map, List.singleton_append, Nat.mul_zero, Nat.add_zero]
    congr 1
    apply List.map_congr_left
    intro k _
    simp only [Function.comp_apply]
    congr 1
    omega

theorem cstr_of_nonzero (l : List Nat) (h : ∀ x ∈ l, x ≠ 0) : cstr l = l := by
  unfold cstr
  rw [List.takeWhile_eq_self_iff]
  intro x hx
  simpa using h x hx

/-- Claim C7: a name entry whose big-endian count is `n` and whose `n` UTF-16BE code
units, 6 bytes after the entry offset, are non-NUL ASCII decodes to exactly these `n`
ASCII bytes on every host; the result is the same for any other content of the four
hash bytes. -/
theorem name_convert_ascii (e : Endian) (names : Buf) (offset n : Nat)
    (hn : be16 names offset = n)
    (hascii : ∀ k, k < n → byteAt names (offset + 6 + 2 * k) = 0 ∧
      0 < byteAt names (offset + 6 + 2 * k + 1) ∧ byteAt names (offset + 6 + 2 * k + 1) < 128) :
    name_convert e names offset = (List.range n).map (fun k => byteAt names (offset + 6 + 2 * k + 1))
    ∧ (name_convert e names offset).length = n
    ∧ ∀ names2 : Buf, (∀ a, a < offset + 2 ∨ offset + 6 ≤ a → names2 a = names a) →
        name_convert e names2 offset = name_convert e names offset := by
  have main : ∀ nb : Buf, be16 nb offset = n →
      (∀ k, k < n → byteAt nb (offset + 6 + 2 * k) = 0 ∧
        0 < byteAt nb (offset + 6 + 2 * k + 1) ∧ byteAt nb (offset + 6 + 2 * k + 1) < 128) →
      name_convert e nb offset = (List.range n).map (fun k => byteAt nb (offset + 6 + 2 * k + 1)) := by
    intro nb hnb hnasc
    unfold name_convert
    simp only [htons_load16, hnb]
    rw [Nat.mul_comm n 2, iconv_ascii nb n (offset + 6) (2 * n + 1) (by omega)
      (fun k hk => ⟨(hnasc k hk).1, (hnasc k hk).2.2⟩)]
    apply cstr_of_nonzero
    intro x hx
    rw [List.mem_map] at hx
    obtain ⟨k, hk, rfl⟩ := hx
    have := (hnasc k (List.mem_range.mp hk)).2.1
    omega
  refine ⟨main names hn hascii, ?_, ?_⟩
  · rw [main names hn hascii]; simp
  · intro names2 h2
    have hb : ∀ a, a < offset + 2 ∨ offset + 6 ≤ a → byteAt names2 a = byteAt names a := by
      intro a ha; simp only [byteAt, h2 a ha]
    have hn2 : be16 names2 offset = n := by
      rw [← hn]; simp only [be16]
      rw [hb offset (by omega), hb (offset + 1) (by omega)]
    have hasc2 : ∀ k, k < n → byteAt names2 (offset + 6 + 2 * k) = 0 ∧
        0 < byteAt names2 (offset + 6 + 2 * k + 1) ∧ byteAt names2 (offset + 6 + 2 * k + 1) < 128 := by
      intro k hk
      rw [hb _ (by omega), hb _ (by omega)]
      exact hascii k hk
    rw [main names2 hn2 hasc2, main names hn hascii]
    apply List.map_congr_left
    intro k _
    exact hb _ (by omega)

/-- Witness of C7: the entry with count 5 encoding "hello" decodes to "hello". -/
theorem name_convert_ascii_witness :
    name_convert Endian.little helloEntry 0 = [104, 101, 108, 108, 111] :=
  (name_convert_ascii Endian.little helloEntry 0 5 (by decide) (by decide)).1

/-- Claim C8, evaluated: for the entry of the two code units U+4E2D U+6587 the target
has room for 2*2+1 = 5 bytes, the UTF-8 encoding needs 6, and `name_convert` returns
the 3 bytes of the first character only. -/
theorem name_convert_drops_code_unit :
    be16 cjkEntry 0 = 2
    ∧ readBytes cjkEntry 6 4 = [78, 45, 101, 135]
    ∧ utf8Encode (78 * 256 + 45) ++ utf8Encode (101 * 256 + 135) = [228, 184, 173, 230, 150, 135]
    ∧ name_convert Endian.little cjkEntry 0 = [228, 184, 173]
    ∧ name_convert Endian.big cjkEntry 0 = [228, 184, 173] := by
  decide

/-! ## One step of `render_tree` -/

theorem render_tree_undefined (env : Env) (fuel ver : Nat) (tree names data : Buf)
    (i depth : Nat) (path : List Nat)
    (h : PATH_MAX < path.length + 1 +
      (nodeName env names i (readNode env.host tree (nodeOffset ver i))).length + 1) :
    render_tree env (fuel + 1) ver tree names data i depth path =
      ⟨[Event.enter depth i (readNode env.host tree (nodeOffset ver i)).flags],
        Status.undefined⟩ := by
  simp only [render_tree, h, if_true]

theorem render_tree_file (env : Env) (fuel ver : Nat) (tree names data : Buf)
    (i depth : Nat) (path : List Nat)
    (hfit : path.length + 1 +
      (nodeName env names i (readNode env.host tree (nodeOffset ver i))).length + 1 ≤ PATH_MAX)
    (hfile : (readNode env.host tree (nodeOffset ver i)).flags &&& Directory = 0) :
    render_tree env (fuel + 1) ver tree names data i depth path =
      Res.after
        [Event.enter depth i (readNode env.host tree (nodeOffset ver i)).flags,
         Event.showPath
          (path ++ [47] ++ nodeName env names i (readNode env.host tree (nodeOffset ver i)))
          (readNode env.host tree (nodeOffset ver i)).name_offset]
        (render_file env data (readNode env.host tree (nodeOffset ver i))
          (path ++ [47] ++ nodeName env names i (readNode env.host tree (nodeOffset ver i)))) := by
  have h1 : ¬ (PATH_MAX < path.length + 1 +
      (nodeName env names i (readNode env.host tree (nodeOffset ver i))).length + 1) := by omega
  simp only [render_tree, h1, if_false, hfile, ne_eq, not_true_eq_false]

theorem render_tree_dir (env : Env) (fuel ver : Nat) (tree names data : Buf)
    (i depth : Nat) (path : List Nat)
    (hfit : path.length + 1 +
      (nodeName env names i (readNode env.host tree (nodeOffset ver i))).length + 1 ≤ PATH_MAX)
    (hdir : (readNode env.host tree (nodeOffset ver i)).flags &&& Directory ≠ 0)
    (hlo : -2147483648 ≤ toInt32 (readNode env.host tree (nodeOffset ver i)).offset +
      toInt32 (readNode env.host tree (nodeOffset ver i)).count)
    (hhi : toInt32 (readNode env.host tree (nodeOffset ver i)).offset +
      toInt32 (readNode env.host tree (nodeOffset ver i)).count ≤ 2147483647) :
    render_tree env (fuel + 1) ver tree names data i depth path =
      Res.after
        [Event.enter depth i (readNode env.host tree (nodeOffset ver i)).flags,
         Event.showPath
          (path ++ [47] ++ nodeName env names i (readNode env.host tree (nodeOffset ver i)))
          (readNode env.host tree (nodeOffset ver i)).name_offset,
         Event.showDir (readNode env.host tree (nodeOffset ver i)).count
          (readNode env.host tree (nodeOffset ver i)).offset,
         Event.mkdir
          (path ++ [47] ++ nodeName env names i (readNode env.host tree (nodeOffset ver i)))]
        (childLoop
          (fun c => render_tree env fuel ver tree names data c ((depth + 1) % 4294967296)
            (path ++ [47] ++ nodeName env names i (readNode env.host tree (nodeOffset ver i))))
          (toInt32 (readNode env.host tree (nodeOffset ver i)).offset +
            toInt32 (readNode env.host tree (nodeOffset ver i)).count)
          (toInt32 (readNode env.host tree (nodeOffset ver i)).offset +
            toInt32 (readNode env.host tree (nodeOffset ver i)).count -
            toInt32 (readNode env.host tree (nodeOffset ver i)).offset).toNat
          (toInt32 (readNode env.host tree (nodeOffset ver i)).offset)) := by
  have h1 : ¬ (PATH_MAX < path.length + 1 +
      (nodeName env names i (readNode env.host tree (nodeOffset ver i))).length + 1) := by omega
  have h2 : ¬ (toInt32 (readNode env.host tree (nodeOffset ver i)).offset +
      toInt32 (readNode env.host tree (nodeOffset ver i)).count < -2147483648 ∨
      2147483647 < toInt32 (readNode env.host tree (nodeOffset ver i)).offset +
      toInt32 (readNode env.host tree (nodeOffset ver i)).count) := by omega
  simp only [render_tree, h1, if_false, hdir, ne_eq, not_false_eq_true, if_true, h2,
    List.cons_append, List.nil_append]

theorem render_tree_head (env : Env) (fuel ver : Nat) (tree names data : Buf)
    (i depth : Nat) (path : List Nat) :
    (render_tree env (fuel + 1) ver tree names data i depth path).trace.head? =
      some (Event.enter depth i (readNode env.host tree (nodeOffset ver i)).flags) := by
  simp only [render_tree]
  split
  · rfl
  · split
    · split <;> rfl
    · rfl

theorem readNode_congr (e : Endian) (tree tree2 : Buf) (base : Nat)
    (h : ∀ k, k < 14 → tree2 (base + k) = tree (base + k)) :
    readNode e tree2 base = readNode e tree base := by
  have hb : ∀ k, k < 14 → byteAt tree2 (base + k) = byteAt tree (base + k) := by
    intro k hk; simp only [byteAt, h k hk]
  have h0 := hb 0 (by omega)
  simp only [Nat.add_zero] at h0
  simp only [readNode_eq, be32, be16, Nat.add_assoc, Nat.reduceAdd, h0, hb 1 (by omega),
    hb 2 (by omega), hb 3 (by omega), hb 4 (by omega), hb 5 (by omega), hb 6 (by omega),
    hb 7 (by omega), hb 8 (by omega), hb 9 (by omega), hb 10 (by omega), hb 11 (by omega),
    hb 12 (by omega), hb 13 (by omega)]

theorem render_tree_local (env : Env) (ver : Nat) (tree tree2 names data : Buf)
    (i depth : Nat) (path : List Nat)
    (h : readNode env.host tree2 (nodeOffset ver i) = readNode env.host tree (nodeOffset ver i)) :
    render_tree env 1 ver tree2 names data i depth path =
      render_tree env 1 ver tree names data i depth path := by
  simp only [render_tree, h]

/-- Claim C2 (amended): in version 1 the record of node `i` is read at byte offset
`(14 * i) mod 2^32` of the tree buffer, in version 2 at `(22 * i) mod 2^32`: the flags
shown at the entry of the call are the big-endian 16-bit value 4 bytes after that
offset, and the processing of the node itself (recursive calls cut off) is the same for
any tree buffer with the same 14 bytes at that offset. -/
theorem render_tree_record_offset (env : Env) (fuel ver : Nat) (tree tree2 names data : Buf)
    (i depth : Nat) (path : List Nat) (off : Nat)
    (hoff : (ver = 1 ∧ off = 14 * i % 4294967296) ∨ (ver = 2 ∧ off = 22 * i % 4294967296))
    (hagree : ∀ k, k < 14 → tree2 (off + k) = tree (off + k)) :
    nodeOffset ver i = off
    ∧ (render_tree env (fuel + 1) ver tree names data i depth path).trace.head? =
        some (Event.enter depth i (be16 tree (off + 4)))
    ∧ render_tree env 1 ver tree2 names data i depth path =
        render_tree env 1 ver tree names data i depth path := by
  have hno : nodeOffset ver i = off := by
    rcases hoff with ⟨hv, ho⟩ | ⟨hv, ho⟩
    · subst hv; rw [ho]; simp only [nodeOffset, if_true, Nat.mul_comm]
    · subst hv; rw [ho]; simp only [nodeOffset, Nat.mul_comm]; rfl
  refine ⟨hno, ?_, ?_⟩
  · rw [render_tree_head, hno, readNode_eq]
  · apply render_tree_local
    rw [hno]
    exact readNode_congr _ _ _ _ hagree

/-- Witness of C2: node 1 of a version 2 tree is read at byte offset 22. -/
theorem render_tree_record_offset_witness :
    nodeOffset 2 1 = 22
    ∧ (render_tree stdEnv (0 + 1) 2 tinyTree2 helloEntry (fun _ => 0) 1 1 [47]).trace.head? =
        some (Event.enter 1 1 (be16 tinyTree2 (22 + 4)))
    ∧ render_tree stdEnv 1 2 tinyTree2Hashed helloEntry (fun _ => 0) 1 1 [47] =
        render_tree stdEnv 1 2 tinyTree2 helloEntry (fun _ => 0) 1 1 [47] :=
  render_tree_record_offset stdEnv 0 2 tinyTree2 tinyTree2Hashed helloEntry (fun _ => 0) 1 1 [47]
    22 (Or.inr ⟨rfl, by decide⟩) (by decide)

/-- Counterexample to C2 as stated: for `i = 306783379` in version 1 the product
`14 * i = 4294967306` does not fit 32 bits and the record is read at offset 10; the
flags shown (2) are those stored at bytes 14..15, not those at `14 * i + 4` (0). -/
theorem render_tree_record_offset_wraps :
    306783379 < 4294967296
    ∧ 14 * 306783379 = 4294967306
    ∧ nodeOffset 1 306783379 = 10
    ∧ be16 wrapTree (14 * 306783379 + 4) = 0
    ∧ be16 wrapTree (10 + 4) = 2
    ∧ (render_tree stdEnv 1 1 wrapTree (fun _ => 0) (fun _ => 0) 306783379 0 []).trace.head? =
        some (Event.enter 0 306783379 2)
    ∧ nodeOffset 1 306783379 ≠ 14 * 306783379
    ∧ (render_tree stdEnv 1 1 wrapTree (fun _ => 0) (fun _ => 0) 306783379 0 []).trace.head? ≠
        some (Event.enter 0 306783379 (be16 wrapTree (14 * 306783379 + 4))) := by
  decide

/-! ## The file branch -/

theorem render_file_open_failed (env : Env) (data : Buf) (node : TreeObj) (fullpath : List Nat)
    (hopen : env.fopenOk fullpath = false) :
    render_file env data node fullpath =
      ⟨[Event.showFile node.count ((node.offset + 4) % 4294967296) (be32 data node.offset),
        Event.fopen fullpath, Event.stderr Msg.openFailed], Status.exited (-1)⟩ := by
  simp only [render_file, htonl_load32, hopen, if_true, List.cons_append, List.nil_append]

theorem render_file_raw (env : Env) (data : Buf) (node : TreeObj) (fullpath : List Nat)
    (hopen : env.fopenOk fullpath = true) (hc : node.flags &&& Compressed = 0) :
    render_file env data node fullpath =
      ⟨[Event.showFile node.count ((node.offset + 4) % 4294967296) (be32 data node.offset),
        Event.fopen fullpath] ++
        (if node.flags &&& CompressedZstd ≠ 0 then [Event.stderr Msg.zstdWarning] else []) ++
        [Event.fwrite (readBytes data ((node.offset + 4) % 4294967296) (be32 data node.offset)),
         Event.fclose], Status.returned⟩ := by
  simp only [render_file, htonl_load32, hopen, hc, ne_eq, not_true_eq_false, if_false,
    Bool.true_eq_false]

theorem render_file_inflate (env : Env) (data : Buf) (node : TreeObj) (fullpath : List Nat)
    (off4 off8 clen exp : Nat) (r : Int × List Nat)
    (h4 : (node.offset + 4) % 4294967296 = off4) (h8 : (off4 + 4) % 4294967296 = off8)
    (hlen : (be32 data node.offset + 4294967296 - 4) % 4294967296 = clen)
    (hexp : be32 data off4 = exp) (hr : env.inflate (readBytes data off8 clen) exp = r)
    (hopen : env.fopenOk fullpath = true) (hc : node.flags &&& Compressed ≠ 0)
    (hmalloc : env.mallocOk exp = true) (hinit : env.inflateInitRet = Z_OK) :
    render_file env data node fullpath =
      if r.1 ≠ Z_STREAM_END then
        ⟨[Event.showFile node.count off4 (be32 data node.offset), Event.fopen fullpath,
          Event.inflate off8 clen exp, Event.stderr (Msg.inflateFailed r.1)],
          Status.exited (-1)⟩
      else
        ⟨[Event.showFile node.count off4 (be32 data node.offset), Event.fopen fullpath,
          Event.inflate off8 clen exp, Event.fwrite (outBuffer env.heap exp r.2), Event.fclose],
          Status.returned⟩ := by
  simp only [render_file, htonl_load32, h4, h8, hlen, hexp, hr, hopen, hc, hmalloc, hinit,
    ne_eq, not_false_eq_true, not_true_eq_false, if_true, if_false, Bool.true_eq_false,
    List.cons_append, List.nil_append]

theorem outBuffer_exact (heap : Nat → Nat) (p : List Nat) (hp : ∀ x ∈ p, x < 256) :
    outBuffer heap p.length p = p := by
  apply List.ext_getElem
  · simp [outBuffer]
  · intro k h1 h2
    have hk : k < p.length := h2
    have hx : p[k] < 256 := hp _ (List.getElem_mem _)
    simp only [outBuffer, List.getElem_map, List.getElem_range, hk, if_true]
    rw [List.getD_eq_getElem _ _ hk]
    exact Nat.mod_eq_of_lt hx

theorem fit_of_fullpath (env : Env) (names : Buf) (i : Nat) (node : TreeObj)
    (path fullpath : List Nat)
    (hpath : path ++ [47] ++ nodeName env names i node = fullpath)
    (hfit : fullpath.length + 1 ≤ PATH_MAX) :
    path.length + 1 + (nodeName env names i node).length + 1 ≤ PATH_MAX := by
  rw [← hpath] at hfit
  simp only [List.length_append, List.length_singleton] at hfit
  omega

theorem render_tree_file_eq (env : Env) (fuel ver : Nat) (tree names data : Buf)
    (i depth : Nat) (path : List Nat) (node : TreeObj) (fullpath : List Nat)
    (hnode : readNode env.host tree (nodeOffset ver i) = node)
    (hpath : path ++ [47] ++ nodeName env names i node = fullpath)
    (hfit : fullpath.length + 1 ≤ PATH_MAX)
    (hfile : node.flags &&& Directory = 0) :
    render_tree env (fuel + 1) ver tree names data i depth path =
      Res.after [Event.enter depth i node.flags, Event.showPath fullpath node.name_offset]
        (render_file env data node fullpath) := by
  have hfit2 := fit_of_fullpath env names i node path fullpath hpath hfit
  rw [← hnode] at hfit2 hfile
  have hres := render_tree_file env fuel ver tree names data i depth path hfit2 hfile
  rw [hnode, hpath] at hres
  exact hres

theorem written_append (a b : List Event) : written (a ++ b) = written a ++ written b := by
  simp [written, List.flatMap_append]

/-- Claim C5 (amended): for a file node with neither `Compressed` nor `CompressedZstd`
set whose output file opens, `render_tree` opens the file at the full path, writes to it
exactly the `L` bytes of the data buffer from position `(data_offset + 4) mod 2^32` on,
where `L` is the big-endian 32-bit value at `data_offset`, closes it and returns;
nothing else is written. -/
theorem render_tree_raw_file (env : Env) (fuel ver : Nat) (tree names data : Buf)
    (i depth : Nat) (path : List Nat) (node : TreeObj) (fullpath : List Nat)
    (hnode : readNode env.host tree (nodeOffset ver i) = node)
    (hpath : path ++ [47] ++ nodeName env names i node = fullpath)
    (hfit : fullpath.length + 1 ≤ PATH_MAX)
    (hfile : node.flags &&& Directory = 0)
    (hc : node.flags &&& Compressed = 0)
    (hz : node.flags &&& CompressedZstd = 0)
    (hopen : env.fopenOk fullpath = true) :
    render_tree env (fuel + 1) ver tree names data i depth path =
      ⟨[Event.enter depth i node.flags, Event.showPath fullpath node.name_offset,
        Event.showFile node.count ((node.offset + 4) % 4294967296) (be32 data node.offset),
        Event.fopen fullpath,
        Event.fwrite (readBytes data ((node.offset + 4) % 4294967296) (be32 data node.offset)),
        Event.fclose], Status.returned⟩
    ∧ written (render_tree env (fuel + 1) ver tree names data i depth path).trace =
        readBytes data ((node.offset + 4) % 4294967296) (be32 data node.offset) := by
  have hfit2 : path.length + 1 +
      (nodeName env names i (readNode env.host tree (nodeOffset ver i))).length + 1 ≤ PATH_MAX := by
    rw [hnode]; rw [← hpath] at hfit
    simp only [List.length_append, List.length_singleton] at hfit
    omega
  have hres := render_tree_file env fuel ver tree names data i depth path hfit2
    (by rw [hnode]; exact hfile)
  rw [hnode, hpath, render_file_raw env data node fullpath hopen hc] at hres
  have hz2 : ¬ (node.flags &&& CompressedZstd ≠ 0) := by simp [hz]
  simp only [if_neg hz2, Res.after, List.append_nil, List.cons_append, List.nil_append] at hres
  refine ⟨hres, ?_⟩
  rw [hres]
  simp [written]

/-- Witness of C5: node 1 of `fileTree 0 [0, 0, 0, 0]` with the data `00 00 00 01 41`. -/
theorem render_tree_raw_file_witness :
    render_tree stdEnv (0 + 1) 1 (fileTree 0 [0, 0, 0, 0]) helloEntry (bufOfList [0, 0, 0, 1, 65])
        1 1 [47, 116] =
      ⟨[Event.enter 1 1 0, Event.showPath [47, 116, 47, 104, 101, 108, 108, 111] 0,
        Event.showFile 0 ((0 + 4) % 4294967296) (be32 (bufOfList [0, 0, 0, 1, 65]) 0),
        Event.fopen [47, 116, 47, 104, 101, 108, 108, 111],
        Event.fwrite (readBytes (bufOfList [0, 0, 0, 1, 65]) ((0 + 4) % 4294967296)
          (be32 (bufOfList [0, 0, 0, 1, 65]) 0)),
        Event.fclose], Status.returned⟩
    ∧ written (render_tree stdEnv (0 + 1) 1 (fileTree 0 [0, 0, 0, 0]) helloEntry
        (bufOfList [0, 0, 0, 1, 65]) 1 1 [47, 116]).trace =
        readBytes (bufOfList [0, 0, 0, 1, 65]) ((0 + 4) % 4294967296)
          (be32 (bufOfList [0, 0, 0, 1, 65]) 0) :=
  render_tree_raw_file stdEnv 0 1 (fileTree 0 [0, 0, 0, 0]) helloEntry
    (bufOfList [0, 0, 0, 1, 65]) 1 1 [47, 116]
    { name_offset := 0, flags := 0, count := 0, offset := 0 }
    [47, 116, 47, 104, 101, 108, 108, 111]
    (by decide) (by decide) (by decide) (by decide) (by decide) (by decide) rfl

/-- Counterexample to C5 as stated.  (1) Node 1 of `fileTree 0 [255, 255, 255, 252]` has
`data_offset = 2^32 - 4` and `L = 1`: the byte at `data_offset + 4 = 2^32` is 34, the
byte written is 17, the byte at position 0.  (2) When `fopen` fails nothing is written
and the process exits. -/
theorem render_tree_raw_file_counterexample :
    (readNode Endian.little (fileTree 0 [255, 255, 255, 252]) (nodeOffset 1 1)).offset = 4294967292
    ∧ (readNode Endian.little (fileTree 0 [255, 255, 255, 252]) (nodeOffset 1 1)).flags = 0
    ∧ be32 wrapData 4294967292 = 1
    ∧ readBytes wrapData (4294967292 + 4) 1 = [34]
    ∧ written (render_tree stdEnv 1 1 (fileTree 0 [255, 255, 255, 252]) helloEntry wrapData
        1 1 [47, 116]).trace = [17]
    ∧ written (render_tree stdEnv 1 1 (fileTree 0 [255, 255, 255, 252]) helloEntry wrapData
        1 1 [47, 116]).trace ≠ readBytes wrapData (4294967292 + 4) (be32 wrapData 4294967292)
    ∧ readBytes (bufOfList [0, 0, 0, 1, 65]) (0 + 4) 1 = [65]
    ∧ written (render_tree noOpenEnv 1 1 (fileTree 0 [0, 0, 0, 0]) helloEntry
        (bufOfList [0, 0, 0, 1, 65]) 1 1 [47, 116]).trace = []
    ∧ (render_tree noOpenEnv 1 1 (fileTree 0 [0, 0, 0, 0]) helloEntry
        (bufOfList [0, 0, 0, 1, 65]) 1 1 [47, 116]).status = Status.exited (-1) := by
  decide

/-- Claim C10 (amended): for a file node with `CompressedZstd` set and `Compressed`
clear whose output file opens, `render_tree` warns on stderr, writes the `L` raw bytes
of the data buffer from position `(data_offset + 4) mod 2^32` on unchanged, closes the
file and returns to its caller, so that whatever the caller does next is done. -/
theorem render_tree_zstd_file (env : Env) (fuel ver : Nat) (tree names data : Buf)
    (i depth : Nat) (path : List Nat) (node : TreeObj) (fullpath : List Nat)
    (hnode : readNode env.host tree (nodeOffset ver i) = node)
    (hpath : path ++ [47] ++ nodeName env names i node = fullpath)
    (hfit : fullpath.length + 1 ≤ PATH_MAX)
    (hfile : node.flags &&& Directory = 0)
    (hc : node.flags &&& Compressed = 0)
    (hz : node.flags &&& CompressedZstd ≠ 0)
    (hopen : env.fopenOk fullpath = true) :
    render_tree env (fuel + 1) ver tree names data i depth path =
      ⟨[Event.enter depth i node.flags, Event.showPath fullpath node.name_offset,
        Event.showFile node.count ((node.offset + 4) % 4294967296) (be32 data node.offset),
        Event.fopen fullpath, Event.stderr Msg.zstdWarning,
        Event.fwrite (readBytes data ((node.offset + 4) % 4294967296) (be32 data node.offset)),
        Event.fclose], Status.returned⟩
    ∧ written (render_tree env (fuel + 1) ver tree names data i depth path).trace =
        readBytes data ((node.offset + 4) % 4294967296) (be32 data node.offset)
    ∧ ∀ next : Res,
        (render_tree env (fuel + 1) ver tree names data i depth path).andThen next =
          ⟨(render_tree env (fuel + 1) ver tree names data i depth path).trace ++ next.trace,
            next.status⟩ := by
  have hres := render_tree_file_eq env fuel ver tree names data i depth path node fullpath
    hnode hpath hfit hfile
  rw [render_file_raw env data node fullpath hopen hc] at hres
  simp only [if_pos hz, Res.after, List.append_nil, List.cons_append, List.nil_append] at hres
  refine ⟨hres, ?_, ?_⟩
  · rw [hres]; simp [written]
  · intro next
    rw [hres]
    simp only [Res.andThen]

/-- Witness of C10: node 1 of `fileTree 4 [0, 0, 0, 0]` with the data `00 00 00 01 41`. -/
theorem render_tree_zstd_file_witness :
    written (render_tree stdEnv (0 + 1) 1 (fileTree 4 [0, 0, 0, 0]) helloEntry
        (bufOfList [0, 0, 0, 1, 65]) 1 1 [47, 116]).trace =
      readBytes (bufOfList [0, 0, 0, 1, 65]) ((0 + 4) % 4294967296)
        (be32 (bufOfList [0, 0, 0, 1, 65]) 0) :=
  (render_tree_zstd_file stdEnv 0 1 (fileTree 4 [0, 0, 0, 0]) helloEntry
    (bufOfList [0, 0, 0, 1, 65]) 1 1 [47, 116]
    { name_offset := 0, flags := 4, count := 0, offset := 0 }
    [47, 116, 47, 104, 101, 108, 108, 111]
    (by decide) (by decide) (by decide) (by decide) (by decide) (by decide) rfl).2.1

/-- Counterexample to C10 as stated.  (1) Node 1 of `fileTree 4 [255, 255, 255, 252]`
has the flags 4, `data_offset = 2^32 - 4` and `L = 1`: the byte at `data_offset + 4` is
34, the byte written is 17, the byte at position 0.  (2) When `fopen` fails the process
exits: nothing is written and no warning is given. -/
theorem render_tree_zstd_file_counterexample :
    (readNode Endian.little (fileTree 4 [255, 255, 255, 252]) (nodeOffset 1 1)).offset = 4294967292
    ∧ (readNode Endian.little (fileTree 4 [255, 255, 255, 252]) (nodeOffset 1 1)).flags = 4
    ∧ be32 wrapData 4294967292 = 1
    ∧ readBytes wrapData (4294967292 + 4) 1 = [34]
    ∧ written (render_tree stdEnv 1 1 (fileTree 4 [255, 255, 255, 252]) helloEntry wrapData
        1 1 [47, 116]).trace = [17]
    ∧ written (render_tree stdEnv 1 1 (fileTree 4 [255, 255, 255, 252]) helloEntry wrapData
        1 1 [47, 116]).trace ≠ readBytes wrapData (4294967292 + 4) (be32 wrapData 4294967292)
    ∧ render_tree noOpenEnv 1 1 (fileTree 4 [0, 0, 0, 0]) helloEntry
        (bufOfList [0, 0, 0, 1, 65]) 1 1 [47, 116] =
        ⟨[Event.enter 1 1 4, Event.showPath [47, 116, 47, 104, 101, 108, 108, 111] 0,
          Event.showFile 0 4 1, Event.fopen [47, 116, 47, 104, 101, 108, 108, 111],
          Event.stderr Msg.openFailed], Status.exited (-1)⟩ := by
  decide

/-- Claim C4 (amended): let the data buffer hold at `data_offset` the big-endian value
`c.length + 4`, at `(data_offset + 4) mod 2^32` the big-endian value `p.length` and from
`(data_offset + 8) mod 2^32` on the bytes `c`, a zlib stream of the payload `p`.  Then,
for a file node with `Compressed` set, when `fopen`, `malloc` and `inflateInit` succeed,
`render_tree` writes exactly the bytes of `p` to the file at the full path, closes it
and returns. -/
theorem render_tree_compressed_roundtrip (env : Env) (fuel ver : Nat) (tree names data : Buf)
    (i depth : Nat) (path : List Nat) (node : TreeObj) (fullpath : List Nat) (c p : List Nat)
    (hnode : readNode env.host tree (nodeOffset ver i) = node)
    (hpath : path ++ [47] ++ nodeName env names i node = fullpath)
    (hfit : fullpath.length + 1 ≤ PATH_MAX)
    (hfile : node.flags &&& Directory = 0)
    (hc : node.flags &&& Compressed ≠ 0)
    (hopen : env.fopenOk fullpath = true)
    (hmalloc : env.mallocOk p.length = true)
    (hinit : env.inflateInitRet = Z_OK)
    (hbytes : ∀ x ∈ p, x < 256)
    (hlen : be32 data node.offset = c.length + 4)
    (hexp : be32 data ((node.offset + 4) % 4294967296) = p.length)
    (hdata : readBytes data ((node.offset + 8) % 4294967296) c.length = c)
    (hzlib : IsZlibStreamOf env c p) :
    render_tree env (fuel + 1) ver tree names data i depth path =
      ⟨[Event.enter depth i node.flags, Event.showPath fullpath node.name_offset,
        Event.showFile node.count ((node.offset + 4) % 4294967296) (c.length + 4),
        Event.fopen fullpath,
        Event.inflate ((node.offset + 8) % 4294967296) c.length p.length,
        Event.fwrite p, Event.fclose], Status.returned⟩
    ∧ written (render_tree env (fuel + 1) ver tree names data i depth path).trace = p := by
  have hres := render_tree_file_eq env fuel ver tree names data i depth path node fullpath
    hnode hpath hfit hfile
  have hl := be32_lt data node.offset
  have hclen : (be32 data node.offset + 4294967296 - 4) % 4294967296 = c.length := by
    rw [hlen] at hl ⊢
    omega
  have h8 : ((node.offset + 4) % 4294967296 + 4) % 4294967296 =
      (node.offset + 8) % 4294967296 := by omega
  have hr : env.inflate (readBytes data ((node.offset + 8) % 4294967296) c.length) p.length =
      (Z_STREAM_END, p) := by rw [hdata]; exact hzlib
  rw [render_file_inflate env data node fullpath ((node.offset + 4) % 4294967296)
    ((node.offset + 8) % 4294967296) c.length p.length (Z_STREAM_END, p) rfl h8 hclen hexp hr
    hopen hc hmalloc hinit] at hres
  simp only [ne_eq, not_true_eq_false, if_false, Res.after, List.cons_append, List.nil_append,
    outBuffer_exact env.heap p hbytes, hlen] at hres
  refine ⟨hres, ?_⟩
  rw [hres]
  simp [written]

/-- Witness of C4: the payload "hi", stored in one block, behind node 1 of
`fileTree 1 [0, 0, 0, 0]`. -/
theorem render_tree_compressed_roundtrip_witness :
    written (render_tree stdEnv (0 + 1) 1 (fileTree 1 [0, 0, 0, 0]) helloEntry
      (bufOfList (compressedEntry 2 (zlibStore [104, 105]))) 1 1 [47, 116]).trace = [104, 105] :=
  (render_tree_compressed_roundtrip stdEnv 0 1 (fileTree 1 [0, 0, 0, 0]) helloEntry
    (bufOfList (compressedEntry 2 (zlibStore [104, 105]))) 1 1 [47, 116]
    { name_offset := 0, flags := 1, count := 0, offset := 0 }
    [47, 116, 47, 104, 101, 108, 108, 111] (zlibStore [104, 105]) [104, 105]
    (by decide) (by decide) (by decide) (by decide) (by decide) rfl rfl rfl (by decide)
    (by decide) (by decide) (by decide) (by unfold IsZlibStreamOf; decide)).2

/-- Counterexample to C4 as stated.  (1) Node 1 of `fileTree 1 [255, 255, 255, 252]` has
`data_offset = 2^32 - 4`; the data buffer holds at `data_offset` the length 17, at
`data_offset + 4` the length 2 and at `data_offset + 8` the 13 bytes of a zlib stream
of "hi", yet the expected length and the stream are read at positions 0 and 4, inflate
fails and nothing is written.  (2), (3), (4): with the same entry at offset 0, nothing
is written either when `fopen`, `malloc` or `inflateInit` fails. -/
theorem render_tree_compressed_roundtrip_counterexample :
    (readNode Endian.little (fileTree 1 [255, 255, 255, 252]) (nodeOffset 1 1)).offset = 4294967292
    ∧ (readNode Endian.little (fileTree 1 [255, 255, 255, 252]) (nodeOffset 1 1)).flags = 1
    ∧ be32 (highData (compressedEntry 2 (zlibStore [104, 105]))) 4294967292 =
        (zlibStore [104, 105]).length + 4
    ∧ be32 (highData (compressedEntry 2 (zlibStore [104, 105]))) (4294967292 + 4) = 2
    ∧ readBytes (highData (compressedEntry 2 (zlibStore [104, 105]))) (4294967292 + 8) 13 =
        zlibStore [104, 105]
    ∧ inflateStored (zlibStore [104, 105]) 2 = (Z_STREAM_END, [104, 105])
    ∧ render_tree stdEnv 1 1 (fileTree 1 [255, 255, 255, 252]) helloEntry
        (highData (compressedEntry 2 (zlibStore [104, 105]))) 1 1 [47, 116] =
        ⟨[Event.enter 1 1 1, Event.showPath [47, 116, 47, 104, 101, 108, 108, 111] 0,
          Event.showFile 0 0 17, Event.fopen [47, 116, 47, 104, 101, 108, 108, 111],
          Event.inflate 4 13 0, Event.stderr (Msg.inflateFailed Z_DATA_ERROR)],
          Status.exited (-1)⟩
    ∧ written (render_tree stdEnv 1 1 (fileTree 1 [255, 255, 255, 252]) helloEntry
        (highData (compressedEntry 2 (zlibStore [104, 105]))) 1 1 [47, 116]).trace ≠ [104, 105]
    ∧ written (render_tree noOpenEnv 1 1 (fileTree 1 [0, 0, 0, 0]) helloEntry
        (bufOfList (compressedEntry 2 (zlibStore [104, 105]))) 1 1 [47, 116]).trace = []
    ∧ written (render_tree noMallocEnv 1 1 (fileTree 1 [0, 0, 0, 0]) helloEntry
        (bufOfList (compressedEntry 2 (zlibStore [104, 105]))) 1 1 [47, 116]).trace = []
    ∧ written (render_tree noInitEnv 1 1 (fileTree 1 [0, 0, 0, 0]) helloEntry
        (bufOfList (compressedEntry 2 (zlibStore [104, 105]))) 1 1 [47, 116]).trace = [] := by
  decide

/-- Claim C9, evaluated: node 1 of `fileTree 1 [0, 0, 0, 0]` is a `Compressed` file whose
entry announces 2 bytes while its stream is a complete zlib stream of the single byte
65.  `inflate` ends the stream after 1 byte; `render_tree` does not exit: it writes 2
bytes, the byte 65 and the byte 170 that `malloc` left in the block, and returns. -/
theorem render_tree_short_stream_not_fatal :
    (readNode Endian.little (fileTree 1 [0, 0, 0, 0]) (nodeOffset 1 1)).flags = 1
    ∧ be32 (bufOfList (compressedEntry 2 (zlibStore [65]))) 4 = 2
    ∧ inflateStored (zlibStore [65]) 2 = (Z_STREAM_END, [65])
    ∧ render_tree dirtyHeapEnv 1 1 (fileTree 1 [0, 0, 0, 0]) helloEntry
        (bufOfList (compressedEntry 2 (zlibStore [65]))) 1 1 [47, 116] =
        ⟨[Event.enter 1 1 1, Event.showPath [47, 116, 47, 104, 101, 108, 108, 111] 0,
          Event.showFile 0 4 16, Event.fopen [47, 116, 47, 104, 101, 108, 108, 111],
          Event.inflate 8 12 2, Event.fwrite [65, 170], Event.fclose], Status.returned⟩ := by
  decide

/-! ## The directory branch -/

theorem land_two_ne_zero_iff (x : Nat) : x &&& Directory ≠ 0 ↔ x.testBit 1 = true := by
  have h2 : ∀ i, (2 : Nat).testBit i = decide (1 = i) := by
    intro i
    have := @Nat.testBit_two_pow 1 i
    simpa using this
  constructor
  · intro h
    by_contra hb
    apply h
    apply Nat.eq_of_testBit_eq
    intro i
    simp only [Directory, Nat.testBit_and, h2, Nat.zero_testBit]
    by_cases hi : 1 = i
    · subst hi; simp [hb]
    · simp [hi]
  · intro h hz
    have := congrArg (fun y => y.testBit 1) hz
    simp [Directory, Nat.testBit_and, h2, h] at this

theorem render_tree_dir_eq (env : Env) (fuel ver : Nat) (tree names data : Buf)
    (i depth : Nat) (path : List Nat) (node : TreeObj) (fullpath : List Nat)
    (hnode : readNode env.host tree (nodeOffset ver i) = node)
    (hpath : path ++ [47] ++ nodeName env names i node = fullpath)
    (hfit : fullpath.length + 1 ≤ PATH_MAX)
    (hdir : node.flags &&& Directory ≠ 0)
    (hlo : -2147483648 ≤ toInt32 node.offset + toInt32 node.count)
    (hhi : toInt32 node.offset + toInt32 node.count ≤ 2147483647) :
    render_tree env (fuel + 1) ver tree names data i depth path =
      Res.after
        [Event.enter depth i node.flags, Event.showPath fullpath node.name_offset,
         Event.showDir node.count node.offset, Event.mkdir fullpath]
        (childLoop
          (fun c => render_tree env fuel ver tree names data c ((depth + 1) % 4294967296) fullpath)
          (toInt32 node.offset + toInt32 node.count)
          (toInt32 node.offset + toInt32 node.count - toInt32 node.offset).toNat
          (toInt32 node.offset)) := by
  have hfit2 := fit_of_fullpath env names i node path fullpath hpath hfit
  rw [← hnode] at hfit2 hdir hlo hhi
  have hres := render_tree_dir env fuel ver tree names data i depth path hfit2 hdir hlo hhi
  rw [hnode, hpath] at hres
  exact hres

theorem render_tree_dir_overflow (env : Env) (fuel ver : Nat) (tree names data : Buf)
    (i depth : Nat) (path : List Nat) (node : TreeObj) (fullpath : List Nat)
    (hnode : readNode env.host tree (nodeOffset ver i) = node)
    (hpath : path ++ [47] ++ nodeName env names i node = fullpath)
    (hfit : fullpath.length + 1 ≤ PATH_MAX)
    (hdir : node.flags &&& Directory ≠ 0)
    (hov : toInt32 node.offset + toInt32 node.count < -2147483648 ∨
      2147483647 < toInt32 node.offset + toInt32 node.count) :
    render_tree env (fuel + 1) ver tree names data i depth path =
      ⟨[Event.enter depth i node.flags, Event.showPath fullpath node.name_offset,
        Event.showDir node.count node.offset, Event.mkdir fullpath], Status.undefined⟩ := by
  have hfit2 := fit_of_fullpath env names i node path fullpath hpath hfit
  have h1 : ¬ (PATH_MAX < path.length + 1 + (nodeName env names i node).length + 1) := by omega
  simp only [render_tree, hnode, hpath, h1, if_false, hdir, ne_eq, not_false_eq_true, if_true,
    hov, List.cons_append, List.nil_append]

theorem childLoop_trace_calls (call : Nat → Res) (bound : Int) :
    ∀ (n : Nat) (c : Int), ∃ cs : List Nat,
      (childLoop call bound n c).trace = cs.flatMap (fun x => (call x).trace) := by
  intro n
  induction n with
  | zero => intro c; exact ⟨[], by simp [childLoop]⟩
  | succ n ih =>
    intro c
    by_cases hc : c < bound
    · obtain ⟨cs, hcs⟩ := ih (c + 1)
      cases hst : (call (toUInt32 c)).status with
      | returned =>
        refine ⟨toUInt32 c :: cs, ?_⟩
        simp only [childLoop, hc, if_true, Res.andThen, hst, hcs, List.flatMap_cons]
      | exited code =>
        refine ⟨[toUInt32 c], ?_⟩
        simp [childLoop, hc, Res.andThen, hst]
      | undefined =>
        refine ⟨[toUInt32 c], ?_⟩
        simp [childLoop, hc, Res.andThen, hst]
      | outOfFuel =>
        refine ⟨[toUInt32 c], ?_⟩
        simp [childLoop, hc, Res.andThen, hst]
    · exact ⟨[], by simp [childLoop, hc]⟩

theorem render_file_events (env : Env) (data : Buf) (node : TreeObj) (fullpath : List Nat) :
    (render_file env data node fullpath).trace.take 2 =
      [Event.showFile node.count ((node.offset + 4) % 4294967296) (be32 data node.offset),
       Event.fopen fullpath]
    ∧ (∀ ev ∈ (render_file env data node fullpath).trace,
        ev.isEnter = false ∧ ev.isMkdir = false)
    ∧ ((render_file env data node fullpath).trace.filter Event.isFopen).length = 1
    ∧ ((render_file env data node fullpath).trace.filter Event.isFwrite).length ≤ 1
    ∧ ((render_file env data node fullpath).status = Status.returned →
        ((render_file env data node fullpath).trace.filter Event.isFwrite).length = 1) := by
  simp only [render_file, htonl_load32]
  split
  · simp [Event.isEnter, Event.isMkdir, Event.isFopen, Event.isFwrite]
  · split
    · split
      · simp [Event.isEnter, Event.isMkdir, Event.isFopen, Event.isFwrite]
      · split
        · simp [Event.isEnter, Event.isMkdir, Event.isFopen, Event.isFwrite]
        · split <;> simp [Event.isEnter, Event.isMkdir, Event.isFopen, Event.isFwrite]
    · split <;> simp [Event.isEnter, Event.isMkdir, Event.isFopen, Event.isFwrite]

/-! ## Which children a directory visits -/

theorem toUInt32_toInt32_add (off k : Nat) (hoff : off < 4294967296)
    (h : off + k < 2147483648 ∨ (2147483648 ≤ off ∧ off + k < 4294967296)) :
    toUInt32 (toInt32 off + (k : Int)) = off + k := by
  unfold toUInt32 toInt32
  rw [Nat.mod_eq_of_lt hoff]
  split <;> omega

theorem toInt32_of_lt (x : Nat) (h : x < 2147483648) : toInt32 x = (x : Int) := by
  unfold toInt32
  have h1 : x % 4294967296 = x := Nat.mod_eq_of_lt (by omega)
  rw [h1, if_pos h]

theorem childVisits_append (d : Nat) (a b : List Event) :
    childVisits d (a ++ b) = childVisits d a ++ childVisits d b := by
  simp [childVisits, List.filterMap_append]

theorem childVisits_eq_nil (depth : Nat) (tr : List Event)
    (h : ∀ d j f, Event.enter d j f ∈ tr → depth + 1 < d) : childVisits depth tr = [] := by
  unfold childVisits
  rw [List.filterMap_eq_nil_iff]
  intro ev hev
  cases ev with
  | enter d j f =>
    have := h d j f hev
    have hne : ¬ (d = depth + 1) := by omega
    simp only [hne, if_false]
  | _ => rfl

theorem fit_to_fullpath (path name : List Nat)
    (h : ¬ (PATH_MAX < path.length + 1 + name.length + 1)) :
    (path ++ [47] ++ name).length + 1 ≤ PATH_MAX := by
  simp only [List.length_append, List.length_singleton]
  omega

theorem render_tree_cons_tail (env : Env) (fuel ver : Nat) (tree names data : Buf)
    (i depth : Nat) (path : List Nat) :
    (render_tree env (fuel + 1) ver tree names data i depth path).trace =
      Event.enter depth i (readNode env.host tree (nodeOffset ver i)).flags ::
        (render_tree env (fuel + 1) ver tree names data i depth path).trace.tail := by
  have h := render_tree_head env fuel ver tree names data i depth path
  cases htr : (render_tree env (fuel + 1) ver tree names data i depth path).trace with
  | nil => rw [htr] at h; simp at h
  | cons a t =>
    rw [htr] at h
    simp only [List.head?_cons, Option.some.injEq] at h
    rw [h]; rfl

theorem render_tree_tail_deeper (env : Env) :
    ∀ (fuel ver : Nat) (tree names data : Buf) (i depth : Nat) (path : List Nat),
      depth + fuel ≤ 4294967295 →
      ∀ d j f, Event.enter d j f ∈ (render_tree env fuel ver tree names data i depth path).trace.tail →
        depth < d := by
  intro fuel
  induction fuel with
  | zero =>
    intro ver tree names data i depth path _ d j f hmem
    simp [render_tree] at hmem
  | succ fuel ih =>
    intro ver tree names data i depth path hdepth d j f hmem
    by_cases hfit : PATH_MAX < path.length + 1 +
        (nodeName env names i (readNode env.host tree (nodeOffset ver i))).length + 1
    · rw [render_tree_undefined env fuel ver tree names data i depth path hfit] at hmem
      simp at hmem
    · have hfit2 := fit_to_fullpath path _ hfit
      by_cases hdir : (readNode env.host tree (nodeOffset ver i)).flags &&& Directory = 0
      · rw [render_tree_file_eq env fuel ver tree names data i depth path _ _ rfl rfl hfit2 hdir]
          at hmem
        simp only [Res.after, List.cons_append, List.nil_append, List.tail_cons,
          List.mem_cons] at hmem
        rcases hmem with h | h
        · exact Event.noConfusion h
        · have := ((render_file_events env data _ _).2.1 _ h).1
          simp [Event.isEnter] at this
      · by_cases hov : toInt32 (readNode env.host tree (nodeOffset ver i)).offset +
            toInt32 (readNode env.host tree (nodeOffset ver i)).count < -2147483648 ∨
            2147483647 < toInt32 (readNode env.host tree (nodeOffset ver i)).offset +
            toInt32 (readNode env.host tree (nodeOffset ver i)).count
        · rw [render_tree_dir_overflow env fuel ver tree names data i depth path _ _ rfl rfl
            hfit2 hdir hov] at hmem
          simp at hmem
        · rw [render_tree_dir_eq env fuel ver tree names data i depth path _ _ rfl rfl
            hfit2 hdir (by omega) (by omega)] at hmem
          obtain ⟨cs, hcs⟩ := childLoop_trace_calls
            (fun c => render_tree env fuel ver tree names data c ((depth + 1) % 4294967296)
              (path ++ [47] ++ nodeName env names i (readNode env.host tree (nodeOffset ver i))))
            (toInt32 (readNode env.host tree (nodeOffset ver i)).offset +
              toInt32 (readNode env.host tree (nodeOffset ver i)).count)
            (toInt32 (readNode env.host tree (nodeOffset ver i)).offset +
              toInt32 (readNode env.host tree (nodeOffset ver i)).count -
              toInt32 (readNode env.host tree (nodeOffset ver i)).offset).toNat
            (toInt32 (readNode env.host tree (nodeOffset ver i)).offset)
          simp only [Res.after, List.cons_append, List.nil_append, List.tail_cons, hcs,
            List.mem_cons, List.mem_flatMap] at hmem
          rcases hmem with h | h | h | ⟨c, _, h⟩
          · exact Event.noConfusion h
          · exact Event.noConfusion h
          · exact Event.noConfusion h
          · have hd1 : (depth + 1) % 4294967296 = depth + 1 := Nat.mod_eq_of_lt (by omega)
            rw [hd1] at h
            cases fuel with
            | zero => simp [render_tree] at h
            | succ fuel =>
              rw [render_tree_cons_tail] at h
              rw [List.mem_cons] at h
              rcases h with h | h
              · injection h with h1 _ _
                omega
              · have := ih ver tree names data c (depth + 1) _ (by omega) d j f h
                omega

theorem render_tree_visits_self (env : Env) (fuel ver : Nat) (tree names data : Buf)
    (c depth : Nat) (path : List Nat) (hdepth : depth + 1 + (fuel + 1) ≤ 4294967295) :
    childVisits depth (render_tree env (fuel + 1) ver tree names data c (depth + 1) path).trace =
      [c] := by
  rw [render_tree_cons_tail]
  have htail := childVisits_eq_nil depth
    (render_tree env (fuel + 1) ver tree names data c (depth + 1) path).trace.tail
    (render_tree_tail_deeper env (fuel + 1) ver tree names data c (depth + 1) path hdepth)
  have hcons : ∀ (e : Event) (t : List Event), childVisits depth (e :: t) =
      childVisits depth [e] ++ childVisits depth t := fun e t => childVisits_append depth [e] t
  rw [hcons, htail]
  simp [childVisits]

theorem childLoop_visits (depth : Nat) (call : Nat → Res) (bound : Int)
    (hcall : ∀ x, childVisits depth (call x).trace = [x] ∨
      ((call x).trace = [] ∧ (call x).status ≠ Status.returned)) :
    ∀ (n : Nat) (c : Int), (bound - c).toNat ≤ n →
      (∃ rest, childVisits depth (childLoop call bound n c).trace ++ rest =
        (List.range (bound - c).toNat).map (fun (k : Nat) => toUInt32 (c + (k : Int))))
      ∧ ((childLoop call bound n c).status = Status.returned →
        childVisits depth (childLoop call bound n c).trace =
          (List.range (bound - c).toNat).map (fun (k : Nat) => toUInt32 (c + (k : Int)))) := by
  intro n
  induction n with
  | zero =>
    intro c hn
    have h0 : (bound - c).toNat = 0 := by omega
    simp [childLoop, h0, childVisits]
  | succ n ih =>
    intro c hn
    by_cases hc : c < bound
    · have hm : (bound - c).toNat = (bound - (c + 1)).toNat + 1 := by omega
      have hlist : (List.range (bound - c).toNat).map (fun (k : Nat) => toUInt32 (c + (k : Int))) =
          toUInt32 c :: (List.range (bound - (c + 1)).toNat).map
            (fun (k : Nat) => toUInt32 (c + 1 + (k : Int))) := by
        rw [hm, List.range_succ_eq_map]
        simp only [List.map_cons, List.map_map, Nat.cast_zero, add_zero]
        congr 1
        apply List.map_congr_left
        intro k _
        simp only [Function.comp_apply, Nat.succ_eq_add_one, Nat.cast_add, Nat.cast_one]
        congr 1
        omega
      obtain ⟨⟨rest, hrest⟩, hfull⟩ := ih (c + 1) (by omega)
      rw [hlist]
      have hpre : ∀ L : List Nat, ∃ rest,
          childVisits depth (call (toUInt32 c)).trace ++ rest = toUInt32 c :: L := by
        intro L
        rcases hcall (toUInt32 c) with h | ⟨h, _⟩
        · exact ⟨L, by rw [h]; rfl⟩
        · exact ⟨toUInt32 c :: L, by rw [h]; rfl⟩
      cases hst : (call (toUInt32 c)).status with
      | returned =>
        have hv : childVisits depth (call (toUInt32 c)).trace = [toUInt32 c] := by
          rcases hcall (toUInt32 c) with h | ⟨_, h⟩
          · exact h
          · exact absurd hst h
        have htr : (childLoop call bound (n + 1) c).trace =
            (call (toUInt32 c)).trace ++ (childLoop call bound n (c + 1)).trace := by
          simp only [childLoop, hc, if_true, Res.andThen, hst]
        have hs : (childLoop call bound (n + 1) c).status =
            (childLoop call bound n (c + 1)).status := by
          simp only [childLoop, hc, if_true, Res.andThen, hst]
        rw [htr, hs, childVisits_append, hv]
        refine ⟨⟨rest, ?_⟩, ?_⟩
        · rw [List.append_assoc, hrest]
          rfl
        · intro hret
          rw [hfull hret]
          rfl
      | exited code =>
        have hr : childLoop call bound (n + 1) c = call (toUInt32 c) := by
          simp only [childLoop, hc, if_true, Res.andThen, hst]
        rw [hr]
        exact ⟨hpre _, fun h => by rw [hst] at h; exact Status.noConfusion h⟩
      | undefined =>
        have hr : childLoop call bound (n + 1) c = call (toUInt32 c) := by
          simp only [childLoop, hc, if_true, Res.andThen, hst]
        rw [hr]
        exact ⟨hpre _, fun h => by rw [hst] at h; exact Status.noConfusion h⟩
      | outOfFuel =>
        have hr : childLoop call bound (n + 1) c = call (toUInt32 c) := by
          simp only [childLoop, hc, if_true, Res.andThen, hst]
        rw [hr]
        exact ⟨hpre _, fun h => by rw [hst] at h; exact Status.noConfusion h⟩
    · have h0 : (bound - c).toNat = 0 := by omega
      simp [childLoop, hc, h0, childVisits]

/-- Claim C1 (amended): let a directory node have `child_count < 2^31` and a child range
that does not cross 2^31 or 2^32 (`child_offset + child_count < 2^31`, or
`child_offset >= 2^31` and `child_offset + child_count <= 2^32`).  The indices on which
`render_tree` recurses as children of the node are always an initial segment of
`child_offset, child_offset + 1, .., child_offset + child_count - 1`, in this order,
and when the call returns they are exactly this list: every index of the range once, no
other index. -/
theorem render_tree_children (env : Env) (fuel ver : Nat) (tree names data : Buf)
    (i depth : Nat) (path : List Nat) (node : TreeObj) (fullpath : List Nat)
    (hnode : readNode env.host tree (nodeOffset ver i) = node)
    (hpath : path ++ [47] ++ nodeName env names i node = fullpath)
    (hfit : fullpath.length + 1 ≤ PATH_MAX)
    (hdir : node.flags &&& Directory ≠ 0)
    (hcount : node.count < 2147483648)
    (hrange : node.offset + node.count < 2147483648 ∨
      (2147483648 ≤ node.offset ∧ node.offset + node.count ≤ 4294967296))
    (hdepth : depth + (fuel + 1) ≤ 4294967295) :
    (∃ rest, childVisits depth (render_tree env (fuel + 1) ver tree names data i depth path).trace
        ++ rest = List.range' node.offset node.count)
    ∧ ((render_tree env (fuel + 1) ver tree names data i depth path).status = Status.returned →
        childVisits depth (render_tree env (fuel + 1) ver tree names data i depth path).trace =
          List.range' node.offset node.count) := by
  have hoff : node.offset < 4294967296 := by
    rw [← hnode, readNode_eq]; exact be32_lt _ _
  have hcnt : toInt32 node.count = (node.count : Int) := toInt32_of_lt _ hcount
  have hoffI : toInt32 node.offset = (node.offset : Int) ∨
      toInt32 node.offset = (node.offset : Int) - 4294967296 := by
    unfold toInt32
    rw [Nat.mod_eq_of_lt hoff]
    split
    · exact Or.inl rfl
    · exact Or.inr rfl
  have hoffI2 : 2147483648 ≤ node.offset → toInt32 node.offset = (node.offset : Int) - 4294967296 := by
    intro h
    unfold toInt32
    rw [Nat.mod_eq_of_lt hoff, if_neg (by omega)]
  have hoffI3 : node.offset < 2147483648 → toInt32 node.offset = (node.offset : Int) :=
    toInt32_of_lt _
  have hlo : -2147483648 ≤ toInt32 node.offset + toInt32 node.count := by
    rw [hcnt]
    rcases hrange with h | ⟨h, _⟩
    · rw [hoffI3 (by omega)]; omega
    · rw [hoffI2 h]; omega
  have hhi : toInt32 node.offset + toInt32 node.count ≤ 2147483647 := by
    rw [hcnt]
    rcases hrange with h | ⟨h, _⟩
    · rw [hoffI3 (by omega)]; omega
    · rw [hoffI2 h]; omega
  have hd1 : (depth + 1) % 4294967296 = depth + 1 := Nat.mod_eq_of_lt (by omega)
  have hn : (toInt32 node.offset + toInt32 node.count - toInt32 node.offset).toNat =
      node.count := by
    rw [hcnt]; omega
  have hcall : ∀ x, childVisits depth
      (render_tree env fuel ver tree names data x (depth + 1) fullpath).trace = [x] ∨
      ((render_tree env fuel ver tree names data x (depth + 1) fullpath).trace = [] ∧
        (render_tree env fuel ver tree names data x (depth + 1) fullpath).status ≠
          Status.returned) := by
    intro x
    cases fuel with
    | zero => right; simp [render_tree]
    | succ f =>
      left
      exact render_tree_visits_self env f ver tree names data x depth fullpath (by omega)
  have hloop := childLoop_visits depth
    (fun c => render_tree env fuel ver tree names data c (depth + 1) fullpath)
    (toInt32 node.offset + toInt32 node.count) hcall node.count (toInt32 node.offset)
    (by rw [hn])
  rw [hn] at hloop
  have hlist : (List.range node.count).map (fun (k : Nat) => toUInt32 (toInt32 node.offset + (k : Int))) =
      List.range' node.offset node.count := by
    rw [List.range'_eq_map_range]
    apply List.map_congr_left
    intro k hk
    have hk2 := List.mem_range.mp hk
    exact toUInt32_toInt32_add node.offset k hoff (by omega)
  rw [hlist] at hloop
  rw [render_tree_dir_eq env fuel ver tree names data i depth path node fullpath hnode hpath hfit
    hdir hlo hhi, hd1, hn]
  have hpre : ∀ t : List Event, childVisits depth
      (Event.enter depth i node.flags :: Event.showPath fullpath node.name_offset ::
        Event.showDir node.count node.offset :: Event.mkdir fullpath :: t) =
      childVisits depth t := by
    intro t
    simp [childVisits]
  simp only [Res.after, List.cons_append, List.nil_append, hpre]
  exact hloop

/-- Witness of C1: the root of `dirTree [0, 0, 0, 2] [0, 0, 0, 1] 0 0` has the children
1 and 2. -/
theorem render_tree_children_witness :
    childVisits 0 (render_tree stdEnv (1 + 1) 1 (dirTree [0, 0, 0, 2] [0, 0, 0, 1] 0 0)
      helloEntry (bufOfList [0, 0, 0, 1, 65]) 0 0 [47, 116]).trace = List.range' 1 2 :=
  (render_tree_children stdEnv 1 1 (dirTree [0, 0, 0, 2] [0, 0, 0, 1] 0 0) helloEntry
    (bufOfList [0, 0, 0, 1, 65]) 0 0 [47, 116]
    { name_offset := 0, flags := 2, count := 2, offset := 1 } ([47, 116, 47] ++ rootName 0)
    (by decide) (by decide) (by decide) (by decide) (by decide) (by decide) (by decide)).2
    (by decide)

/-- Counterexample to C1 as stated.  (1) The root of
`dirTree [128, 0, 0, 0] [0, 0, 0, 1] 0 0` is a directory with `child_count = 2^31` and
`child_offset = 1`: as an `int` the count is negative, the loop body never runs and no
child is visited, although index 1 is in the range.  (2) The root of
`dirTree [0, 0, 0, 2] [0, 0, 0, 1] 1 0` has the children 1 and 2; child 1 is a
`Compressed` file whose stream is not a zlib stream, so the process exits in child 1 and
child 2 is never visited.  (3) The root of `dirTree [0, 0, 0, 2] [255, 255, 255, 255] 0 0`
has `child_offset = 2^32 - 1` and `child_count = 2`: the loop counter runs over -1 and
0, the indices visited are 2^32 - 1 and 0, and 0 is outside the range. -/
theorem render_tree_children_counterexample :
    (readNode Endian.little (dirTree [128, 0, 0, 0] [0, 0, 0, 1] 0 0) (nodeOffset 1 0)) =
      { name_offset := 0, flags := 2, count := 2147483648, offset := 1 }
    ∧ (1 ≤ 1 ∧ 1 < 1 + 2147483648)
    ∧ render_tree stdEnv 2 1 (dirTree [128, 0, 0, 0] [0, 0, 0, 1] 0 0) helloEntry
        (bufOfList [0, 0, 0, 1, 65]) 0 0 [47, 116] =
        ⟨[Event.enter 0 0 2, Event.showPath ([47, 116, 47] ++ rootName 0) 0,
          Event.showDir 2147483648 1, Event.mkdir ([47, 116, 47] ++ rootName 0)],
          Status.returned⟩
    ∧ childVisits 0 (render_tree stdEnv 2 1 (dirTree [128, 0, 0, 0] [0, 0, 0, 1] 0 0) helloEntry
        (bufOfList [0, 0, 0, 1, 65]) 0 0 [47, 116]).trace = []
    ∧ 1 ∉ childVisits 0 (render_tree stdEnv 2 1 (dirTree [128, 0, 0, 0] [0, 0, 0, 1] 0 0)
        helloEntry (bufOfList [0, 0, 0, 1, 65]) 0 0 [47, 116]).trace
    ∧ (readNode Endian.little (dirTree [0, 0, 0, 2] [0, 0, 0, 1] 1 0) (nodeOffset 1 0)) =
      { name_offset := 0, flags := 2, count := 2, offset := 1 }
    ∧ childVisits 0 (render_tree stdEnv 2 1 (dirTree [0, 0, 0, 2] [0, 0, 0, 1] 1 0) helloEntry
        (bufOfList [0, 0, 0, 6, 0, 0, 0, 1, 0, 0]) 0 0 [47, 116]).trace = [1]
    ∧ childVisits 0 (render_tree stdEnv 2 1 (dirTree [0, 0, 0, 2] [0, 0, 0, 1] 1 0) helloEntry
        (bufOfList [0, 0, 0, 6, 0, 0, 0, 1, 0, 0]) 0 0 [47, 116]).trace ≠ List.range' 1 2
    ∧ (render_tree stdEnv 2 1 (dirTree [0, 0, 0, 2] [0, 0, 0, 1] 1 0) helloEntry
        (bufOfList [0, 0, 0, 6, 0, 0, 0, 1, 0, 0]) 0 0 [47, 116]).status = Status.exited (-1)
    ∧ (readNode Endian.little (dirTree [0, 0, 0, 2] [255, 255, 255, 255] 0 0) (nodeOffset 1 0)) =
      { name_offset := 0, flags := 2, count := 2, offset := 4294967295 }
    ∧ childVisits 0 (render_tree stdEnv 2 1 (dirTree [0, 0, 0, 2] [255, 255, 255, 255] 0 0)
        helloEntry (bufOfList [0, 0, 0, 1, 65]) 0 0 [47, 116]).trace = [4294967295, 0]
    ∧ ¬ (4294967295 ≤ 0 ∧ 0 < 4294967295 + 2) := by
  decide

/-! ## Loops over the same calls -/

theorem childLoop_congr (call call2 : Nat → Res) (bound : Int) :
    ∀ (n : Nat) (c0 : Int),
      (∀ c : Int, c0 ≤ c → c < bound → call2 (toUInt32 c) = call (toUInt32 c)) →
      childLoop call2 bound n c0 = childLoop call bound n c0 := by
  intro n
  induction n with
  | zero => intro c0 _; rfl
  | succ n ih =>
    intro c0 h
    by_cases hc : c0 < bound
    · simp only [childLoop, hc, if_true]
      rw [h c0 (le_refl _) hc, ih (c0 + 1) (fun c h1 h2 => h c (by omega) h2)]
    · simp only [childLoop, hc, if_false]

theorem nodeOffset_of_lt (ver j N : Nat)
    (hN : (if ver = 1 then 14 else 22) * N ≤ 4294967296) (hj : j < N) :
    nodeOffset ver j = (if ver = 1 then 14 else 22) * j := by
  unfold nodeOffset
  rw [Nat.mul_comm]
  apply Nat.mod_eq_of_lt
  have h1 : (if ver = 1 then 14 else 22) * j < (if ver = 1 then 14 else 22) * N := by
    apply Nat.mul_lt_mul_of_pos_left hj
    split <;> omega
  omega

/-! ## A failed `fopen` ends the traversal -/

theorem failedOpenEnds_append_returned (env : Env) (st : Status) (b : List Event) :
    ∀ a : List Event, failedOpenEnds env Status.returned a →
      failedOpenEnds env st b → failedOpenEnds env st (a ++ b) := by
  intro a
  induction a with
  | nil => intro _ hb; exact hb
  | cons e a ih =>
    intro ha hb
    cases e with
    | fopen p =>
      by_cases hp : env.fopenOk p = true
      · simp only [List.cons_append, failedOpenEnds, hp, if_true] at ha ⊢
        exact ih ha hb
      · simp only [failedOpenEnds, hp, if_false] at ha
        exact absurd ha.2 (by simp)
    | _ =>
      simp only [List.cons_append, failedOpenEnds] at ha ⊢
      exact ih ha hb

theorem failedOpenEnds_andThen (env : Env) (r k : Res)
    (hr : failedOpenEnds env r.status r.trace) (hk : failedOpenEnds env k.status k.trace) :
    failedOpenEnds env (r.andThen k).status (r.andThen k).trace := by
  cases hst : r.status with
  | returned =>
    simp only [Res.andThen, hst]
    rw [hst] at hr
    exact failedOpenEnds_append_returned env k.status k.trace r.trace hr hk
  | exited code => simp only [Res.andThen, hst]; rw [hst] at hr; exact hr
  | undefined => simp only [Res.andThen, hst]; rw [hst] at hr; exact hr
  | outOfFuel => simp only [Res.andThen, hst]; rw [hst] at hr; exact hr

theorem failedOpenEnds_render_file (env : Env) (data : Buf) (node : TreeObj)
    (fullpath : List Nat) :
    failedOpenEnds env (render_file env data node fullpath).status
      (render_file env data node fullpath).trace := by
  by_cases hopen : env.fopenOk fullpath = true
  · simp only [render_file, hopen, Bool.true_eq_false, if_false]
    split
    · split
      · simp [failedOpenEnds, hopen]
      · split
        · simp [failedOpenEnds, hopen]
        · split <;> simp [failedOpenEnds, hopen]
    · split <;> simp [failedOpenEnds, hopen]
  · have hf : env.fopenOk fullpath = false := by simpa using hopen
    rw [render_file_open_failed env data node fullpath hf]
    simp [failedOpenEnds, hf]

theorem failedOpenEnds_childLoop (env : Env) (call : Nat → Res) (bound : Int)
    (hcall : ∀ x, failedOpenEnds env (call x).status (call x).trace) :
    ∀ (n : Nat) (c : Int), failedOpenEnds env (childLoop call bound n c).status
      (childLoop call bound n c).trace := by
  intro n
  induction n with
  | zero => intro c; simp [childLoop, failedOpenEnds]
  | succ n ih =>
    intro c
    by_cases hc : c < bound
    · simp only [childLoop, hc, if_true]
      exact failedOpenEnds_andThen env _ _ (hcall _) (ih (c + 1))
    · simp [childLoop, hc, failedOpenEnds]

theorem failedOpenEnds_render_tree (env : Env) :
    ∀ (fuel ver : Nat) (tree names data : Buf) (i depth : Nat) (path : List Nat),
      failedOpenEnds env (render_tree env fuel ver tree names data i depth path).status
        (render_tree env fuel ver tree names data i depth path).trace := by
  intro fuel
  induction fuel with
  | zero => intro ver tree names data i depth path; simp [render_tree, failedOpenEnds]
  | succ fuel ih =>
    intro ver tree names data i depth path
    by_cases hfit : PATH_MAX < path.length + 1 +
        (nodeName env names i (readNode env.host tree (nodeOffset ver i))).length + 1
    · rw [render_tree_undefined env fuel ver tree names data i depth path hfit]
      simp [failedOpenEnds]
    · have hfit2 := fit_to_fullpath path _ hfit
      by_cases hdir : (readNode env.host tree (nodeOffset ver i)).flags &&& Directory = 0
      · rw [render_tree_file_eq env fuel ver tree names data i depth path _ _ rfl rfl hfit2 hdir]
        simp only [Res.after, List.cons_append, List.nil_append, failedOpenEnds]
        exact failedOpenEnds_render_file env data _ _
      · by_cases hov : toInt32 (readNode env.host tree (nodeOffset ver i)).offset +
            toInt32 (readNode env.host tree (nodeOffset ver i)).count < -2147483648 ∨
            2147483647 < toInt32 (readNode env.host tree (nodeOffset ver i)).offset +
            toInt32 (readNode env.host tree (nodeOffset ver i)).count
        · rw [render_tree_dir_overflow env fuel ver tree names data i depth path _ _ rfl rfl
            hfit2 hdir hov]
          simp [failedOpenEnds]
        · rw [render_tree_dir_eq env fuel ver tree names data i depth path _ _ rfl rfl
            hfit2 hdir (by omega) (by omega)]
          simp only [Res.after, List.cons_append, List.nil_append, failedOpenEnds]
          exact failedOpenEnds_childLoop env _ _ (fun x => ih ver tree names data x _ _) _ _

theorem failedOpenEnds_split (env : Env) (st : Status) (p : List Nat) (post : List Event)
    (hp : env.fopenOk p = false) :
    ∀ pre : List Event, failedOpenEnds env st (pre ++ Event.fopen p :: post) →
      post = [Event.stderr Msg.openFailed] ∧ st = Status.exited (-1) := by
  intro pre
  induction pre with
  | nil =>
    intro h
    simpa [failedOpenEnds, hp] using h
  | cons e pre ih =>
    intro h
    cases e with
    | fopen q =>
      by_cases hq : env.fopenOk q = true
      · simp only [List.cons_append, failedOpenEnds, hq, if_true] at h
        exact ih h
      · have hq2 : env.fopenOk q = false := by simpa using hq
        simp only [List.cons_append, failedOpenEnds, hq2, Bool.false_eq_true, if_false] at h
        have hlen := congrArg List.length h.1
        cases pre with
        | nil => simp at h
        | cons a t =>
          simp only [List.append_eq, List.length_append, List.length_cons,
            List.length_nil] at hlen
          omega
    | _ =>
      simp only [List.cons_append, failedOpenEnds] at h
      exact ih h

/-- Claim C17: wherever a failed `fopen` stands in the trace of a call of `render_tree`,
the only action after it is the diagnostic on stderr and the process has ended with
`exit(-1)`: no `fwrite` follows for that node and no later node is entered. -/
theorem render_tree_open_failure_aborts (env : Env) (fuel ver : Nat) (tree names data : Buf)
    (i depth : Nat) (path : List Nat) (pre post : List Event) (p : List Nat)
    (htrace : (render_tree env fuel ver tree names data i depth path).trace =
      pre ++ Event.fopen p :: post)
    (hopen : env.fopenOk p = false) :
    post = [Event.stderr Msg.openFailed]
    ∧ (render_tree env fuel ver tree names data i depth path).status = Status.exited (-1)
    ∧ written post = []
    ∧ ∀ ev ∈ post, ev.isEnter = false ∧ ev.isFileOp = false ∧ ev.isMkdir = false := by
  have h := failedOpenEnds_render_tree env fuel ver tree names data i depth path
  rw [htrace] at h
  obtain ⟨h1, h2⟩ := failedOpenEnds_split env _ p post hopen pre h
  refine ⟨h1, h2, ?_, ?_⟩
  · rw [h1]; rfl
  · intro ev hev
    rw [h1] at hev
    simp only [List.mem_singleton] at hev
    rw [hev]
    exact ⟨rfl, rfl, rfl⟩

/-- Witness of C17: the root of `dirTree [0, 0, 0, 2] [0, 0, 0, 1] 0 0` has the file
children 1 and 2; on a host where `fopen` fails the run ends in child 1. -/
theorem render_tree_open_failure_aborts_witness :
    (render_tree noOpenEnv 2 1 (dirTree [0, 0, 0, 2] [0, 0, 0, 1] 0 0) helloEntry
      (bufOfList [0, 0, 0, 1, 65]) 0 0 [47, 116]).status = Status.exited (-1) :=
  (render_tree_open_failure_aborts noOpenEnv 2 1 (dirTree [0, 0, 0, 2] [0, 0, 0, 1] 0 0)
    helloEntry (bufOfList [0, 0, 0, 1, 65]) 0 0 [47, 116]
    [Event.enter 0 0 2, Event.showPath ([47, 116, 47] ++ rootName 0) 0, Event.showDir 2 1,
     Event.mkdir ([47, 116, 47] ++ rootName 0), Event.enter 1 1 0,
     Event.showPath ([47, 116, 47] ++ rootName 0 ++ [47, 104, 101, 108, 108, 111]) 0,
     Event.showFile 0 4 1]
    [Event.stderr Msg.openFailed]
    ([47, 116, 47] ++ rootName 0 ++ [47, 104, 101, 108, 108, 111]) (by decide) rfl).2.1

/-! ## What the inflater is given -/

/-- Claim C18 (amended): for a `Compressed` file node whose `fopen`, `malloc` and
`inflateInit` succeed, `inflate` is called on `(L - 4) mod 2^32` input bytes that start
at position `(data_offset + 8) mod 2^32` of the data buffer, `L` being the 32-bit length
read at `data_offset`, and the outcome of that call alone decides whether the node is
written.  When `L < 4` the entry is not rejected and the input length is at least
`2^32 - 4`; when `L >= 4` it is `L - 4`; the input starts at `data_offset + 8` whenever
`data_offset + 8 < 2^32`. -/
theorem render_tree_inflate_input (env : Env) (fuel ver : Nat) (tree names data : Buf)
    (i depth : Nat) (path : List Nat) (node : TreeObj) (fullpath : List Nat)
    (hnode : readNode env.host tree (nodeOffset ver i) = node)
    (hpath : path ++ [47] ++ nodeName env names i node = fullpath)
    (hfit : fullpath.length + 1 ≤ PATH_MAX)
    (hfile : node.flags &&& Directory = 0)
    (hc : node.flags &&& Compressed ≠ 0)
    (hopen : env.fopenOk fullpath = true)
    (hmalloc : env.mallocOk (be32 data ((node.offset + 4) % 4294967296)) = true)
    (hinit : env.inflateInitRet = Z_OK) :
    (render_tree env (fuel + 1) ver tree names data i depth path).trace.take 5 =
      [Event.enter depth i node.flags, Event.showPath fullpath node.name_offset,
       Event.showFile node.count ((node.offset + 4) % 4294967296) (be32 data node.offset),
       Event.fopen fullpath,
       Event.inflate ((node.offset + 8) % 4294967296)
         ((be32 data node.offset + 4294967296 - 4) % 4294967296)
         (be32 data ((node.offset + 4) % 4294967296))]
    ∧ ((render_tree env (fuel + 1) ver tree names data i depth path).status = Status.returned ↔
        (env.inflate
          (readBytes data ((node.offset + 8) % 4294967296)
            ((be32 data node.offset + 4294967296 - 4) % 4294967296))
          (be32 data ((node.offset + 4) % 4294967296))).1 = Z_STREAM_END)
    ∧ (be32 data node.offset < 4 →
        4294967292 ≤ (be32 data node.offset + 4294967296 - 4) % 4294967296)
    ∧ (4 ≤ be32 data node.offset →
        (be32 data node.offset + 4294967296 - 4) % 4294967296 = be32 data node.offset - 4)
    ∧ (node.offset + 8 < 4294967296 → (node.offset + 8) % 4294967296 = node.offset + 8) := by
  have hres := render_tree_file_eq env fuel ver tree names data i depth path node fullpath
    hnode hpath hfit hfile
  have h8 : ((node.offset + 4) % 4294967296 + 4) % 4294967296 =
      (node.offset + 8) % 4294967296 := by omega
  rw [render_file_inflate env data node fullpath ((node.offset + 4) % 4294967296)
    ((node.offset + 8) % 4294967296) ((be32 data node.offset + 4294967296 - 4) % 4294967296)
    (be32 data ((node.offset + 4) % 4294967296)) _ rfl h8 rfl rfl rfl hopen hc hmalloc hinit]
    at hres
  have hl := be32_lt data node.offset
  refine ⟨?_, ?_, ?_, ?_, ?_⟩
  · rw [hres]
    split <;> rfl
  · rw [hres]
    split
    · rename_i hne
      simp only [Res.after]
      constructor
      · intro h; exact Status.noConfusion h
      · intro h; exact absurd h hne
    · rename_i heq
      simp only [Res.after]
      constructor
      · intro _; exact not_not.mp heq
      · intro _; trivial
  · intro h; omega
  · intro h; omega
  · intro h; exact Nat.mod_eq_of_lt h

/-- Witness of C18: node 1 of `fileTree 1 [0, 0, 0, 0]` with a stored stream of "hi". -/
theorem render_tree_inflate_input_witness :
    (render_tree stdEnv (0 + 1) 1 (fileTree 1 [0, 0, 0, 0]) helloEntry
      (bufOfList (compressedEntry 2 (zlibStore [104, 105]))) 1 1 [47, 116]).trace.take 5 =
      [Event.enter 1 1 1, Event.showPath [47, 116, 47, 104, 101, 108, 108, 111] 0,
       Event.showFile 0 ((0 + 4) % 4294967296)
         (be32 (bufOfList (compressedEntry 2 (zlibStore [104, 105]))) 0),
       Event.fopen [47, 116, 47, 104, 101, 108, 108, 111],
       Event.inflate ((0 + 8) % 4294967296)
         ((be32 (bufOfList (compressedEntry 2 (zlibStore [104, 105]))) 0 + 4294967296 - 4)
           % 4294967296)
         (be32 (bufOfList (compressedEntry 2 (zlibStore [104, 105]))) ((0 + 4) % 4294967296))] :=
  (render_tree_inflate_input stdEnv 0 1 (fileTree 1 [0, 0, 0, 0]) helloEntry
    (bufOfList (compressedEntry 2 (zlibStore [104, 105]))) 1 1 [47, 116]
    { name_offset := 0, flags := 1, count := 0, offset := 0 }
    [47, 116, 47, 104, 101, 108, 108, 111]
    (by decide) (by decide) (by decide) (by decide) (by decide) rfl rfl rfl).1

/-- Counterexample to C18 as stated: node 1 of `fileTree 1 [255, 255, 255, 252]` is a
`Compressed` file with `data_offset = 2^32 - 4` and `L = 17 >= 4`; the input offered to
`inflate` has `L - 4 = 13` bytes but starts at position 4 of the data buffer, not at
`data_offset + 8 = 2^32 + 4`.  With the same entry at offset 0, nothing is offered to
`inflate` when `fopen`, `malloc` or `inflateInit` fails: the process exits before the
call. -/
theorem render_tree_inflate_input_counterexample :
    (readNode Endian.little (fileTree 1 [255, 255, 255, 252]) (nodeOffset 1 1)) =
      { name_offset := 0, flags := 1, count := 0, offset := 4294967292 }
    ∧ be32 (highData (compressedEntry 2 (zlibStore [104, 105]))) 4294967292 = 17
    ∧ (render_tree stdEnv 1 1 (fileTree 1 [255, 255, 255, 252]) helloEntry
        (highData (compressedEntry 2 (zlibStore [104, 105]))) 1 1 [47, 116]).trace.take 5 =
        [Event.enter 1 1 1, Event.showPath [47, 116, 47, 104, 101, 108, 108, 111] 0,
         Event.showFile 0 0 17, Event.fopen [47, 116, 47, 104, 101, 108, 108, 111],
         Event.inflate 4 13 0]
    ∧ Event.inflate (4294967292 + 8) (17 - 4) 0 ∉
        (render_tree stdEnv 1 1 (fileTree 1 [255, 255, 255, 252]) helloEntry
          (highData (compressedEntry 2 (zlibStore [104, 105]))) 1 1 [47, 116]).trace
    ∧ 4 ≠ 4294967292 + 8
    ∧ render_tree noOpenEnv 1 1 (fileTree 1 [0, 0, 0, 0]) helloEntry
        (bufOfList (compressedEntry 2 (zlibStore [104, 105]))) 1 1 [47, 116] =
        ⟨[Event.enter 1 1 1, Event.showPath [47, 116, 47, 104, 101, 108, 108, 111] 0,
          Event.showFile 0 4 17, Event.fopen [47, 116, 47, 104, 101, 108, 108, 111],
          Event.stderr Msg.openFailed], Status.exited (-1)⟩
    ∧ render_tree noMallocEnv 1 1 (fileTree 1 [0, 0, 0, 0]) helloEntry
        (bufOfList (compressedEntry 2 (zlibStore [104, 105]))) 1 1 [47, 116] =
        ⟨[Event.enter 1 1 1, Event.showPath [47, 116, 47, 104, 101, 108, 108, 111] 0,
          Event.showFile 0 4 17, Event.fopen [47, 116, 47, 104, 101, 108, 108, 111],
          Event.stderr Msg.mallocFailed], Status.exited (-1)⟩
    ∧ render_tree noInitEnv 1 1 (fileTree 1 [0, 0, 0, 0]) helloEntry
        (bufOfList (compressedEntry 2 (zlibStore [104, 105]))) 1 1 [47, 116] =
        ⟨[Event.enter 1 1 1, Event.showPath [47, 116, 47, 104, 101, 108, 108, 111] 0,
          Event.showFile 0 4 17, Event.fopen [47, 116, 47, 104, 101, 108, 108, 111],
          Event.stderr Msg.inflateInitFailed], Status.exited (-1)⟩ := by
  decide

/-! ## Paths -/

theorem render_file_fsops (env : Env) (data : Buf) (node : TreeObj) (fullpath : List Nat) :
    (render_file env data node fullpath).trace.filter (fun ev => ev.isMkdir || ev.isFopen) =
      [Event.fopen fullpath] := by
  simp only [render_file]
  split
  · simp [Event.isMkdir, Event.isFopen]
  · split
    · split
      · simp [Event.isMkdir, Event.isFopen]
      · split
        · simp [Event.isMkdir, Event.isFopen]
        · split <;> simp [Event.isMkdir, Event.isFopen]
    · split <;> simp [Event.isMkdir, Event.isFopen]

/-- Claim C15: a node visited with accumulated path `p` is materialised at exactly
`p ++ "/" ++ name`, where `name` is the root placeholder when the index is 0 and the
result of `name_convert` at the name offset of the node otherwise.  A file node opens
this path and touches no other path; a directory node creates this path, and all its
recursive calls receive this path as their accumulated path, so that the path of a node
is the base path followed by the names of the root, of its ancestors and of itself,
each after a "/". -/
theorem render_tree_materialises_at (env : Env) (fuel ver : Nat) (tree names data : Buf)
    (i depth : Nat) (path : List Nat) (node : TreeObj) (name : List Nat)
    (hnode : readNode env.host tree (nodeOffset ver i) = node)
    (hname : (if i = 0 then rootName env.treeAddr
      else name_convert env.host names node.name_offset) = name)
    (hfit : (path ++ [47] ++ name).length + 1 ≤ PATH_MAX) :
    (node.flags &&& Directory ≠ 0 →
      ((render_tree env (fuel + 1) ver tree names data i depth path).trace.take 4).filter
          (fun ev => ev.isMkdir || ev.isFopen) = [Event.mkdir (path ++ [47] ++ name)]
      ∧ ∃ cs : List Nat,
          (render_tree env (fuel + 1) ver tree names data i depth path).trace.drop 4 =
            cs.flatMap (fun c => (render_tree env fuel ver tree names data c
              ((depth + 1) % 4294967296) (path ++ [47] ++ name)).trace))
    ∧ (node.flags &&& Directory = 0 →
      (render_tree env (fuel + 1) ver tree names data i depth path).trace.filter
          (fun ev => ev.isMkdir || ev.isFopen) = [Event.fopen (path ++ [47] ++ name)]) := by
  have hpath : path ++ [47] ++ nodeName env names i node = path ++ [47] ++ name := by
    rw [← hname]; rfl
  constructor
  · intro hdir
    by_cases hov : toInt32 node.offset + toInt32 node.count < -2147483648 ∨
        2147483647 < toInt32 node.offset + toInt32 node.count
    · rw [render_tree_dir_overflow env fuel ver tree names data i depth path node _
        hnode hpath hfit hdir hov]
      exact ⟨by simp [Event.isMkdir, Event.isFopen], [], rfl⟩
    · rw [render_tree_dir_eq env fuel ver tree names data i depth path node _
        hnode hpath hfit hdir (by omega) (by omega)]
      obtain ⟨cs, hcs⟩ := childLoop_trace_calls
        (fun c => render_tree env fuel ver tree names data c ((depth + 1) % 4294967296)
          (path ++ [47] ++ name))
        (toInt32 node.offset + toInt32 node.count)
        (toInt32 node.offset + toInt32 node.count - toInt32 node.offset).toNat
        (toInt32 node.offset)
      refine ⟨by simp [Res.after, Event.isMkdir, Event.isFopen], cs, ?_⟩
      simp only [Res.after, List.cons_append, List.nil_append, List.drop_succ_cons, List.drop_zero]
      exact hcs
  · intro hfile
    rw [render_tree_file_eq env fuel ver tree names data i depth path node _
      hnode hpath hfit hfile]
    simp only [Res.after, List.cons_append, List.nil_append, List.filter_cons, Event.isMkdir,
      Event.isFopen, Bool.or_self, Bool.false_eq_true, if_false]
    exact render_file_fsops env data node _

/-- Witness of C15: node 1 of `fileTree 0 [0, 0, 0, 0]`, named "hello", visited with the
accumulated path "/t". -/
theorem render_tree_materialises_at_witness :
    (render_tree stdEnv (0 + 1) 1 (fileTree 0 [0, 0, 0, 0]) helloEntry
      (bufOfList [0, 0, 0, 1, 65]) 1 1 [47, 116]).trace.filter
        (fun ev => ev.isMkdir || ev.isFopen) =
      [Event.fopen ([47, 116] ++ [47] ++ [104, 101, 108, 108, 111])] :=
  (render_tree_materialises_at stdEnv 0 1 (fileTree 0 [0, 0, 0, 0]) helloEntry
    (bufOfList [0, 0, 0, 1, 65]) 1 1 [47, 116]
    { name_offset := 0, flags := 0, count := 0, offset := 0 } [104, 101, 108, 108, 111]
    (by decide) (by decide) (by decide)).2 (by decide)

/-! ## The version and a failing `mkdir` -/

theorem render_tree_version (env : Env) (ver : Nat) (hver : ver ≠ 1) :
    ∀ (fuel : Nat) (tree names data : Buf) (i depth : Nat) (path : List Nat),
      render_tree env fuel ver tree names data i depth path =
        render_tree env fuel 2 tree names data i depth path := by
  have hoff : ∀ i, nodeOffset ver i = nodeOffset 2 i := by
    intro i
    simp only [nodeOffset, hver, if_false]
    rfl
  intro fuel
  induction fuel with
  | zero => intro tree names data i depth path; rfl
  | succ fuel ih =>
    intro tree names data i depth path
    simp only [render_tree, hoff, ih]

/-- Claim C13 (amended): no version value is refused.  When extraction is started and a
base path is given, the hook runs `render_tree` on the low 8 bits of the version; a
value whose low 8 bits are 1 is processed as version 1 (stride 14) and every other
value exactly as version 2 (stride 22), with all the filesystem operations of that
traversal. -/
theorem qRegisterResourceData_any_version (env : Env) (fuel : Nat) (ver : Int)
    (tree names data : Buf) (base : List Nat) :
    qRegisterResourceData env true (some base) fuel ver tree names data =
      (Res.after [Event.stderr (Msg.hookCalled ver)]
        (render_tree env fuel (if ver % 256 = 1 then 1 else 2) tree names data 0 0 base)).andThen
        ⟨[Event.callOriginal ver], Status.returned⟩ := by
  have hv : render_tree env fuel (ver % 256).toNat tree names data 0 0 base =
      render_tree env fuel (if ver % 256 = 1 then 1 else 2) tree names data 0 0 base := by
    by_cases h : ver % 256 = 1
    · rw [if_pos h, h]; rfl
    · rw [if_neg h]
      exact render_tree_version env _ (by omega) fuel tree names data 0 0 base
  simp only [qRegisterResourceData, if_true, hv]

/-- Counterexample to C13 as stated: with the version values 3 and 0 the hook reports no
error and extracts `tinyTree2` as a version 2 tree: it creates the root directory and
writes the file of node 1; with the version 257 it reads the tree as version 1. -/
theorem qRegisterResourceData_version_3 :
    qRegisterResourceData stdEnv true (some [47, 116]) 5 3 tinyTree2 helloEntry
        (bufOfList [0, 0, 0, 1, 65]) =
      ⟨[Event.stderr (Msg.hookCalled 3), Event.enter 0 0 2,
        Event.showPath ([47, 116, 47] ++ rootName 0) 0, Event.showDir 1 1,
        Event.mkdir ([47, 116, 47] ++ rootName 0), Event.enter 1 1 0,
        Event.showPath ([47, 116, 47] ++ rootName 0 ++ [47, 104, 101, 108, 108, 111]) 0,
        Event.showFile 0 4 1,
        Event.fopen ([47, 116, 47] ++ rootName 0 ++ [47, 104, 101, 108, 108, 111]),
        Event.fwrite [65], Event.fclose, Event.callOriginal 3], Status.returned⟩
    ∧ Event.mkdir ([47, 116, 47] ++ rootName 0) ∈
        (qRegisterResourceData stdEnv true (some [47, 116]) 5 0 tinyTree2 helloEntry
          (bufOfList [0, 0, 0, 1, 65])).trace
    ∧ (qRegisterResourceData stdEnv true (some [47, 116]) 5 0 tinyTree2 helloEntry
          (bufOfList [0, 0, 0, 1, 65])).status = Status.returned
    ∧ List.dropLast ((qRegisterResourceData stdEnv true (some [47, 116]) 5 257
          (dirTree [0, 0, 0, 2] [0, 0, 0, 1] 0 0) helloEntry
          (bufOfList [0, 0, 0, 1, 65])).trace.drop 1) =
        (render_tree stdEnv 5 1 (dirTree [0, 0, 0, 2] [0, 0, 0, 1] 0 0) helloEntry
          (bufOfList [0, 0, 0, 1, 65]) 0 0 [47, 116]).trace
    ∧ (qRegisterResourceData stdEnv true (some [47, 116]) 5 257
          (dirTree [0, 0, 0, 2] [0, 0, 0, 1] 0 0) helloEntry
          (bufOfList [0, 0, 0, 1, 65])).status = Status.returned := by
  decide

/-- Claim C12, evaluated on a host where `mkdir` fails for a reason other than the
directory existing, so that nothing can be created below it either (`nothingWorksEnv`).
(1) The root of `dirTree [0, 0, 0, 2] [0, 0, 0, 1] 0 0` is a directory with the file
children 1 and 2: after the failed `mkdir` of line 123, whose result is discarded, child 1
is entered and its `fopen` is attempted; the process exits only there, with the
diagnostic of the failed `fopen`.  (2) In `dirOnlyTree` the root and its one child are
directories: both `mkdir` calls fail, the child is processed after the first failure and
the traversal returns normally, with no diagnostic at all. -/
theorem render_tree_mkdir_failure_not_fatal :
    nothingWorksEnv.mkdirRet ([47, 116, 47] ++ rootName 0) = -1
    ∧ render_tree nothingWorksEnv 2 1 (dirTree [0, 0, 0, 2] [0, 0, 0, 1] 0 0)
        helloEntry (bufOfList [0, 0, 0, 1, 65]) 0 0 [47, 116] =
        ⟨[Event.enter 0 0 2, Event.showPath ([47, 116, 47] ++ rootName 0) 0, Event.showDir 2 1,
          Event.mkdir ([47, 116, 47] ++ rootName 0), Event.enter 1 1 0,
          Event.showPath ([47, 116, 47] ++ rootName 0 ++ [47, 104, 101, 108, 108, 111]) 0,
          Event.showFile 0 4 1,
          Event.fopen ([47, 116, 47] ++ rootName 0 ++ [47, 104, 101, 108, 108, 111]),
          Event.stderr Msg.openFailed], Status.exited (-1)⟩
    ∧ childVisits 0 (render_tree nothingWorksEnv 2 1 (dirTree [0, 0, 0, 2] [0, 0, 0, 1] 0 0)
        helloEntry (bufOfList [0, 0, 0, 1, 65]) 0 0 [47, 116]).trace = [1]
    ∧ nothingWorksEnv.mkdirRet ([47, 116, 47] ++ rootName 0 ++ [47, 97]) = -1
    ∧ render_tree nothingWorksEnv 2 1 dirOnlyTree nestedNames (bufOfList []) 0 0 [47, 116] =
        ⟨[Event.enter 0 0 2, Event.showPath ([47, 116, 47] ++ rootName 0) 0, Event.showDir 1 1,
          Event.mkdir ([47, 116, 47] ++ rootName 0), Event.enter 1 1 2,
          Event.showPath ([47, 116, 47] ++ rootName 0 ++ [47, 97]) 0, Event.showDir 0 0,
          Event.mkdir ([47, 116, 47] ++ rootName 0 ++ [47, 97])], Status.returned⟩ := by
  decide

/-! ## Nested directories -/

theorem Res.andThen_done (r : Res) : r.andThen ⟨[], Status.returned⟩ = r := by
  cases r with
  | mk tr st =>
    cases st <;> simp [Res.andThen]

theorem Res.after_after (a b : List Event) (r : Res) :
    Res.after a (Res.after b r) = Res.after (a ++ b) r := by
  simp [Res.after, List.append_assoc]

theorem toUInt32_natCast (c : Nat) (h : c < 4294967296) : toUInt32 (c : Int) = c := by
  unfold toUInt32
  omega

theorem rootName_length (a : Nat) : (rootName a).length = 17 := by
  simp [rootName, hex8]

theorem render_tree_single_child (env : Env) (fuel ver : Nat) (tree names data : Buf)
    (i depth : Nat) (path : List Nat) (node : TreeObj) (fullpath : List Nat) (c : Nat)
    (hnode : readNode env.host tree (nodeOffset ver i) = node)
    (hpath : path ++ [47] ++ nodeName env names i node = fullpath)
    (hfit : fullpath.length + 1 ≤ PATH_MAX)
    (hdir : node.flags &&& Directory ≠ 0)
    (hcount : node.count = 1) (hoff : node.offset = c) (hc : c < 2147483647) :
    render_tree env (fuel + 1) ver tree names data i depth path =
      Res.after
        [Event.enter depth i node.flags, Event.showPath fullpath node.name_offset,
         Event.showDir 1 c, Event.mkdir fullpath]
        (render_tree env fuel ver tree names data c ((depth + 1) % 4294967296) fullpath) := by
  have ho : toInt32 node.offset = (c : Int) := by rw [hoff]; exact toInt32_of_lt c (by omega)
  have hn : toInt32 node.count = 1 := by rw [hcount]; rfl
  rw [render_tree_dir_eq env fuel ver tree names data i depth path node fullpath hnode hpath hfit
    hdir (by rw [ho, hn]; omega) (by rw [ho, hn]; omega)]
  rw [ho, hn, hcount, hoff]
  have h1 : ((c : Int) + 1 - (c : Int)).toNat = 1 := by omega
  have h2 : (c : Int) < (c : Int) + 1 := by omega
  rw [h1]
  simp only [childLoop, h2, if_true, Res.andThen_done, toUInt32_natCast c (by omega)]

/-- Claim C11 (amended): let the root (index 0) be a directory whose only child `ia` is a
directory named "a", whose only child `ib` is a directory named "b", whose only child
`ic` is a file named "c.txt".  Started at index 0 with the base path `base`,
`render_tree` creates, in this order, `base/R`, `base/R/a` and `base/R/a/b`, where `R`
is the placeholder name of the root, and only then opens the file
`base/R/a/b/c.txt`. -/
theorem render_tree_nested_paths (env : Env) (fuel ver : Nat) (tree names data : Buf)
    (base : List Nat) (ia ib ic : Nat) (n0 na nb nc : TreeObj)
    (h0 : readNode env.host tree (nodeOffset ver 0) = n0)
    (ha : readNode env.host tree (nodeOffset ver ia) = na)
    (hb : readNode env.host tree (nodeOffset ver ib) = nb)
    (hc : readNode env.host tree (nodeOffset ver ic) = nc)
    (hd0 : n0.flags &&& Directory ≠ 0) (hc0 : n0.count = 1) (ho0 : n0.offset = ia)
    (hda : na.flags &&& Directory ≠ 0) (hca : na.count = 1) (hoa : na.offset = ib)
    (hdb : nb.flags &&& Directory ≠ 0) (hcb : nb.count = 1) (hob : nb.offset = ic)
    (hfc : nc.flags &&& Directory = 0)
    (hia : 0 < ia ∧ ia < 2147483647) (hib : 0 < ib ∧ ib < 2147483647)
    (hic : 0 < ic ∧ ic < 2147483647)
    (hna : name_convert env.host names na.name_offset = [97])
    (hnb : name_convert env.host names nb.name_offset = [98])
    (hnc : name_convert env.host names nc.name_offset = [99, 46, 116, 120, 116])
    (hfit : base.length + 29 ≤ PATH_MAX) :
    render_tree env (fuel + 4) ver tree names data 0 0 base =
      Res.after
        [Event.enter 0 0 n0.flags,
         Event.showPath (base ++ [47] ++ rootName env.treeAddr) n0.name_offset,
         Event.showDir 1 ia,
         Event.mkdir (base ++ [47] ++ rootName env.treeAddr),
         Event.enter 1 ia na.flags,
         Event.showPath (base ++ [47] ++ rootName env.treeAddr ++ [47] ++ [97]) na.name_offset,
         Event.showDir 1 ib,
         Event.mkdir (base ++ [47] ++ rootName env.treeAddr ++ [47] ++ [97]),
         Event.enter 2 ib nb.flags,
         Event.showPath (base ++ [47] ++ rootName env.treeAddr ++ [47] ++ [97] ++ [47] ++ [98])
           nb.name_offset,
         Event.showDir 1 ic,
         Event.mkdir (base ++ [47] ++ rootName env.treeAddr ++ [47] ++ [97] ++ [47] ++ [98]),
         Event.enter 3 ic nc.flags,
         Event.showPath (base ++ [47] ++ rootName env.treeAddr ++ [47] ++ [97] ++ [47] ++ [98]
           ++ [47] ++ [99, 46, 116, 120, 116]) nc.name_offset]
        (render_file env data nc (base ++ [47] ++ rootName env.treeAddr ++ [47] ++ [97]
          ++ [47] ++ [98] ++ [47] ++ [99, 46, 116, 120, 116]))
    ∧ (render_file env data nc (base ++ [47] ++ rootName env.treeAddr ++ [47] ++ [97]
          ++ [47] ++ [98] ++ [47] ++ [99, 46, 116, 120, 116])).trace.take 2 =
        [Event.showFile nc.count ((nc.offset + 4) % 4294967296) (be32 data nc.offset),
         Event.fopen (base ++ [47] ++ rootName env.treeAddr ++ [47] ++ [97]
          ++ [47] ++ [98] ++ [47] ++ [99, 46, 116, 120, 116])] := by
  have hR : (rootName env.treeAddr).length = 17 := rootName_length _
  have hn0 : nodeName env names 0 n0 = rootName env.treeAddr := by simp [nodeName]
  have hnna : nodeName env names ia na = [97] := by
    have : ia ≠ 0 := by omega
    simp [nodeName, this, hna]
  have hnnb : nodeName env names ib nb = [98] := by
    have : ib ≠ 0 := by omega
    simp [nodeName, this, hnb]
  have hnnc : nodeName env names ic nc = [99, 46, 116, 120, 116] := by
    have : ic ≠ 0 := by omega
    simp [nodeName, this, hnc]
  have s0 := render_tree_single_child env (fuel + 3) ver tree names data 0 0 base n0
    (base ++ [47] ++ rootName env.treeAddr) ia h0 (by rw [hn0])
    (by simp only [List.length_append, List.length_singleton, hR]; omega) hd0 hc0 ho0 hia.2
  have s1 := render_tree_single_child env (fuel + 2) ver tree names data ia 1
    (base ++ [47] ++ rootName env.treeAddr) na
    (base ++ [47] ++ rootName env.treeAddr ++ [47] ++ [97]) ib ha (by rw [hnna])
    (by simp only [List.length_append, List.length_singleton, hR]; omega) hda hca hoa hib.2
  have s2 := render_tree_single_child env (fuel + 1) ver tree names data ib 2
    (base ++ [47] ++ rootName env.treeAddr ++ [47] ++ [97]) nb
    (base ++ [47] ++ rootName env.treeAddr ++ [47] ++ [97] ++ [47] ++ [98]) ic hb (by rw [hnnb])
    (by simp only [List.length_append, List.length_singleton, hR]; omega) hdb hcb hob hic.2
  have s3 := render_tree_file_eq env fuel ver tree names data ic 3
    (base ++ [47] ++ rootName env.treeAddr ++ [47] ++ [97] ++ [47] ++ [98]) nc
    (base ++ [47] ++ rootName env.treeAddr ++ [47] ++ [97] ++ [47] ++ [98] ++ [47]
      ++ [99, 46, 116, 120, 116]) hc (by rw [hnnc])
    (by simp only [List.length_append, List.length_singleton, List.length_cons,
          List.length_nil, hR]; omega) hfc
  have d1 : (0 + 1) % 4294967296 = 1 := rfl
  have d2 : (1 + 1) % 4294967296 = 2 := rfl
  have d3 : (2 + 1) % 4294967296 = 3 := rfl
  rw [d1] at s0
  rw [d2] at s1
  rw [d3] at s2
  refine ⟨?_, (render_file_events env data nc _).1⟩
  rw [s0, s1, s2, s3]
  simp only [Res.after_after, List.cons_append, List.nil_append]

/-- Witness of C11: the container `nestedTree`, `nestedNames` with the base path "/t". -/
theorem render_tree_nested_paths_witness :
    (render_file stdEnv (bufOfList [0, 0, 0, 1, 65])
        { name_offset := 16, flags := 0, count := 0, offset := 0 }
        ([47, 116] ++ [47] ++ rootName stdEnv.treeAddr ++ [47] ++ [97]
          ++ [47] ++ [98] ++ [47] ++ [99, 46, 116, 120, 116])).trace.take 2 =
      [Event.showFile 0 ((0 + 4) % 4294967296) (be32 (bufOfList [0, 0, 0, 1, 65]) 0),
       Event.fopen ([47, 116] ++ [47] ++ rootName stdEnv.treeAddr ++ [47] ++ [97]
          ++ [47] ++ [98] ++ [47] ++ [99, 46, 116, 120, 116])] :=
  (render_tree_nested_paths stdEnv 0 1 nestedTree nestedNames (bufOfList [0, 0, 0, 1, 65])
    [47, 116] 1 2 3
    { name_offset := 0, flags := 2, count := 1, offset := 1 }
    { name_offset := 0, flags := 2, count := 1, offset := 2 }
    { name_offset := 8, flags := 2, count := 1, offset := 3 }
    { name_offset := 16, flags := 0, count := 0, offset := 0 }
    (by decide) (by decide) (by decide) (by decide)
    (by decide) rfl rfl (by decide) rfl rfl (by decide) rfl rfl (by decide)
    (by decide) (by decide) (by decide) (by decide) (by decide) (by decide) (by decide)).2

/-- Counterexample to C11 as stated: for the container `nestedTree`, `nestedNames` and
the base path "/t" the file is opened at `/t/__root_00000000__/a/b/c.txt`; neither
`/t/a` nor `/t/a/b` is created and `/t/a/b/c.txt` is never opened. -/
theorem render_tree_nested_paths_counterexample :
    (render_tree stdEnv 4 1 nestedTree nestedNames (bufOfList [0, 0, 0, 1, 65]) 0 0
        [47, 116]).trace.filter (fun ev => ev.isMkdir || ev.isFopen) =
      [Event.mkdir ([47, 116, 47] ++ rootName 0),
       Event.mkdir ([47, 116, 47] ++ rootName 0 ++ [47, 97]),
       Event.mkdir ([47, 116, 47] ++ rootName 0 ++ [47, 97, 47, 98]),
       Event.fopen ([47, 116, 47] ++ rootName 0 ++ [47, 97, 47, 98, 47, 99, 46, 116, 120, 116])]
    ∧ rootName 0 = [95, 95, 114, 111, 111, 116, 95, 48, 48, 48, 48, 48, 48, 48, 48, 95, 95]
    ∧ Event.fopen [47, 116, 47, 97, 47, 98, 47, 99, 46, 116, 120, 116] ∉
        (render_tree stdEnv 4 1 nestedTree nestedNames (bufOfList [0, 0, 0, 1, 65]) 0 0
          [47, 116]).trace
    ∧ Event.mkdir [47, 116, 47, 97] ∉
        (render_tree stdEnv 4 1 nestedTree nestedNames (bufOfList [0, 0, 0, 1, 65]) 0 0
          [47, 116]).trace
    ∧ Event.mkdir [47, 116, 47, 97, 47, 98] ∉
        (render_tree stdEnv 4 1 nestedTree nestedNames (bufOfList [0, 0, 0, 1, 65]) 0 0
          [47, 116]).trace := by
  decide

/-! ## Order of the traversal -/

theorem childLoop_order (call : Nat → Res) (bound : Int) :
    ∀ (n : Nat) (c : Int), (bound - c).toNat ≤ n →
      ∃ k, k ≤ (bound - c).toNat
        ∧ (childLoop call bound n c).trace =
            (List.range k).flatMap (fun (j : Nat) => (call (toUInt32 (c + (j : Int)))).trace)
        ∧ (∀ j : Nat, j + 1 < k → (call (toUInt32 (c + (j : Int)))).status = Status.returned)
        ∧ ((childLoop call bound n c).status = Status.returned →
            k = (bound - c).toNat ∧
            ∀ j : Nat, j < k → (call (toUInt32 (c + (j : Int)))).status = Status.returned)
        ∧ (c < bound → 0 < k) := by
  intro n
  induction n with
  | zero =>
    intro c hn
    refine ⟨0, Nat.zero_le _, by simp [childLoop], fun j hj => absurd hj (by omega), ?_,
      fun hc => by omega⟩
    intro _
    exact ⟨by omega, fun j hj => absurd hj (by omega)⟩
  | succ n ih =>
    intro c hn
    by_cases hc : c < bound
    · have hm : (bound - c).toNat = (bound - (c + 1)).toNat + 1 := by omega
      have hshift : ∀ j : Nat, c + 1 + (j : Int) = c + ((j + 1 : Nat) : Int) := by
        intro j; push_cast; omega
      have hzero : c + ((0 : Nat) : Int) = c := by simp
      cases hst : (call (toUInt32 c)).status with
      | returned =>
        obtain ⟨k, hk, htr, hmid, hret, _⟩ := ih (c + 1) (by omega)
        refine ⟨k + 1, by omega, ?_, ?_, ?_, fun _ => Nat.succ_pos k⟩
        · simp only [childLoop, hc, if_true, Res.andThen, hst, htr, List.range_succ_eq_map,
            List.flatMap_cons, List.flatMap_map, hzero]
          congr 1
          apply List.flatMap_congr
          intro j _
          simp only [Function.comp_apply, Nat.succ_eq_add_one, hshift]
        · intro j hj
          cases j with
          | zero => rw [hzero]; exact hst
          | succ j => rw [← hshift]; exact hmid j (by omega)
        · intro hr
          have hr2 : (childLoop call bound n (c + 1)).status = Status.returned := by
            simpa only [childLoop, hc, if_true, Res.andThen, hst] using hr
          obtain ⟨hk2, hall⟩ := hret hr2
          refine ⟨by omega, ?_⟩
          intro j hj
          cases j with
          | zero => rw [hzero]; exact hst
          | succ j => rw [← hshift]; exact hall j (by omega)
      | exited code =>
        refine ⟨1, by omega, ?_, fun j hj => absurd hj (by omega), ?_, fun _ => Nat.one_pos⟩
        · simp [childLoop, hc, Res.andThen, hst, List.range_succ]
        · intro hr
          simp only [childLoop, hc, if_true, Res.andThen, hst] at hr
          exact Status.noConfusion hr
      | undefined =>
        refine ⟨1, by omega, ?_, fun j hj => absurd hj (by omega), ?_, fun _ => Nat.one_pos⟩
        · simp [childLoop, hc, Res.andThen, hst, List.range_succ]
        · intro hr
          simp only [childLoop, hc, if_true, Res.andThen, hst] at hr
          exact Status.noConfusion hr
      | outOfFuel =>
        refine ⟨1, by omega, ?_, fun j hj => absurd hj (by omega), ?_, fun _ => Nat.one_pos⟩
        · simp [childLoop, hc, Res.andThen, hst, List.range_succ]
        · intro hr
          simp only [childLoop, hc, if_true, Res.andThen, hst] at hr
          exact Status.noConfusion hr
    · have h0 : (bound - c).toNat = 0 := by omega
      refine ⟨0, Nat.zero_le _, by simp [childLoop, hc], fun j hj => absurd hj (by omega), ?_,
        fun h => absurd h hc⟩
      intro _
      exact ⟨by omega, fun j hj => absurd hj (by omega)⟩

theorem render_tree_dir_order (env : Env) (fuel ver : Nat) (tree names data : Buf)
    (i depth : Nat) (path : List Nat) (node : TreeObj) (fullpath : List Nat)
    (hnode : readNode env.host tree (nodeOffset ver i) = node)
    (hpath : path ++ [47] ++ nodeName env names i node = fullpath)
    (hfit : fullpath.length + 1 ≤ PATH_MAX)
    (hdir : node.flags &&& Directory ≠ 0)
    (hlo : -2147483648 ≤ toInt32 node.offset + toInt32 node.count)
    (hhi : toInt32 node.offset + toInt32 node.count ≤ 2147483647)
    (hwrap : node.offset + (toInt32 node.count).toNat ≤ 4294967296) :
    ∃ k, k ≤ (toInt32 node.count).toNat
      ∧ (render_tree env (fuel + 1) ver tree names data i depth path).trace =
          [Event.enter depth i node.flags, Event.showPath fullpath node.name_offset,
           Event.showDir node.count node.offset, Event.mkdir fullpath] ++
          (List.range' node.offset k).flatMap (fun c =>
            (render_tree env fuel ver tree names data c ((depth + 1) % 4294967296) fullpath).trace)
      ∧ (∀ c, node.offset ≤ c → c + 1 < node.offset + k →
          (render_tree env fuel ver tree names data c ((depth + 1) % 4294967296)
            fullpath).status = Status.returned)
      ∧ ((render_tree env (fuel + 1) ver tree names data i depth path).status = Status.returned →
          k = (toInt32 node.count).toNat ∧
          ∀ c, node.offset ≤ c → c < node.offset + k →
            (render_tree env fuel ver tree names data c ((depth + 1) % 4294967296)
              fullpath).status = Status.returned) := by
  have hoff : node.offset < 4294967296 := by
    rw [← hnode, readNode_eq]; exact be32_lt _ _
  have hn : (toInt32 node.offset + toInt32 node.count - toInt32 node.offset).toNat =
      (toInt32 node.count).toNat := by
    congr 1; omega
  have hidx : ∀ j : Nat, j < (toInt32 node.count).toNat →
      toUInt32 (toInt32 node.offset + (j : Int)) = node.offset + j := by
    intro j hj
    by_cases hsmall : node.offset < 2147483648
    · have ho := toInt32_of_lt node.offset hsmall
      rw [ho] at hhi
      exact toUInt32_toInt32_add node.offset j hoff (Or.inl (by omega))
    · exact toUInt32_toInt32_add node.offset j hoff (Or.inr ⟨by omega, by omega⟩)
  obtain ⟨k, hk, htr, hmid, hret, hpos⟩ := childLoop_order
    (fun c => render_tree env fuel ver tree names data c ((depth + 1) % 4294967296) fullpath)
    (toInt32 node.offset + toInt32 node.count)
    (toInt32 node.offset + toInt32 node.count - toInt32 node.offset).toNat
    (toInt32 node.offset) (le_refl _)
  rw [hn] at hk
  have hres := render_tree_dir_eq env fuel ver tree names data i depth path node fullpath
    hnode hpath hfit hdir hlo hhi
  refine ⟨k, hk, ?_, ?_, ?_⟩
  · rw [hres]
    simp only [Res.after, htr, List.range'_eq_map_range, List.flatMap_map]
    congr 1
    apply List.flatMap_congr
    intro j hj
    have hj2 := List.mem_range.mp hj
    simp only [Function.comp_apply, hidx j (by omega)]
  · intro c h1 h2
    have := hmid (c - node.offset) (by omega)
    simp only [hidx (c - node.offset) (by omega)] at this
    have hc : node.offset + (c - node.offset) = c := by omega
    rw [hc] at this
    exact this
  · intro hr
    rw [hres] at hr
    obtain ⟨hk2, hall⟩ := hret hr
    rw [hn] at hk2
    refine ⟨hk2, ?_⟩
    intro c h1 h2
    have := hall (c - node.offset) (by omega)
    simp only [hidx (c - node.offset) (by omega)] at this
    have hc : node.offset + (c - node.offset) = c := by omega
    rw [hc] at this
    exact this

theorem toUInt32_toInt32_add_mod (off j : Nat) (hoff : off < 4294967296) :
    toUInt32 (toInt32 off + (j : Int)) = (off + j) % 4294967296 := by
  unfold toUInt32 toInt32
  rw [Nat.mod_eq_of_lt hoff]
  split <;> omega

theorem render_tree_dir_loop (env : Env) (fuel ver : Nat) (tree names data : Buf)
    (i depth : Nat) (path : List Nat) (node : TreeObj) (fullpath : List Nat)
    (hnode : readNode env.host tree (nodeOffset ver i) = node)
    (hpath : path ++ [47] ++ nodeName env names i node = fullpath)
    (hfit : fullpath.length + 1 ≤ PATH_MAX)
    (hdir : node.flags &&& Directory ≠ 0)
    (hlo : -2147483648 ≤ toInt32 node.offset + toInt32 node.count)
    (hhi : toInt32 node.offset + toInt32 node.count ≤ 2147483647) :
    ∃ k, k ≤ (toInt32 node.count).toNat
      ∧ (render_tree env (fuel + 1) ver tree names data i depth path).trace =
          [Event.enter depth i node.flags, Event.showPath fullpath node.name_offset,
           Event.showDir node.count node.offset, Event.mkdir fullpath] ++
          (List.range k).flatMap (fun (j : Nat) =>
            (render_tree env fuel ver tree names data ((node.offset + j) % 4294967296)
              ((depth + 1) % 4294967296) fullpath).trace)
      ∧ (∀ j : Nat, j + 1 < k →
          (render_tree env fuel ver tree names data ((node.offset + j) % 4294967296)
            ((depth + 1) % 4294967296) fullpath).status = Status.returned)
      ∧ ((render_tree env (fuel + 1) ver tree names data i depth path).status = Status.returned →
          k = (toInt32 node.count).toNat ∧
          ∀ j : Nat, j < k →
            (render_tree env fuel ver tree names data ((node.offset + j) % 4294967296)
              ((depth + 1) % 4294967296) fullpath).status = Status.returned)
      ∧ (0 < toInt32 node.count → 0 < k) := by
  have hoff : node.offset < 4294967296 := by
    rw [← hnode, readNode_eq]; exact be32_lt _ _
  have hn : (toInt32 node.offset + toInt32 node.count - toInt32 node.offset).toNat =
      (toInt32 node.count).toNat := by
    congr 1; omega
  have hidx : ∀ j : Nat,
      toUInt32 (toInt32 node.offset + (j : Int)) = (node.offset + j) % 4294967296 :=
    fun j => toUInt32_toInt32_add_mod node.offset j hoff
  obtain ⟨k, hk, htr, hmid, hret, hpos⟩ := childLoop_order
    (fun c => render_tree env fuel ver tree names data c ((depth + 1) % 4294967296) fullpath)
    (toInt32 node.offset + toInt32 node.count)
    (toInt32 node.offset + toInt32 node.count - toInt32 node.offset).toNat
    (toInt32 node.offset) (le_refl _)
  rw [hn] at hk
  have hres := render_tree_dir_eq env fuel ver tree names data i depth path node fullpath
    hnode hpath hfit hdir hlo hhi
  refine ⟨k, hk, ?_, ?_, ?_, fun hc => hpos (by omega)⟩
  · rw [hres]
    simp only [Res.after, htr, hidx]
  · intro j hj
    have := hmid j hj
    simp only [hidx] at this
    exact this
  · intro hr
    rw [hres] at hr
    obtain ⟨hk2, hall⟩ := hret hr
    rw [hn] at hk2
    refine ⟨hk2, ?_⟩
    intro j hj
    have := hall j hj
    simp only [hidx] at this
    exact this

/-- Claim C14 (amended): the traversal is depth-first pre-order.  For every directory
node, the trace of `render_tree` is: the entry of the node and the creation of its
directory, then the complete traces of the calls for its children, one after the other
in the order of the loop counter: the `j`-th child processed has the index
`(child_offset + j) mod 2^32`.  Every child but the last one reached has returned before
the next one starts; when the call returns, all children of the range have been
processed.  The number of children is `child_count` read as an `int` (none when it is
negative).  When the range `[child_offset, child_offset + count)` does not cross 2^32,
the indices in the order of processing are `child_offset, child_offset + 1, ..`:
ascending index order. -/
theorem render_tree_preorder (env : Env) (fuel ver : Nat) (tree names data : Buf)
    (i depth : Nat) (path : List Nat) (node : TreeObj) (fullpath : List Nat)
    (hnode : readNode env.host tree (nodeOffset ver i) = node)
    (hpath : path ++ [47] ++ nodeName env names i node = fullpath)
    (hfit : fullpath.length + 1 ≤ PATH_MAX)
    (hdir : node.flags &&& Directory ≠ 0)
    (hlo : -2147483648 ≤ toInt32 node.offset + toInt32 node.count)
    (hhi : toInt32 node.offset + toInt32 node.count ≤ 2147483647) :
    ∃ k, k ≤ (toInt32 node.count).toNat
      ∧ (render_tree env (fuel + 1) ver tree names data i depth path).trace =
          [Event.enter depth i node.flags, Event.showPath fullpath node.name_offset,
           Event.showDir node.count node.offset, Event.mkdir fullpath] ++
          (List.range k).flatMap (fun (j : Nat) =>
            (render_tree env fuel ver tree names data ((node.offset + j) % 4294967296)
              ((depth + 1) % 4294967296) fullpath).trace)
      ∧ (∀ j : Nat, j + 1 < k →
          (render_tree env fuel ver tree names data ((node.offset + j) % 4294967296)
            ((depth + 1) % 4294967296) fullpath).status = Status.returned)
      ∧ ((render_tree env (fuel + 1) ver tree names data i depth path).status = Status.returned →
          k = (toInt32 node.count).toNat ∧
          ∀ j : Nat, j < k →
            (render_tree env fuel ver tree names data ((node.offset + j) % 4294967296)
              ((depth + 1) % 4294967296) fullpath).status = Status.returned)
      ∧ (node.offset + (toInt32 node.count).toNat ≤ 4294967296 →
          (List.range k).map (fun (j : Nat) => (node.offset + j) % 4294967296) =
            List.range' node.offset k) := by
  obtain ⟨k, hk, htr, hmid, hret, _⟩ := render_tree_dir_loop env fuel ver tree names data i depth
    path node fullpath hnode hpath hfit hdir hlo hhi
  refine ⟨k, hk, htr, hmid, hret, ?_⟩
  intro hwrap
  rw [List.range'_eq_map_range]
  apply List.map_congr_left
  intro j hj
  have hj2 := List.mem_range.mp hj
  by_cases hlt : node.offset + j < 4294967296
  · exact Nat.mod_eq_of_lt hlt
  · have hcnt : (toInt32 node.count).toNat ≤ 2147483648 := by
      unfold toInt32; split <;> omega
    omega

/-- Witness of C14: the root of `dirTree [0, 0, 0, 2] [0, 0, 0, 1] 0 0` and its two file
children, processed in the order 1, 2. -/
theorem render_tree_preorder_witness :
    ∃ k, k ≤ 2
      ∧ (render_tree stdEnv (1 + 1) 1 (dirTree [0, 0, 0, 2] [0, 0, 0, 1] 0 0) helloEntry
          (bufOfList [0, 0, 0, 1, 65]) 0 0 [47, 116]).trace =
          [Event.enter 0 0 2, Event.showPath ([47, 116, 47] ++ rootName 0) 0,
           Event.showDir 2 1, Event.mkdir ([47, 116, 47] ++ rootName 0)] ++
          (List.range k).flatMap (fun (j : Nat) =>
            (render_tree stdEnv 1 1 (dirTree [0, 0, 0, 2] [0, 0, 0, 1] 0 0) helloEntry
              (bufOfList [0, 0, 0, 1, 65]) ((1 + j) % 4294967296) ((0 + 1) % 4294967296)
              ([47, 116, 47] ++ rootName 0)).trace)
      ∧ (List.range k).map (fun (j : Nat) => (1 + j) % 4294967296) = List.range' 1 k := by
  obtain ⟨k, hk, htr, _, _, hasc⟩ := render_tree_preorder stdEnv 1 1
    (dirTree [0, 0, 0, 2] [0, 0, 0, 1] 0 0) helloEntry (bufOfList [0, 0, 0, 1, 65]) 0 0 [47, 116]
    { name_offset := 0, flags := 2, count := 2, offset := 1 } ([47, 116, 47] ++ rootName 0)
    (by decide) (by decide) (by decide) (by decide) (by decide) (by decide)
  exact ⟨k, hk, htr, hasc (by decide)⟩

/-- Counterexample to C14 as stated: the root of
`dirTree [0, 0, 0, 2] [255, 255, 255, 255] 0 0` has `child_offset = 2^32 - 1` and
`child_count = 2`; its children are processed in the order 4294967295, 0, which is not
ascending. -/
theorem render_tree_preorder_counterexample :
    (readNode Endian.little (dirTree [0, 0, 0, 2] [255, 255, 255, 255] 0 0) (nodeOffset 1 0)) =
      { name_offset := 0, flags := 2, count := 2, offset := 4294967295 }
    ∧ (render_tree stdEnv 2 1 (dirTree [0, 0, 0, 2] [255, 255, 255, 255] 0 0) helloEntry
        (bufOfList [0, 0, 0, 1, 65]) 0 0 [47, 116]).trace.filter Event.isEnter =
        [Event.enter 0 0 2, Event.enter 1 4294967295 0, Event.enter 1 0 2]
    ∧ ¬ (4294967295 < 0) := by
  decide

/-! ## Directory or file -/

/-- Claim C6 (amended): a node is processed as a directory exactly when bit 1
(`Directory`) of its flags is set, whatever its other flag bits and fields are.  When the
bit is set the node's own actions are those of a directory, ending in `mkdir` of the
full path, and everything after them is the recursion: the complete traces of the calls
for its children, in the order of the loop, at the next depth.  The recursion is real:
when `child_count`, read as an `int`, is positive, at least one child is processed, and
the first event after `mkdir` is the entry of the call for the child `child_offset`.
When the bit is clear the node's actions are those of a file, beginning with `fopen` of
the full path: exactly one file is opened, at most one `fwrite` is made, exactly one when
the call returns and none when `fopen` fails (the process then exits), no directory is
created and no recursive call is made.  The two cases exclude each other. -/
theorem render_tree_directory_iff (env : Env) (fuel ver : Nat) (tree names data : Buf)
    (i depth : Nat) (path : List Nat) (node : TreeObj) (fullpath : List Nat)
    (hnode : readNode env.host tree (nodeOffset ver i) = node)
    (hpath : path ++ [47] ++ nodeName env names i node = fullpath)
    (hfit : fullpath.length + 1 ≤ PATH_MAX) :
    (node.flags.testBit 1 = true →
      (render_tree env (fuel + 1) ver tree names data i depth path).trace.take 4 =
        [Event.enter depth i node.flags, Event.showPath fullpath node.name_offset,
         Event.showDir node.count node.offset, Event.mkdir fullpath]
      ∧ (-2147483648 ≤ toInt32 node.offset + toInt32 node.count →
          toInt32 node.offset + toInt32 node.count ≤ 2147483647 →
          ∃ k, k ≤ (toInt32 node.count).toNat
            ∧ (0 < toInt32 node.count → 0 < k)
            ∧ (render_tree env (fuel + 1) ver tree names data i depth path).trace.drop 4 =
                (List.range k).flatMap (fun (j : Nat) =>
                  (render_tree env fuel ver tree names data ((node.offset + j) % 4294967296)
                    ((depth + 1) % 4294967296) fullpath).trace)
            ∧ ((render_tree env (fuel + 1) ver tree names data i depth path).status =
                  Status.returned → k = (toInt32 node.count).toNat)
            ∧ (0 < toInt32 node.count → 0 < fuel →
                ((render_tree env (fuel + 1) ver tree names data i depth path).trace.drop 4).head? =
                  some (Event.enter ((depth + 1) % 4294967296) node.offset
                    (readNode env.host tree (nodeOffset ver node.offset)).flags))))
    ∧ (node.flags.testBit 1 = false →
      (render_tree env (fuel + 1) ver tree names data i depth path).trace.take 4 =
        [Event.enter depth i node.flags, Event.showPath fullpath node.name_offset,
         Event.showFile node.count ((node.offset + 4) % 4294967296) (be32 data node.offset),
         Event.fopen fullpath]
      ∧ (∀ ev ∈ (render_tree env (fuel + 1) ver tree names data i depth path).trace.drop 1,
          ev.isEnter = false ∧ ev.isMkdir = false)
      ∧ ((render_tree env (fuel + 1) ver tree names data i depth path).trace.filter
          Event.isFopen).length = 1
      ∧ ((render_tree env (fuel + 1) ver tree names data i depth path).trace.filter
          Event.isFwrite).length ≤ 1
      ∧ ((render_tree env (fuel + 1) ver tree names data i depth path).status = Status.returned →
          ((render_tree env (fuel + 1) ver tree names data i depth path).trace.filter
            Event.isFwrite).length = 1)
      ∧ (env.fopenOk fullpath = false →
          (render_tree env (fuel + 1) ver tree names data i depth path).trace.filter
            Event.isFwrite = []
          ∧ (render_tree env (fuel + 1) ver tree names data i depth path).status =
              Status.exited (-1)))
    ∧ (Event.mkdir fullpath ∈
        (render_tree env (fuel + 1) ver tree names data i depth path).trace.take 4 ↔
          node.flags.testBit 1 = true)
    ∧ (Event.fopen fullpath ∈
        (render_tree env (fuel + 1) ver tree names data i depth path).trace.take 4 ↔
          node.flags.testBit 1 = false) := by
  have hoff : node.offset < 4294967296 := by
    rw [← hnode, readNode_eq]; exact be32_lt _ _
  have hdirTake : node.flags.testBit 1 = true →
      (render_tree env (fuel + 1) ver tree names data i depth path).trace.take 4 =
        [Event.enter depth i node.flags, Event.showPath fullpath node.name_offset,
         Event.showDir node.count node.offset, Event.mkdir fullpath] := by
    intro hb
    have hdir := (land_two_ne_zero_iff node.flags).mpr hb
    by_cases hov : toInt32 node.offset + toInt32 node.count < -2147483648 ∨
        2147483647 < toInt32 node.offset + toInt32 node.count
    · rw [render_tree_dir_overflow env fuel ver tree names data i depth path node fullpath
        hnode hpath hfit hdir hov]
      rfl
    · rw [render_tree_dir_eq env fuel ver tree names data i depth path node fullpath
        hnode hpath hfit hdir (by omega) (by omega)]
      simp [Res.after]
  have hfileCase : node.flags.testBit 1 = false →
      (render_tree env (fuel + 1) ver tree names data i depth path).trace.take 4 =
        [Event.enter depth i node.flags, Event.showPath fullpath node.name_offset,
         Event.showFile node.count ((node.offset + 4) % 4294967296) (be32 data node.offset),
         Event.fopen fullpath]
      ∧ (∀ ev ∈ (render_tree env (fuel + 1) ver tree names data i depth path).trace.drop 1,
          ev.isEnter = false ∧ ev.isMkdir = false)
      ∧ ((render_tree env (fuel + 1) ver tree names data i depth path).trace.filter
          Event.isFopen).length = 1
      ∧ ((render_tree env (fuel + 1) ver tree names data i depth path).trace.filter
          Event.isFwrite).length ≤ 1
      ∧ ((render_tree env (fuel + 1) ver tree names data i depth path).status = Status.returned →
          ((render_tree env (fuel + 1) ver tree names data i depth path).trace.filter
            Event.isFwrite).length = 1)
      ∧ (env.fopenOk fullpath = false →
          (render_tree env (fuel + 1) ver tree names data i depth path).trace.filter
            Event.isFwrite = []
          ∧ (render_tree env (fuel + 1) ver tree names data i depth path).status =
              Status.exited (-1)) := by
    intro hb
    have hfile : node.flags &&& Directory = 0 := by
      by_contra h
      have := (land_two_ne_zero_iff node.flags).mp h
      rw [hb] at this
      exact Bool.noConfusion this
    rw [render_tree_file_eq env fuel ver tree names data i depth path node fullpath
      hnode hpath hfit hfile]
    obtain ⟨h2, hev, hcount, hw1, hw2⟩ := render_file_events env data node fullpath
    refine ⟨?_, ?_, ?_, ?_, ?_, ?_⟩
    · simp only [Res.after, List.cons_append, List.nil_append, List.take_succ_cons]
      rw [h2]
    · intro ev hmem
      simp only [Res.after, List.cons_append, List.nil_append, List.drop_succ_cons,
        List.drop_zero, List.mem_cons] at hmem
      rcases hmem with rfl | hmem
      · exact ⟨rfl, rfl⟩
      · exact hev ev hmem
    · simp only [Res.after, List.cons_append, List.nil_append, List.filter_cons, Event.isFopen,
        Bool.false_eq_true, if_false]
      exact hcount
    · simp only [Res.after, List.cons_append, List.nil_append, List.filter_cons, Event.isFwrite,
        Bool.false_eq_true, if_false]
      exact hw1
    · simp only [Res.after, List.cons_append, List.nil_append, List.filter_cons, Event.isFwrite,
        Bool.false_eq_true, if_false]
      exact hw2
    · intro hopen
      rw [render_file_open_failed env data node fullpath hopen]
      exact ⟨rfl, rfl⟩
  refine ⟨?_, hfileCase, ?_, ?_⟩
  · intro hb
    refine ⟨hdirTake hb, ?_⟩
    intro hlo hhi
    have hdir := (land_two_ne_zero_iff node.flags).mpr hb
    obtain ⟨k, hk, htr, _, hret, hpos⟩ := render_tree_dir_loop env fuel ver tree names data i
      depth path node fullpath hnode hpath hfit hdir hlo hhi
    refine ⟨k, hk, hpos, ?_, fun hr => (hret hr).1, ?_⟩
    · rw [htr]
      simp only [List.cons_append, List.nil_append, List.drop_succ_cons, List.drop_zero]
    · intro hc hf
      obtain ⟨f, rfl⟩ : ∃ f, fuel = f + 1 := ⟨fuel - 1, by omega⟩
      have hk0 := hpos hc
      obtain ⟨k2, rfl⟩ : ∃ k2, k = k2 + 1 := ⟨k - 1, by omega⟩
      rw [htr]
      simp only [List.cons_append, List.nil_append, List.drop_succ_cons, List.drop_zero,
        List.range_succ_eq_map, List.flatMap_cons, Nat.add_zero, Nat.mod_eq_of_lt hoff]
      rw [render_tree_cons_tail]
      rfl
  · constructor
    · intro hmem
      by_contra hb
      have hb2 : node.flags.testBit 1 = false := by simpa using hb
      rw [(hfileCase hb2).1] at hmem
      simp at hmem
    · intro hb
      rw [hdirTake hb]
      simp
  · constructor
    · intro hmem
      by_contra hb
      have hb2 : node.flags.testBit 1 = true := by simpa using hb
      rw [hdirTake hb2] at hmem
      simp at hmem
    · intro hb
      rw [(hfileCase hb).1]
      simp

/-- Witness of C6: the root of `tinyTree2`, a directory with the one child 1: after its
`mkdir` the call for node 1 is entered. -/
theorem render_tree_directory_iff_witness :
    ((render_tree stdEnv (1 + 1) 2 tinyTree2 helloEntry (bufOfList [0, 0, 0, 1, 65])
        0 0 [47, 116]).trace.drop 4).head? = some (Event.enter ((0 + 1) % 4294967296) 1
          (readNode stdEnv.host tinyTree2 (nodeOffset 2 1)).flags)
    ∧ (Event.mkdir ([47, 116, 47] ++ rootName 0) ∈
        (render_tree stdEnv (1 + 1) 2 tinyTree2 helloEntry (bufOfList [0, 0, 0, 1, 65])
          0 0 [47, 116]).trace.take 4 ↔
          Nat.testBit 2 1 = true) := by
  have h := render_tree_directory_iff stdEnv 1 2 tinyTree2 helloEntry
    (bufOfList [0, 0, 0, 1, 65]) 0 0 [47, 116]
    { name_offset := 0, flags := 2, count := 1, offset := 1 }
    ([47, 116, 47] ++ rootName 0) (by decide) (by decide) (by decide)
  obtain ⟨k, _, _, _, _, hfirst⟩ := (h.1 (by decide)).2 (by decide) (by decide)
  exact ⟨hfirst (by decide) (by decide), h.2.2.1⟩

/-- Counterexample to C6 as stated.  (1) Node 1 of `fileTree 0 [0, 0, 0, 0]` is a file
node; on a host where `fopen` fails it is processed as a file, but no file is opened
with success and nothing is written: the process exits.  (2) Node 1 of
`fileTree 1 [0, 0, 0, 0]` is a `Compressed` file node whose stream is not a zlib stream:
the file is opened and nothing is written.  (3) The root of
`dirTree [0, 0, 0, 0] [0, 0, 0, 1] 0 0` is a directory with `child_count = 0`: it is
processed as a directory and makes no recursive call. -/
theorem render_tree_directory_iff_counterexample :
    (readNode Endian.little (fileTree 0 [0, 0, 0, 0]) (nodeOffset 1 1)).flags.testBit 1 = false
    ∧ render_tree noOpenEnv 1 1 (fileTree 0 [0, 0, 0, 0]) helloEntry
        (bufOfList [0, 0, 0, 1, 65]) 1 1 [47, 116] =
        ⟨[Event.enter 1 1 0, Event.showPath [47, 116, 47, 104, 101, 108, 108, 111] 0,
          Event.showFile 0 4 1, Event.fopen [47, 116, 47, 104, 101, 108, 108, 111],
          Event.stderr Msg.openFailed], Status.exited (-1)⟩
    ∧ (readNode Endian.little (fileTree 1 [0, 0, 0, 0]) (nodeOffset 1 1)).flags.testBit 1 = false
    ∧ (render_tree stdEnv 1 1 (fileTree 1 [0, 0, 0, 0]) helloEntry
        (bufOfList (compressedEntry 1 [1, 2, 3, 4, 5, 6, 7])) 1 1 [47, 116]).trace.filter
          Event.isFileOp = [Event.fopen [47, 116, 47, 104, 101, 108, 108, 111]]
    ∧ (render_tree stdEnv 1 1 (fileTree 1 [0, 0, 0, 0]) helloEntry
        (bufOfList (compressedEntry 1 [1, 2, 3, 4, 5, 6, 7])) 1 1 [47, 116]).status =
          Status.exited (-1)
    ∧ (readNode Endian.little (dirTree [0, 0, 0, 0] [0, 0, 0, 1] 0 0) (nodeOffset 1 0)).flags.testBit
        1 = true
    ∧ render_tree stdEnv 5 1 (dirTree [0, 0, 0, 0] [0, 0, 0, 1] 0 0) helloEntry
        (bufOfList [0, 0, 0, 1, 65]) 0 0 [47, 116] =
        ⟨[Event.enter 0 0 2, Event.showPath ([47, 116, 47] ++ rootName 0) 0, Event.showDir 0 1,
          Event.mkdir ([47, 116, 47] ++ rootName 0)], Status.returned⟩ := by
  decide

/-! ## Termination on a tree

The node array is read by `render_tree` at `nodeOffset ver j`; when its `N` records lie in
the first 2^32 bytes, that is record `j` of the array (`nodeRecord`). -/

theorem readNode_nodeRecord (e : Endian) (ver : Nat) (tree : Buf) (N j : Nat)
    (hrec : (if ver = 1 then 14 else 22) * N ≤ 4294967296) (hj : j < N) :
    readNode e tree (nodeOffset ver j) = nodeRecord ver tree j := by
  rw [nodeOffset_of_lt ver j N hrec hj, readNode_eq]
  rfl

theorem isChildOf_of_read (e : Endian) (ver : Nat) (tree : Buf) (N j c : Nat)
    (hrec : (if ver = 1 then 14 else 22) * N ≤ 4294967296) (hj : j < N)
    (h : (readNode e tree (nodeOffset ver j)).flags &&& Directory ≠ 0
      ∧ (readNode e tree (nodeOffset ver j)).offset ≤ c
      ∧ c < (readNode e tree (nodeOffset ver j)).offset +
          (readNode e tree (nodeOffset ver j)).count) :
    isChildOf ver tree j c := by
  rw [readNode_nodeRecord e ver tree N j hrec hj] at h
  exact h

theorem isChildOf_read (e : Endian) (ver : Nat) (tree : Buf) (N j c : Nat)
    (hrec : (if ver = 1 then 14 else 22) * N ≤ 4294967296) (hj : j < N)
    (h : isChildOf ver tree j c) :
    (readNode e tree (nodeOffset ver j)).flags &&& Directory ≠ 0
      ∧ (readNode e tree (nodeOffset ver j)).offset ≤ c
      ∧ c < (readNode e tree (nodeOffset ver j)).offset +
          (readNode e tree (nodeOffset ver j)).count := by
  rw [readNode_nodeRecord e ver tree N j hrec hj]
  exact h

theorem node_count_lt (ver N : Nat) (hrec : (if ver = 1 then 14 else 22) * N ≤ 4294967296) :
    N ≤ 2147483647 := by
  have : 14 * N ≤ (if ver = 1 then 14 else 22) * N := by
    apply Nat.mul_le_mul_right
    split <;> omega
  omega

theorem TreeInvariant.dir_bounds {ver : Nat} {tree : Buf} {N : Nat}
    {ht : Nat → Nat} (h : TreeInvariant ver tree N ht)
    (hrec : (if ver = 1 then 14 else 22) * N ≤ 4294967296) (e : Endian) (j : Nat) (hj : j < N)
    (hdir : (readNode e tree (nodeOffset ver j)).flags &&& Directory ≠ 0) :
    toInt32 (readNode e tree (nodeOffset ver j)).offset =
      ((readNode e tree (nodeOffset ver j)).offset : Int)
    ∧ toInt32 (readNode e tree (nodeOffset ver j)).count =
      ((readNode e tree (nodeOffset ver j)).count : Int)
    ∧ (readNode e tree (nodeOffset ver j)).offset + (readNode e tree (nodeOffset ver j)).count
        ≤ N := by
  have hc : (readNode e tree (nodeOffset ver j)).offset +
      (readNode e tree (nodeOffset ver j)).count ≤ N := by
    rw [readNode_nodeRecord e ver tree N j hrec hj] at hdir ⊢
    exact h.closed j hj hdir
  have hs := node_count_lt ver N hrec
  exact ⟨toInt32_of_lt _ (by omega), toInt32_of_lt _ (by omega), hc⟩

theorem childLoop_status_cases (call : Nat → Res) (bound : Int) :
    ∀ (n : Nat) (c : Int),
      (childLoop call bound n c).status = Status.returned ∨
      ∃ j : Nat, c + (j : Int) < bound ∧
        (childLoop call bound n c).status = (call (toUInt32 (c + (j : Int)))).status := by
  intro n
  induction n with
  | zero => intro c; left; rfl
  | succ n ih =>
    intro c
    by_cases hc : c < bound
    · cases hst : (call (toUInt32 c)).status with
      | returned =>
        have hs : (childLoop call bound (n + 1) c).status =
            (childLoop call bound n (c + 1)).status := by
          simp only [childLoop, hc, if_true, Res.andThen, hst]
        rcases ih (c + 1) with h | ⟨j, hj, h⟩
        · left; rw [hs]; exact h
        · right
          refine ⟨j + 1, by push_cast; omega, ?_⟩
          rw [hs, h]
          congr 3
          push_cast; omega
      | exited code =>
        right
        refine ⟨0, by simpa using hc, ?_⟩
        simp only [childLoop, hc, if_true, Res.andThen, hst, Nat.cast_zero, add_zero]
      | undefined =>
        right
        refine ⟨0, by simpa using hc, ?_⟩
        simp only [childLoop, hc, if_true, Res.andThen, hst, Nat.cast_zero, add_zero]
      | outOfFuel =>
        right
        refine ⟨0, by simpa using hc, ?_⟩
        simp only [childLoop, hc, if_true, Res.andThen, hst, Nat.cast_zero, add_zero]
    · left; simp only [childLoop, hc, if_false]

theorem render_file_status (env : Env) (data : Buf) (node : TreeObj) (fullpath : List Nat) :
    (render_file env data node fullpath).status = Status.returned ∨
      (render_file env data node fullpath).status = Status.exited (-1) := by
  simp only [render_file]
  split
  · right; rfl
  · split
    · split
      · right; rfl
      · split
        · right; rfl
        · split
          · right; rfl
          · left; rfl
    · left; rfl

theorem render_tree_dir_status (env : Env) (fuel ver : Nat) (tree names data : Buf) (N : Nat)
    (ht : Nat → Nat) (hinv : TreeInvariant ver tree N ht)
    (hrec : (if ver = 1 then 14 else 22) * N ≤ 4294967296)
    (i depth : Nat) (path : List Nat) (hi : i < N)
    (hfit : (path ++ [47] ++
      nodeName env names i (readNode env.host tree (nodeOffset ver i))).length + 1 ≤ PATH_MAX)
    (hdir : (readNode env.host tree (nodeOffset ver i)).flags &&& Directory ≠ 0) :
    (render_tree env (fuel + 1) ver tree names data i depth path).status = Status.returned ∨
    ∃ c, isChildOf ver tree i c ∧
      (render_tree env (fuel + 1) ver tree names data i depth path).status =
        (render_tree env fuel ver tree names data c ((depth + 1) % 4294967296)
          (path ++ [47] ++
            nodeName env names i (readNode env.host tree (nodeOffset ver i)))).status := by
  obtain ⟨ho, hc, hcl⟩ := hinv.dir_bounds hrec env.host i hi hdir
  have hs := node_count_lt ver N hrec
  rw [render_tree_dir_eq env fuel ver tree names data i depth path _ _ rfl rfl hfit hdir
    (by rw [ho, hc]; omega) (by rw [ho, hc]; omega)]
  rcases childLoop_status_cases
    (fun c => render_tree env fuel ver tree names data c ((depth + 1) % 4294967296)
      (path ++ [47] ++ nodeName env names i (readNode env.host tree (nodeOffset ver i))))
    (toInt32 (readNode env.host tree (nodeOffset ver i)).offset +
      toInt32 (readNode env.host tree (nodeOffset ver i)).count)
    (toInt32 (readNode env.host tree (nodeOffset ver i)).offset +
      toInt32 (readNode env.host tree (nodeOffset ver i)).count -
      toInt32 (readNode env.host tree (nodeOffset ver i)).offset).toNat
    (toInt32 (readNode env.host tree (nodeOffset ver i)).offset) with h | ⟨j, hj, h⟩
  · left; exact h
  · right
    rw [ho, hc] at hj
    refine ⟨(readNode env.host tree (nodeOffset ver i)).offset + j,
      isChildOf_of_read env.host ver tree N i _ hrec hi ⟨hdir, by omega, by omega⟩, ?_⟩
    simp only [Res.after]
    rw [h, ho]
    have : toUInt32 (((readNode env.host tree (nodeOffset ver i)).offset : Int) + (j : Int)) =
        (readNode env.host tree (nodeOffset ver i)).offset + j := by
      unfold toUInt32; omega
    rw [this]

theorem render_tree_fuel_enough (env : Env) (ver : Nat) (tree names data : Buf) (N : Nat)
    (ht : Nat → Nat) (hinv : TreeInvariant ver tree N ht)
    (hrec : (if ver = 1 then 14 else 22) * N ≤ 4294967296) :
    ∀ (fuel i depth : Nat) (path : List Nat), i < N → ht i < fuel →
      (render_tree env fuel ver tree names data i depth path).status ≠ Status.outOfFuel := by
  intro fuel
  induction fuel with
  | zero => intro i depth path _ h; omega
  | succ fuel ih =>
    intro i depth path hi hfuel
    by_cases hfit : PATH_MAX < path.length + 1 +
        (nodeName env names i (readNode env.host tree (nodeOffset ver i))).length + 1
    · rw [render_tree_undefined env fuel ver tree names data i depth path hfit]
      simp
    · have hfit2 := fit_to_fullpath path _ hfit
      by_cases hdir : (readNode env.host tree (nodeOffset ver i)).flags &&& Directory = 0
      · rw [render_tree_file_eq env fuel ver tree names data i depth path _ _ rfl rfl hfit2 hdir]
        simp only [Res.after]
        rcases render_file_status env data (readNode env.host tree (nodeOffset ver i))
          (path ++ [47] ++ nodeName env names i (readNode env.host tree (nodeOffset ver i)))
          with h | h <;> rw [h] <;> simp
      · rcases render_tree_dir_status env fuel ver tree names data N ht hinv hrec i depth path hi
          hfit2 hdir with h | ⟨c, hc, h⟩
        · rw [h]; simp
        · rw [h]
          have hcN : c < N := by
            have := hinv.closed i hi hc.1
            have := hc.2.2
            omega
          have hht := hinv.acyclic i hi c hcN hc
          exact ih c _ _ hcN (by omega)

theorem render_tree_fuel_stable (env : Env) (ver : Nat) (tree names data : Buf) (N : Nat)
    (ht : Nat → Nat) (hinv : TreeInvariant ver tree N ht)
    (hrec : (if ver = 1 then 14 else 22) * N ≤ 4294967296) :
    ∀ (fuel i depth : Nat) (path : List Nat), i < N → ht i < fuel →
      render_tree env (fuel + 1) ver tree names data i depth path =
        render_tree env fuel ver tree names data i depth path := by
  intro fuel
  induction fuel with
  | zero => intro i depth path _ h; omega
  | succ fuel ih =>
    intro i depth path hi hfuel
    by_cases hfit : PATH_MAX < path.length + 1 +
        (nodeName env names i (readNode env.host tree (nodeOffset ver i))).length + 1
    · rw [render_tree_undefined env (fuel + 1) ver tree names data i depth path hfit,
        render_tree_undefined env fuel ver tree names data i depth path hfit]
    · have hfit2 := fit_to_fullpath path _ hfit
      by_cases hdir : (readNode env.host tree (nodeOffset ver i)).flags &&& Directory = 0
      · rw [render_tree_file_eq env (fuel + 1) ver tree names data i depth path _ _ rfl rfl
            hfit2 hdir,
          render_tree_file_eq env fuel ver tree names data i depth path _ _ rfl rfl hfit2 hdir]
      · obtain ⟨ho, hc, hcl⟩ := hinv.dir_bounds hrec env.host i hi hdir
        have hs := node_count_lt ver N hrec
        rw [render_tree_dir_eq env (fuel + 1) ver tree names data i depth path _ _ rfl rfl
            hfit2 hdir (by rw [ho, hc]; omega) (by rw [ho, hc]; omega),
          render_tree_dir_eq env fuel ver tree names data i depth path _ _ rfl rfl
            hfit2 hdir (by rw [ho, hc]; omega) (by rw [ho, hc]; omega)]
        congr 1
        apply childLoop_congr
        intro c h1 h2
        rw [ho] at h1
        rw [ho, hc] at h2
        have hcN : toUInt32 c < N := by unfold toUInt32; omega
        have hchild : isChildOf ver tree i (toUInt32 c) :=
          isChildOf_of_read env.host ver tree N i _ hrec hi
            ⟨hdir, by unfold toUInt32; omega, by unfold toUInt32; omega⟩
        have hht := hinv.acyclic i hi _ hcN hchild
        exact ih (toUInt32 c) _ _ hcN (by omega)

theorem render_tree_fuel_more (env : Env) (ver : Nat) (tree names data : Buf) (N : Nat)
    (ht : Nat → Nat) (hinv : TreeInvariant ver tree N ht)
    (hrec : (if ver = 1 then 14 else 22) * N ≤ 4294967296)
    (fuel i depth : Nat) (path : List Nat) (hi : i < N) (hfuel : ht i < fuel) :
    ∀ extra : Nat, render_tree env (fuel + extra) ver tree names data i depth path =
      render_tree env fuel ver tree names data i depth path := by
  intro extra
  induction extra with
  | zero => rfl
  | succ extra ih =>
    rw [← Nat.add_assoc, render_tree_fuel_stable env ver tree names data N ht hinv hrec
      (fuel + extra) i depth path hi (by omega), ih]

theorem render_tree_depth_bound (env : Env) (ver : Nat) (tree names data : Buf) (N : Nat)
    (ht : Nat → Nat) (hinv : TreeInvariant ver tree N ht)
    (hrec : (if ver = 1 then 14 else 22) * N ≤ 4294967296) :
    ∀ (fuel i depth : Nat) (path : List Nat), i < N → depth + ht i ≤ 4294967295 →
      ∀ d j f, Event.enter d j f ∈ (render_tree env fuel ver tree names data i depth path).trace →
        depth ≤ d ∧ d ≤ depth + ht i := by
  intro fuel
  induction fuel with
  | zero => intro i depth path _ _ d j f hmem; simp [render_tree] at hmem
  | succ fuel ih =>
    intro i depth path hi hdepth d j f hmem
    by_cases hfit : PATH_MAX < path.length + 1 +
        (nodeName env names i (readNode env.host tree (nodeOffset ver i))).length + 1
    · rw [render_tree_undefined env fuel ver tree names data i depth path hfit] at hmem
      simp only [List.mem_singleton, Event.enter.injEq] at hmem
      omega
    · have hfit2 := fit_to_fullpath path _ hfit
      by_cases hdir : (readNode env.host tree (nodeOffset ver i)).flags &&& Directory = 0
      · rw [render_tree_file_eq env fuel ver tree names data i depth path _ _ rfl rfl hfit2 hdir]
          at hmem
        simp only [Res.after, List.cons_append, List.nil_append, List.mem_cons,
          Event.enter.injEq] at hmem
        rcases hmem with h | h | h
        · omega
        · exact Event.noConfusion h
        · have := ((render_file_events env data _ _).2.1 _ h).1
          simp [Event.isEnter] at this
      · obtain ⟨ho, hc, hcl⟩ := hinv.dir_bounds hrec env.host i hi hdir
        have hs := node_count_lt ver N hrec
        obtain ⟨k, hk, htr, _, _⟩ := render_tree_dir_order env fuel ver tree names data i depth
          path _ _ rfl rfl hfit2 hdir (by rw [ho, hc]; omega) (by rw [ho, hc]; omega)
          (by rw [hc]; omega)
        rw [hc] at hk
        rw [htr] at hmem
        simp only [List.cons_append, List.nil_append, List.mem_cons, Event.enter.injEq,
          List.mem_flatMap, List.mem_range'_1] at hmem
        rcases hmem with h | h | h | h | ⟨c, ⟨hc1, hc2⟩, h⟩
        · omega
        · exact Event.noConfusion h
        · exact Event.noConfusion h
        · exact Event.noConfusion h
        · have hcN : c < N := by omega
          have hchild : isChildOf ver tree i c :=
            isChildOf_of_read env.host ver tree N i c hrec hi ⟨hdir, hc1, by omega⟩
          have hht := hinv.acyclic i hi c hcN hchild
          have hd1 : (depth + 1) % 4294967296 = depth + 1 := Nat.mod_eq_of_lt (by omega)
          rw [hd1] at h
          have := ih c (depth + 1) _ hcN (by omega) d j f h
          omega

/-! ## Every node once -/

theorem visited_append (a b : List Event) : visited (a ++ b) = visited a ++ visited b := by
  simp [visited, List.filterMap_append]

theorem visited_no_enter (tr : List Event) (h : ∀ ev ∈ tr, ev.isEnter = false) :
    visited tr = [] := by
  unfold visited
  rw [List.filterMap_eq_nil_iff]
  intro ev hev
  have := h ev hev
  cases ev <;> simp_all [Event.isEnter]

theorem Reach.trans {ver : Nat} {tree : Buf} {N a b c : Nat}
    (h1 : Reach ver tree N a b) (h2 : Reach ver tree N b c) : Reach ver tree N a c := by
  induction h2 with
  | refl => exact h1
  | step p c _ hp hch ih => exact Reach.step p c ih hp hch

theorem Reach.bound {ver : Nat} {tree : Buf} {N : Nat} {ht : Nat → Nat}
    (hinv : TreeInvariant ver tree N ht) {a x : Nat} (ha : a < N)
    (h : Reach ver tree N a x) : x < N ∧ ht x ≤ ht a := by
  induction h with
  | refl => exact ⟨ha, le_refl _⟩
  | step p c _ hp hch ih =>
    have hcl := hinv.closed p hp hch.1
    have hc : c < N := by have := hch.2.2; omega
    have := hinv.acyclic p hp c hc hch
    exact ⟨hc, by omega⟩

theorem Reach.common {ver : Nat} {tree : Buf} {N : Nat} {ht : Nat → Nat}
    (hinv : TreeInvariant ver tree N ht) {a x : Nat} (ha : a < N)
    (h1 : Reach ver tree N a x) :
    ∀ b, b < N → Reach ver tree N b x → Reach ver tree N a b ∨ Reach ver tree N b a := by
  induction h1 with
  | refl => intro b _ h2; exact Or.inr h2
  | step p c hap hp hch ih =>
    intro b hb h2
    cases h2 with
    | refl => exact Or.inl (Reach.step p c hap hp hch)
    | step q _ hbq hq hch2 =>
      have hc : c < N := (Reach.bound hinv ha (Reach.step p c hap hp hch)).1
      have hpq : p = q := hinv.oneParent p hp q hq c hc hch hch2
      subst hpq
      exact ih b hb hbq

theorem siblings_disjoint {ver : Nat} {tree : Buf} {N : Nat} {ht : Nat → Nat}
    (hinv : TreeInvariant ver tree N ht) {i c1 c2 x : Nat} (hi : i < N)
    (h1 : isChildOf ver tree i c1) (h2 : isChildOf ver tree i c2) (hne : c1 ≠ c2)
    (hx1 : Reach ver tree N c1 x) (hx2 : Reach ver tree N c2 x) : False := by
  have hcl := hinv.closed i hi h1.1
  have hc1 : c1 < N := by have := h1.2.2; omega
  have hc2 : c2 < N := by have := h2.2.2; omega
  have key : ∀ u v, u < N → v < N → u ≠ v → isChildOf ver tree i u →
      isChildOf ver tree i v → Reach ver tree N u v → False := by
    intro u v hu hv huv hiu hiv huv2
    cases huv2 with
    | refl => exact huv rfl
    | step p _ hup hp hch =>
      have hpi : p = i := hinv.oneParent p hp i hi v hv hch hiv
      subst hpi
      have h3 := (Reach.bound hinv hu hup).2
      have h4 := hinv.acyclic p hp u hu hiu
      omega
  rcases Reach.common hinv hc1 hx1 c2 hc2 hx2 with h | h
  · exact key c1 c2 hc1 hc2 hne h1 h2 h
  · exact key c2 c1 hc2 hc1 (Ne.symm hne) h2 h1 h

theorem render_tree_visited_cases (env : Env) (fuel ver : Nat) (tree names data : Buf)
    (N : Nat) (ht : Nat → Nat) (hinv : TreeInvariant ver tree N ht)
    (hrec : (if ver = 1 then 14 else 22) * N ≤ 4294967296)
    (i depth : Nat) (path : List Nat) (hi : i < N) :
    (visited (render_tree env (fuel + 1) ver tree names data i depth path).trace = [i]
      ∧ ((render_tree env (fuel + 1) ver tree names data i depth path).status = Status.returned →
          (readNode env.host tree (nodeOffset ver i)).flags &&& Directory = 0))
    ∨ ((readNode env.host tree (nodeOffset ver i)).flags &&& Directory ≠ 0
      ∧ ∃ k, k ≤ (readNode env.host tree (nodeOffset ver i)).count
        ∧ visited (render_tree env (fuel + 1) ver tree names data i depth path).trace =
            i :: (List.range' (readNode env.host tree (nodeOffset ver i)).offset k).flatMap
              (fun c => visited (render_tree env fuel ver tree names data c
                ((depth + 1) % 4294967296)
                (path ++ [47] ++
                  nodeName env names i (readNode env.host tree (nodeOffset ver i)))).trace)
        ∧ ((render_tree env (fuel + 1) ver tree names data i depth path).status =
              Status.returned →
            k = (readNode env.host tree (nodeOffset ver i)).count ∧
            ∀ c, (readNode env.host tree (nodeOffset ver i)).offset ≤ c →
              c < (readNode env.host tree (nodeOffset ver i)).offset + k →
              (render_tree env fuel ver tree names data c ((depth + 1) % 4294967296)
                (path ++ [47] ++
                  nodeName env names i (readNode env.host tree (nodeOffset ver i)))).status =
                Status.returned)) := by
  by_cases hfit : PATH_MAX < path.length + 1 +
      (nodeName env names i (readNode env.host tree (nodeOffset ver i))).length + 1
  · left
    rw [render_tree_undefined env fuel ver tree names data i depth path hfit]
    exact ⟨by simp [visited], fun h => Status.noConfusion h⟩
  · have hfit2 := fit_to_fullpath path _ hfit
    by_cases hdir : (readNode env.host tree (nodeOffset ver i)).flags &&& Directory = 0
    · left
      rw [render_tree_file_eq env fuel ver tree names data i depth path _ _ rfl rfl hfit2 hdir]
      refine ⟨?_, fun _ => hdir⟩
      have hnone := visited_no_enter (render_file env data
        (readNode env.host tree (nodeOffset ver i))
        (path ++ [47] ++ nodeName env names i (readNode env.host tree (nodeOffset ver i)))).trace
        (fun ev hev => ((render_file_events env data _ _).2.1 ev hev).1)
      have happ := visited_append
        [Event.enter depth i (readNode env.host tree (nodeOffset ver i)).flags,
         Event.showPath (path ++ [47] ++
            nodeName env names i (readNode env.host tree (nodeOffset ver i)))
          (readNode env.host tree (nodeOffset ver i)).name_offset]
        (render_file env data (readNode env.host tree (nodeOffset ver i))
          (path ++ [47] ++
            nodeName env names i (readNode env.host tree (nodeOffset ver i)))).trace
      simp only [Res.after]
      rw [happ, hnone]
      simp [visited]
    · right
      refine ⟨hdir, ?_⟩
      obtain ⟨ho, hc, hcl⟩ := hinv.dir_bounds hrec env.host i hi hdir
      have hs := node_count_lt ver N hrec
      obtain ⟨k, hk, htr, _, hret⟩ := render_tree_dir_order env fuel ver tree names data i depth
        path _ _ rfl rfl hfit2 hdir (by rw [ho, hc]; omega) (by rw [ho, hc]; omega)
        (by rw [hc]; omega)
      have hcn : (toInt32 (readNode env.host tree (nodeOffset ver i)).count).toNat =
          (readNode env.host tree (nodeOffset ver i)).count := by rw [hc]; omega
      rw [hcn] at hk hret
      refine ⟨k, hk, ?_, hret⟩
      rw [htr, visited_append]
      have h4 : visited
          [Event.enter depth i (readNode env.host tree (nodeOffset ver i)).flags,
           Event.showPath (path ++ [47] ++
              nodeName env names i (readNode env.host tree (nodeOffset ver i)))
            (readNode env.host tree (nodeOffset ver i)).name_offset,
           Event.showDir (readNode env.host tree (nodeOffset ver i)).count
            (readNode env.host tree (nodeOffset ver i)).offset,
           Event.mkdir (path ++ [47] ++
              nodeName env names i (readNode env.host tree (nodeOffset ver i)))] = [i] := by
        simp [visited]
      rw [h4]
      simp only [visited, List.filterMap_flatMap, List.singleton_append]

theorem render_tree_visited_reach (env : Env) (ver : Nat) (tree names data : Buf)
    (N : Nat) (ht : Nat → Nat) (hinv : TreeInvariant ver tree N ht)
    (hrec : (if ver = 1 then 14 else 22) * N ≤ 4294967296) :
    ∀ (fuel i depth : Nat) (path : List Nat), i < N →
      ∀ x ∈ visited (render_tree env fuel ver tree names data i depth path).trace,
        Reach ver tree N i x := by
  intro fuel
  induction fuel with
  | zero => intro i depth path _ x hx; simp [render_tree, visited] at hx
  | succ fuel ih =>
    intro i depth path hi x hx
    rcases render_tree_visited_cases env fuel ver tree names data N ht hinv hrec i depth path hi
      with ⟨hv, _⟩ | ⟨hdir, k, hk, hv, _⟩
    · rw [hv] at hx
      simp only [List.mem_singleton] at hx
      rw [hx]; exact Reach.refl
    · rw [hv] at hx
      simp only [List.mem_cons, List.mem_flatMap, List.mem_range'_1] at hx
      rcases hx with hx | ⟨c, ⟨hc1, hc2⟩, hx⟩
      · rw [hx]; exact Reach.refl
      · have hcl := (hinv.dir_bounds hrec env.host i hi hdir).2.2
        have hchild : isChildOf ver tree i c :=
          isChildOf_of_read env.host ver tree N i c hrec hi ⟨hdir, hc1, by omega⟩
        exact Reach.trans (Reach.step i c Reach.refl hi hchild)
          (ih c _ _ (by omega) x hx)

theorem render_tree_visited_nodup (env : Env) (ver : Nat) (tree names data : Buf)
    (N : Nat) (ht : Nat → Nat) (hinv : TreeInvariant ver tree N ht)
    (hrec : (if ver = 1 then 14 else 22) * N ≤ 4294967296) :
    ∀ (fuel i depth : Nat) (path : List Nat), i < N →
      (visited (render_tree env fuel ver tree names data i depth path).trace).Nodup := by
  intro fuel
  induction fuel with
  | zero => intro i depth path _; simp [render_tree, visited]
  | succ fuel ih =>
    intro i depth path hi
    rcases render_tree_visited_cases env fuel ver tree names data N ht hinv hrec i depth path hi
      with ⟨hv, _⟩ | ⟨hdir, k, hk, hv, _⟩
    · rw [hv]; simp
    · rw [hv]
      have hcl := (hinv.dir_bounds hrec env.host i hi hdir).2.2
      have hchild : ∀ c, c ∈ List.range' (readNode env.host tree (nodeOffset ver i)).offset k →
          c < N ∧ isChildOf ver tree i c := by
        intro c hc
        rw [List.mem_range'_1] at hc
        exact ⟨by omega,
          isChildOf_of_read env.host ver tree N i c hrec hi ⟨hdir, hc.1, by omega⟩⟩
      rw [List.nodup_cons]
      constructor
      · intro hmem
        rw [List.mem_flatMap] at hmem
        obtain ⟨c, hc, hx⟩ := hmem
        obtain ⟨hcN, hch⟩ := hchild c hc
        have hr := render_tree_visited_reach env ver tree names data N ht hinv hrec fuel c _ _ hcN i hx
        have h1 := (Reach.bound hinv hcN hr).2
        have h2 := hinv.acyclic i hi c hcN hch
        omega
      · rw [List.nodup_flatMap]
        constructor
        · intro c hc
          exact ih c _ _ (hchild c hc).1
        · apply List.Nodup.pairwise_of_forall_ne (List.nodup_range' _ _)
          intro c1 hc1 c2 hc2 hne
          obtain ⟨hc1N, hch1⟩ := hchild c1 hc1
          obtain ⟨hc2N, hch2⟩ := hchild c2 hc2
          simp only [Function.onFun]
          intro x hx1 hx2
          exact siblings_disjoint hinv hi hch1 hch2 hne
            (render_tree_visited_reach env ver tree names data N ht hinv hrec fuel c1 _ _ hc1N x hx1)
            (render_tree_visited_reach env ver tree names data N ht hinv hrec fuel c2 _ _ hc2N x hx2)

theorem render_tree_visited_self (env : Env) (fuel ver : Nat) (tree names data : Buf)
    (i depth : Nat) (path : List Nat)
    (hret : (render_tree env fuel ver tree names data i depth path).status = Status.returned) :
    i ∈ visited (render_tree env fuel ver tree names data i depth path).trace := by
  cases fuel with
  | zero => simp [render_tree] at hret
  | succ fuel =>
    rw [render_tree_cons_tail]
    simp [visited]

theorem render_tree_visited_closed (env : Env) (ver : Nat) (tree names data : Buf)
    (N : Nat) (ht : Nat → Nat) (hinv : TreeInvariant ver tree N ht)
    (hrec : (if ver = 1 then 14 else 22) * N ≤ 4294967296) :
    ∀ (fuel i depth : Nat) (path : List Nat), i < N →
      (render_tree env fuel ver tree names data i depth path).status = Status.returned →
      ∀ x ∈ visited (render_tree env fuel ver tree names data i depth path).trace,
        ∀ c, isChildOf ver tree x c →
          c ∈ visited (render_tree env fuel ver tree names data i depth path).trace := by
  intro fuel
  induction fuel with
  | zero => intro i depth path _ hret; simp [render_tree] at hret
  | succ fuel ih =>
    intro i depth path hi hret x hx c hch
    rcases render_tree_visited_cases env fuel ver tree names data N ht hinv hrec i depth path hi
      with ⟨hv, hfile⟩ | ⟨hdir, k, hk, hv, hall⟩
    · rw [hv] at hx
      simp only [List.mem_singleton] at hx
      rw [hx] at hch
      exact absurd (hfile hret) (isChildOf_read env.host ver tree N i c hrec hi hch).1
    · obtain ⟨hkc, hch2⟩ := hall hret
      have hcl := (hinv.dir_bounds hrec env.host i hi hdir).2.2
      rw [hv] at hx ⊢
      simp only [List.mem_cons, List.mem_flatMap, List.mem_range'_1] at hx ⊢
      right
      rcases hx with hx | ⟨c2, ⟨h1, h2⟩, hx⟩
      · rw [hx] at hch
        have hch := isChildOf_read env.host ver tree N i c hrec hi hch
        refine ⟨c, ⟨hch.2.1, by rw [hkc]; exact hch.2.2⟩, ?_⟩
        exact render_tree_visited_self env fuel ver tree names data c _ _
          (hch2 c hch.2.1 (by rw [hkc]; exact hch.2.2))
      · refine ⟨c2, ⟨h1, h2⟩, ?_⟩
        exact ih c2 _ _ (by omega) (hch2 c2 h1 h2) x hx c hch

theorem render_tree_visited_all (env : Env) (ver : Nat) (tree names data : Buf)
    (N : Nat) (ht : Nat → Nat) (hinv : TreeInvariant ver tree N ht)
    (hrec : (if ver = 1 then 14 else 22) * N ≤ 4294967296)
    (fuel i depth : Nat) (path : List Nat) (hi : i < N)
    (hret : (render_tree env fuel ver tree names data i depth path).status = Status.returned)
    (x : Nat) (hx : Reach ver tree N i x) :
    x ∈ visited (render_tree env fuel ver tree names data i depth path).trace := by
  induction hx with
  | refl => exact render_tree_visited_self env fuel ver tree names data i depth path hret
  | step p c _ _ hch ih =>
    exact render_tree_visited_closed env ver tree names data N ht hinv hrec fuel i depth path hi hret
      p ih c hch

theorem bufOfList_of_le (l : List Nat) (a : Nat) (h : l.length ≤ a) : bufOfList l a = 0 := by
  unfold bufOfList
  exact List.getD_eq_default _ _ h

theorem render_tree_status_on_tree (env : Env) (ver : Nat) (tree names data : Buf) (N : Nat)
    (ht : Nat → Nat) (hinv : TreeInvariant ver tree N ht)
    (hrec : (if ver = 1 then 14 else 22) * N ≤ 4294967296) (L : Nat)
    (hnames : ∀ j, j < N →
      (nodeName env names j (readNode env.host tree (nodeOffset ver j))).length ≤ L) :
    ∀ (fuel i depth : Nat) (path : List Nat), i < N → ht i < fuel →
      path.length + (ht i + 1) * (L + 1) + 1 ≤ PATH_MAX →
      (render_tree env fuel ver tree names data i depth path).status = Status.returned ∨
      (render_tree env fuel ver tree names data i depth path).status = Status.exited (-1) := by
  intro fuel
  induction fuel with
  | zero => intro i depth path _ h; omega
  | succ fuel ih =>
    intro i depth path hi hfuel hroom
    have hname := hnames i hi
    have hone : L + 1 ≤ (ht i + 1) * (L + 1) := Nat.le_mul_of_pos_left _ (Nat.succ_pos _)
    have hfit2 : (path ++ [47] ++
        nodeName env names i (readNode env.host tree (nodeOffset ver i))).length + 1 ≤
        PATH_MAX := by
      simp only [List.length_append, List.length_singleton]
      omega
    by_cases hdir : (readNode env.host tree (nodeOffset ver i)).flags &&& Directory = 0
    · rw [render_tree_file_eq env fuel ver tree names data i depth path _ _ rfl rfl hfit2 hdir]
      simp only [Res.after]
      exact render_file_status env data _ _
    · rcases render_tree_dir_status env fuel ver tree names data N ht hinv hrec i depth path hi
        hfit2 hdir with h | ⟨c, hc, h⟩
      · left; exact h
      · rw [h]
        have hcN : c < N := by
          have := hinv.closed i hi hc.1
          have := hc.2.2
          omega
        have hht := hinv.acyclic i hi c hcN hc
        have hmul : (ht c + 1 + 1) * (L + 1) ≤ (ht i + 1) * (L + 1) :=
          Nat.mul_le_mul_right _ (by omega)
        have hsplit : (ht c + 1 + 1) * (L + 1) = (ht c + 1) * (L + 1) + (L + 1) :=
          Nat.succ_mul _ _
        apply ih c _ _ hcN (by omega)
        simp only [List.length_append, List.length_singleton]
        omega

theorem childLoop_stopped (call : Nat → Res) (bound : Int) :
    ∀ (n : Nat) (c : Int), (childLoop call bound n c).status ≠ Status.returned →
      ∃ j : Nat, c + (j : Int) < bound
        ∧ (call (toUInt32 (c + (j : Int)))).status = (childLoop call bound n c).status
        ∧ ∃ pre : List Event,
            (childLoop call bound n c).trace = pre ++ (call (toUInt32 (c + (j : Int)))).trace := by
  intro n
  induction n with
  | zero => intro c h; exact absurd rfl h
  | succ n ih =>
    intro c h
    by_cases hc : c < bound
    · have hzero : c + ((0 : Nat) : Int) = c := by simp
      cases hst : (call (toUInt32 c)).status with
      | returned =>
        have hs : childLoop call bound (n + 1) c =
            ⟨(call (toUInt32 c)).trace ++ (childLoop call bound n (c + 1)).trace,
              (childLoop call bound n (c + 1)).status⟩ := by
          simp only [childLoop, hc, if_true, Res.andThen, hst]
        rw [hs] at h ⊢
        obtain ⟨j, hj, hstat, pre, hpre⟩ := ih (c + 1) h
        have hshift : c + 1 + (j : Int) = c + ((j + 1 : Nat) : Int) := by push_cast; omega
        rw [hshift] at hj hstat hpre
        refine ⟨j + 1, hj, hstat, (call (toUInt32 c)).trace ++ pre, ?_⟩
        simp only [hpre, List.append_assoc]
      | exited code =>
        refine ⟨0, by simpa using hc, ?_, [], ?_⟩
        · simp only [childLoop, hc, if_true, Res.andThen, hst, hzero]
        · simp only [childLoop, hc, if_true, Res.andThen, hst, hzero, List.nil_append]
      | undefined =>
        refine ⟨0, by simpa using hc, ?_, [], ?_⟩
        · simp only [childLoop, hc, if_true, Res.andThen, hst, hzero]
        · simp only [childLoop, hc, if_true, Res.andThen, hst, hzero, List.nil_append]
      | outOfFuel =>
        refine ⟨0, by simpa using hc, ?_, [], ?_⟩
        · simp only [childLoop, hc, if_true, Res.andThen, hst, hzero]
        · simp only [childLoop, hc, if_true, Res.andThen, hst, hzero, List.nil_append]
    · exfalso
      apply h
      simp only [childLoop, hc, if_false]

theorem render_tree_outcome (env : Env) (ver : Nat) (tree names data : Buf) (N : Nat)
    (ht : Nat → Nat) (hinv : TreeInvariant ver tree N ht)
    (hrec : (if ver = 1 then 14 else 22) * N ≤ 4294967296) :
    ∀ (fuel i depth : Nat) (path : List Nat), i < N → ht i < fuel →
      (render_tree env fuel ver tree names data i depth path).status = Status.returned
      ∨ (render_tree env fuel ver tree names data i depth path).status = Status.exited (-1)
      ∨ ((render_tree env fuel ver tree names data i depth path).status = Status.undefined
        ∧ ∃ d j f, (render_tree env fuel ver tree names data i depth path).trace.getLast? =
            some (Event.enter d j f)) := by
  intro fuel
  induction fuel with
  | zero => intro i depth path _ h; omega
  | succ fuel ih =>
    intro i depth path hi hfuel
    by_cases hfit : PATH_MAX < path.length + 1 +
        (nodeName env names i (readNode env.host tree (nodeOffset ver i))).length + 1
    · rw [render_tree_undefined env fuel ver tree names data i depth path hfit]
      exact Or.inr (Or.inr ⟨rfl, depth, i, _, rfl⟩)
    · have hfit2 := fit_to_fullpath path _ hfit
      by_cases hdir : (readNode env.host tree (nodeOffset ver i)).flags &&& Directory = 0
      · rw [render_tree_file_eq env fuel ver tree names data i depth path _ _ rfl rfl hfit2 hdir]
        simp only [Res.after]
        rcases render_file_status env data (readNode env.host tree (nodeOffset ver i))
          (path ++ [47] ++ nodeName env names i (readNode env.host tree (nodeOffset ver i)))
          with h | h
        · exact Or.inl h
        · exact Or.inr (Or.inl h)
      · obtain ⟨ho, hc, hcl⟩ := hinv.dir_bounds hrec env.host i hi hdir
        have hs := node_count_lt ver N hrec
        rw [render_tree_dir_eq env fuel ver tree names data i depth path _ _ rfl rfl hfit2 hdir
          (by rw [ho, hc]; omega) (by rw [ho, hc]; omega)]
        simp only [Res.after]
        by_cases hret : (childLoop
            (fun c => render_tree env fuel ver tree names data c ((depth + 1) % 4294967296)
              (path ++ [47] ++ nodeName env names i (readNode env.host tree (nodeOffset ver i))))
            (toInt32 (readNode env.host tree (nodeOffset ver i)).offset +
              toInt32 (readNode env.host tree (nodeOffset ver i)).count)
            (toInt32 (readNode env.host tree (nodeOffset ver i)).offset +
              toInt32 (readNode env.host tree (nodeOffset ver i)).count -
              toInt32 (readNode env.host tree (nodeOffset ver i)).offset).toNat
            (toInt32 (readNode env.host tree (nodeOffset ver i)).offset)).status =
            Status.returned
        · exact Or.inl hret
        · obtain ⟨j, hj, hstat, pre, hpre⟩ := childLoop_stopped _ _ _ _ hret
          rw [ho, hc] at hj
          have hidx : toUInt32 (toInt32 (readNode env.host tree (nodeOffset ver i)).offset +
              (j : Int)) = (readNode env.host tree (nodeOffset ver i)).offset + j := by
            rw [ho]; unfold toUInt32; omega
          rw [hidx] at hstat hpre
          have hchild : isChildOf ver tree i
              ((readNode env.host tree (nodeOffset ver i)).offset + j) :=
            isChildOf_of_read env.host ver tree N i _ hrec hi ⟨hdir, by omega, by omega⟩
          have hcN : (readNode env.host tree (nodeOffset ver i)).offset + j < N := by omega
          have hht := hinv.acyclic i hi _ hcN hchild
          rw [← hstat, hpre]
          rcases ih ((readNode env.host tree (nodeOffset ver i)).offset + j)
            ((depth + 1) % 4294967296)
            (path ++ [47] ++ nodeName env names i (readNode env.host tree (nodeOffset ver i)))
            hcN (by omega) with h | h | ⟨h, d, x, f, hlast⟩
          · exact Or.inl h
          · exact Or.inr (Or.inl h)
          · refine Or.inr (Or.inr ⟨h, d, x, f, ?_⟩)
            rw [← List.append_assoc, List.getLast?_append, hlast]
            rfl

/-- Claim C16 (amended): let the `N` records of the node array form a tree
(`TreeInvariant`, with `ht` bounding the height below each node) and lie in the first
2^32 bytes of the tree buffer.  Started at index 0, `render_tree` terminates: with more
than `ht 0` units of fuel the model never runs out of fuel and further fuel does not
change the result.  The call returns or the process exits with -1, unless a path
outgrows `PATH_MAX`, which C leaves undefined: the run then stops at the entry of a
call, before its path is shown.  That does not happen when the names have at most `L`
bytes and there is room for `ht 0 + 1` of them.  Every call is made at a recursion depth
between the starting depth and the starting depth plus `ht 0` (as long as that sum fits
the `uint32_t` depth).  No node is processed twice, every node processed is the root or
one of its descendants, and when `render_tree` returns (no fatal error ended the process)
every such node has been processed: each exactly once. -/
theorem render_tree_terminates_on_tree (env : Env) (ver : Nat) (tree names data : Buf)
    (N : Nat) (ht : Nat → Nat) (fuel depth : Nat) (path : List Nat)
    (hinv : TreeInvariant ver tree N ht) (hN : 0 < N)
    (hrec : (if ver = 1 then 14 else 22) * N ≤ 4294967296)
    (hfuel : ht 0 < fuel) :
    (render_tree env fuel ver tree names data 0 depth path).status ≠ Status.outOfFuel
    ∧ ((render_tree env fuel ver tree names data 0 depth path).status = Status.returned
      ∨ (render_tree env fuel ver tree names data 0 depth path).status = Status.exited (-1)
      ∨ ((render_tree env fuel ver tree names data 0 depth path).status = Status.undefined
        ∧ ∃ d j f, (render_tree env fuel ver tree names data 0 depth path).trace.getLast? =
            some (Event.enter d j f)))
    ∧ (∀ L : Nat,
        (∀ j, j < N → (nodeName env names j (nodeRecord ver tree j)).length ≤ L) →
        path.length + (ht 0 + 1) * (L + 1) + 1 ≤ PATH_MAX →
        (render_tree env fuel ver tree names data 0 depth path).status = Status.returned ∨
        (render_tree env fuel ver tree names data 0 depth path).status = Status.exited (-1))
    ∧ (∀ extra : Nat, render_tree env (fuel + extra) ver tree names data 0 depth path =
        render_tree env fuel ver tree names data 0 depth path)
    ∧ (depth + ht 0 ≤ 4294967295 →
        ∀ d j f, Event.enter d j f ∈ (render_tree env fuel ver tree names data 0 depth path).trace →
          depth ≤ d ∧ d ≤ depth + ht 0)
    ∧ (visited (render_tree env fuel ver tree names data 0 depth path).trace).Nodup
    ∧ (∀ x ∈ visited (render_tree env fuel ver tree names data 0 depth path).trace,
        Reach ver tree N 0 x)
    ∧ ((render_tree env fuel ver tree names data 0 depth path).status = Status.returned →
        ∀ x, Reach ver tree N 0 x →
          x ∈ visited (render_tree env fuel ver tree names data 0 depth path).trace) := by
  refine ⟨render_tree_fuel_enough env ver tree names data N ht hinv hrec fuel 0 depth path hN
      hfuel,
    render_tree_outcome env ver tree names data N ht hinv hrec fuel 0 depth path hN hfuel,
    ?_,
    render_tree_fuel_more env ver tree names data N ht hinv hrec fuel 0 depth path hN hfuel,
    fun hdepth =>
      render_tree_depth_bound env ver tree names data N ht hinv hrec fuel 0 depth path hN hdepth,
    render_tree_visited_nodup env ver tree names data N ht hinv hrec fuel 0 depth path hN,
    render_tree_visited_reach env ver tree names data N ht hinv hrec fuel 0 depth path hN,
    fun hret x hx =>
      render_tree_visited_all env ver tree names data N ht hinv hrec fuel 0 depth path hN hret x
        hx⟩
  intro L hnames hroom
  exact render_tree_status_on_tree env ver tree names data N ht hinv hrec L
    (fun j hj => by rw [readNode_nodeRecord env.host ver tree N j hrec hj]; exact hnames j hj)
    fuel 0 depth path hN hfuel hroom

theorem dirTree_is_tree :
    TreeInvariant 1 (dirTree [0, 0, 0, 2] [0, 0, 0, 1] 0 0) 3
      (fun j => if j = 0 then 1 else 0) where
  closed := by decide
  acyclic := by decide
  oneParent := by
    intro j1 h1 j2 h2 c hc
    interval_cases j1 <;> interval_cases j2 <;> interval_cases c <;> decide

/-- Witness of C16: the three nodes of `dirTree [0, 0, 0, 2] [0, 0, 0, 1] 0 0`, a root of
height 1 with two file children, with names of at most 17 bytes. -/
theorem render_tree_terminates_on_tree_witness :
    ((render_tree stdEnv 2 1 (dirTree [0, 0, 0, 2] [0, 0, 0, 1] 0 0) helloEntry
        (bufOfList [0, 0, 0, 1, 65]) 0 0 [47, 116]).status = Status.returned ∨
      (render_tree stdEnv 2 1 (dirTree [0, 0, 0, 2] [0, 0, 0, 1] 0 0) helloEntry
        (bufOfList [0, 0, 0, 1, 65]) 0 0 [47, 116]).status = Status.exited (-1))
    ∧ (visited (render_tree stdEnv 2 1 (dirTree [0, 0, 0, 2] [0, 0, 0, 1] 0 0) helloEntry
        (bufOfList [0, 0, 0, 1, 65]) 0 0 [47, 116]).trace).Nodup :=
  have h := render_tree_terminates_on_tree stdEnv 1 (dirTree [0, 0, 0, 2] [0, 0, 0, 1] 0 0)
    helloEntry (bufOfList [0, 0, 0, 1, 65]) 3 (fun j => if j = 0 then 1 else 0) 2 0 [47, 116]
    dirTree_is_tree (by decide) (by decide) (by decide)
  ⟨h.2.2.1 17 (by decide) (by decide), h.2.2.2.2.2.1⟩

theorem loopTree_record_zero :
    nodeRecord 1 loopTree 0 =
      { name_offset := 0, flags := 2, count := 306783378, offset := 1 } := by
  decide

theorem loopTree_record_one :
    nodeRecord 1 loopTree 1 =
      { name_offset := 131072, flags := 2, count := 1, offset := 306783379 } := by
  decide

theorem loopTree_record_file (j : Nat) (hj : 2 ≤ j) :
    (nodeRecord 1 loopTree j).flags = 0 := by
  simp only [nodeRecord, be16, byteAt, loopTree, if_true]
  rw [bufOfList_of_le _ _ (by simp; omega), bufOfList_of_le _ _ (by simp; omega)]

theorem loopTree_child (j c : Nat) (h : isChildOf 1 loopTree j c) :
    (j = 0 ∧ 1 ≤ c ∧ c < 306783379) ∨ (j = 1 ∧ c = 306783379) := by
  rcases j with _ | _ | j
  · left
    simp only [isChildOf, loopTree_record_zero] at h
    exact ⟨rfl, h.2.1, by omega⟩
  · right
    simp only [isChildOf, Nat.zero_add, loopTree_record_one] at h
    exact ⟨rfl, by omega⟩
  · exfalso
    apply h.1
    rw [loopTree_record_file (j + 1 + 1) (by omega)]
    rfl

theorem loopTree_is_tree :
    TreeInvariant 1 loopTree 306783380 (fun j => if j = 0 then 2 else if j = 1 then 1 else 0) where
  closed := by
    intro j _ hdir
    rcases j with _ | _ | j
    · rw [loopTree_record_zero]
      decide
    · rw [loopTree_record_one]
      decide
    · exfalso
      apply hdir
      rw [loopTree_record_file (j + 1 + 1) (by omega)]
      rfl
  acyclic := by
    intro j _ c _ hch
    rcases loopTree_child j c hch with ⟨rfl, h1, h2⟩ | ⟨rfl, rfl⟩
    · have hc : c ≠ 0 := by omega
      simp only [hc, if_false, if_true]
      split <;> omega
    · decide
  oneParent := by
    intro j1 _ j2 _ c _ h1 h2
    rcases loopTree_child j1 c h1 with ⟨rfl, _, h3⟩ | ⟨rfl, rfl⟩
    · rcases loopTree_child j2 c h2 with ⟨rfl, _, _⟩ | ⟨rfl, rfl⟩
      · rfl
      · omega
    · rcases loopTree_child j2 306783379 h2 with ⟨rfl, _, h4⟩ | ⟨rfl, _⟩
      · omega
      · rfl

/-- Counterexample to C16 as stated.  (1) The three nodes of
`dirTree [0, 0, 0, 2] [0, 0, 0, 1] 0 0` form a tree and node 2 is a child of the root,
but on a host where `fopen` fails the process exits in node 1 and node 2 is never
processed.  (2) The 306783380 records of the version 1 node array `loopTree` form a
tree in which every node but the root has a parent: the root has the children
1 .. 306783378 and node 1 has the child 306783379, whose record starts at byte
`14 * 306783379 = 2^32 + 10`.  `render_tree` reads that node at byte 10, as a directory
with the children 1 and 2: node 1 is processed twice, and the fuel 4, above the height
2 of the tree, is not enough. -/
theorem render_tree_terminates_on_tree_counterexample :
    TreeInvariant 1 (dirTree [0, 0, 0, 2] [0, 0, 0, 1] 0 0) 3
      (fun j => if j = 0 then 1 else 0)
    ∧ Reach 1 (dirTree [0, 0, 0, 2] [0, 0, 0, 1] 0 0) 3 0 2
    ∧ visited (render_tree noOpenEnv 2 1 (dirTree [0, 0, 0, 2] [0, 0, 0, 1] 0 0) helloEntry
        (bufOfList [0, 0, 0, 1, 65]) 0 0 [47, 116]).trace = [0, 1]
    ∧ 2 ∉ visited (render_tree noOpenEnv 2 1 (dirTree [0, 0, 0, 2] [0, 0, 0, 1] 0 0) helloEntry
        (bufOfList [0, 0, 0, 1, 65]) 0 0 [47, 116]).trace
    ∧ (render_tree noOpenEnv 2 1 (dirTree [0, 0, 0, 2] [0, 0, 0, 1] 0 0) helloEntry
        (bufOfList [0, 0, 0, 1, 65]) 0 0 [47, 116]).status = Status.exited (-1)
    ∧ TreeInvariant 1 loopTree 306783380
        (fun j => if j = 0 then 2 else if j = 1 then 1 else 0)
    ∧ (∀ c, 0 < c → c < 306783380 → ∃ j, j < 306783380 ∧ isChildOf 1 loopTree j c)
    ∧ 14 * 306783379 = 4294967296 + 10
    ∧ nodeOffset 1 306783379 = 10
    ∧ readNode Endian.little loopTree (nodeOffset 1 306783379) =
        { name_offset := 1, flags := 2, count := 2, offset := 1 }
    ∧ visited (render_tree stdEnv 4 1 loopTree (bufOfList []) (bufOfList []) 0 0
        [47, 116]).trace = [0, 1, 306783379, 1]
    ∧ (render_tree stdEnv 4 1 loopTree (bufOfList []) (bufOfList []) 0 0
        [47, 116]).status = Status.outOfFuel := by
  refine ⟨dirTree_is_tree, Reach.step 0 2 Reach.refl (by decide) (by decide), by decide,
    by decide, by decide, loopTree_is_tree, ?_, by decide, by decide, by decide, by decide,
    by decide⟩
  intro c h1 h2
  by_cases hc : c < 306783379
  · refine ⟨0, by omega, ?_⟩
    simp only [isChildOf, loopTree_record_zero]
    exact ⟨by decide, by omega, by omega⟩
  · refine ⟨1, by omega, ?_⟩
    simp only [isChildOf, loopTree_record_one]
    exact ⟨by decide, by omega, by omega⟩

/-! ## The bytes of a record that are read -/

theorem childLoop_congr_visited (P : Nat → Prop) (call call2 : Nat → Res) (bound : Int)
    (hcall : ∀ c, (∀ x ∈ visited (call c).trace, P x) → call2 c = call c) :
    ∀ (n : Nat) (c0 : Int),
      (∀ x ∈ visited (childLoop call bound n c0).trace, P x) →
      childLoop call2 bound n c0 = childLoop call bound n c0 := by
  intro n
  induction n with
  | zero => intro c0 _; rfl
  | succ n ih =>
    intro c0 h
    by_cases hc : c0 < bound
    · simp only [childLoop, hc, if_true] at h ⊢
      have h1 : call2 (toUInt32 c0) = call (toUInt32 c0) := by
        apply hcall
        intro x hx
        apply h x
        cases hst : (call (toUInt32 c0)).status with
        | returned =>
          simp only [Res.andThen, hst, visited_append, List.mem_append]
          exact Or.inl hx
        | exited code => simp only [Res.andThen, hst]; exact hx
        | undefined => simp only [Res.andThen, hst]; exact hx
        | outOfFuel => simp only [Res.andThen, hst]; exact hx
      rw [h1]
      cases hst : (call (toUInt32 c0)).status with
      | returned =>
        have h2 := ih (c0 + 1) (by
          intro x hx
          apply h x
          simp only [Res.andThen, hst, visited_append, List.mem_append]
          exact Or.inr hx)
        simp only [Res.andThen, hst, h2]
      | exited code => simp only [Res.andThen, hst]
      | undefined => simp only [Res.andThen, hst]
      | outOfFuel => simp only [Res.andThen, hst]
    · simp only [childLoop, hc, if_false]

theorem render_tree_congr_visited (env : Env) (ver : Nat) (tree tree2 names data : Buf)
    (hagree : ∀ j k, (if ver = 1 then 14 else 22) * (j + 1) ≤ 4294967296 → k < 14 →
      tree2 ((if ver = 1 then 14 else 22) * j + k) = tree ((if ver = 1 then 14 else 22) * j + k)) :
    ∀ (fuel i depth : Nat) (path : List Nat),
      (∀ x ∈ visited (render_tree env fuel ver tree names data i depth path).trace,
        (if ver = 1 then 14 else 22) * (x + 1) ≤ 4294967296) →
      render_tree env fuel ver tree2 names data i depth path =
        render_tree env fuel ver tree names data i depth path := by
  intro fuel
  induction fuel with
  | zero => intro i depth path _; rfl
  | succ fuel ih =>
    intro i depth path hvis
    have hi : (if ver = 1 then 14 else 22) * (i + 1) ≤ 4294967296 := by
      apply hvis i
      rw [render_tree_cons_tail]
      simp [visited]
    have hnode : readNode env.host tree2 (nodeOffset ver i) =
        readNode env.host tree (nodeOffset ver i) := by
      rw [nodeOffset_of_lt ver i (i + 1) hi (Nat.lt_succ_self i)]
      exact readNode_congr _ _ _ _ (fun k hk => hagree i k hi hk)
    by_cases hfit : PATH_MAX < path.length + 1 +
        (nodeName env names i (readNode env.host tree (nodeOffset ver i))).length + 1
    · rw [render_tree_undefined env fuel ver tree names data i depth path hfit,
        render_tree_undefined env fuel ver tree2 names data i depth path (by rw [hnode]; exact hfit),
        hnode]
    · have hfit2 := fit_to_fullpath path _ hfit
      by_cases hdir : (readNode env.host tree (nodeOffset ver i)).flags &&& Directory = 0
      · rw [render_tree_file_eq env fuel ver tree names data i depth path _ _ rfl rfl hfit2 hdir,
          render_tree_file_eq env fuel ver tree2 names data i depth path _ _ hnode rfl hfit2 hdir]
      · by_cases hov : toInt32 (readNode env.host tree (nodeOffset ver i)).offset +
            toInt32 (readNode env.host tree (nodeOffset ver i)).count < -2147483648 ∨
            2147483647 < toInt32 (readNode env.host tree (nodeOffset ver i)).offset +
              toInt32 (readNode env.host tree (nodeOffset ver i)).count
        · rw [render_tree_dir_overflow env fuel ver tree names data i depth path _ _ rfl rfl hfit2
              hdir hov,
            render_tree_dir_overflow env fuel ver tree2 names data i depth path _ _ hnode rfl
              hfit2 hdir hov]
        · have hres := render_tree_dir_eq env fuel ver tree names data i depth path _ _ rfl rfl
            hfit2 hdir (by omega) (by omega)
          rw [hres] at hvis
          rw [hres, render_tree_dir_eq env fuel ver tree2 names data i depth path _ _ hnode rfl
            hfit2 hdir (by omega) (by omega)]
          congr 1
          apply childLoop_congr_visited
            (fun x => (if ver = 1 then 14 else 22) * (x + 1) ≤ 4294967296)
          · intro c hc
            exact ih c _ _ hc
          · intro x hx
            apply hvis x
            simp only [Res.after, visited_append, List.mem_append]
            exact Or.inr hx

/-- Claim C3 (amended): on every host the fields `render_tree` uses of the record it
reads at `base` are the big-endian values of its bytes 0..3 (`name_offset`), 4..5
(`flags`), 6..9 (`child_count`/`locale`) and 10..13 (`child_offset`/`data_offset`), and
each is used for its purpose: bytes 4..5 are the flags shown at the entry and decide
between directory and file, bytes 0..3 select the name entry, bytes 6..9 and 10..13 are
the count and the first index of the loop over the children of a directory, and the
locale and the data offset of a file.  Let `tree2` be any other tree buffer with the
same bytes 0..13 in every record that lies in the first 2^32 bytes.  Whenever the
traversal of `tree` from a node meets only nodes whose records lie in the first 2^32
bytes, the result for `tree2` is the same: in version 2 the bytes 14..21 of the records
have no influence. -/
theorem readNode_big_endian (env : Env) (ver : Nat) (tree tree2 names data : Buf)
    (hagree : ∀ j k, (if ver = 1 then 14 else 22) * (j + 1) ≤ 4294967296 → k < 14 →
      tree2 ((if ver = 1 then 14 else 22) * j + k) = tree ((if ver = 1 then 14 else 22) * j + k)) :
    (∀ base : Nat, readNode env.host tree base =
      { name_offset := be32 tree base
        flags := be16 tree (base + 4)
        count := be32 tree (base + 6)
        offset := be32 tree (base + 10) })
    ∧ (∀ (fuel i depth : Nat) (path : List Nat) (name_offset flags count offset : Nat)
        (name fullpath : List Nat),
        be32 tree (nodeOffset ver i) = name_offset →
        be16 tree (nodeOffset ver i + 4) = flags →
        be32 tree (nodeOffset ver i + 6) = count →
        be32 tree (nodeOffset ver i + 10) = offset →
        (if i = 0 then rootName env.treeAddr else name_convert env.host names name_offset) = name →
        path ++ [47] ++ name = fullpath →
        fullpath.length + 1 ≤ PATH_MAX →
        (render_tree env (fuel + 1) ver tree names data i depth path).trace.take 2 =
          [Event.enter depth i flags, Event.showPath fullpath name_offset]
        ∧ (flags &&& Directory = 0 →
            render_tree env (fuel + 1) ver tree names data i depth path =
              Res.after [Event.enter depth i flags, Event.showPath fullpath name_offset]
                (render_file env data
                  { name_offset := name_offset, flags := flags, count := count, offset := offset }
                  fullpath)
            ∧ (render_tree env (fuel + 1) ver tree names data i depth path).trace.take 4 =
                [Event.enter depth i flags, Event.showPath fullpath name_offset,
                 Event.showFile count ((offset + 4) % 4294967296) (be32 data offset),
                 Event.fopen fullpath])
        ∧ (flags &&& Directory ≠ 0 →
            -2147483648 ≤ toInt32 offset + toInt32 count →
            toInt32 offset + toInt32 count ≤ 2147483647 →
            render_tree env (fuel + 1) ver tree names data i depth path =
              Res.after
                [Event.enter depth i flags, Event.showPath fullpath name_offset,
                 Event.showDir count offset, Event.mkdir fullpath]
                (childLoop
                  (fun c => render_tree env fuel ver tree names data c
                    ((depth + 1) % 4294967296) fullpath)
                  (toInt32 offset + toInt32 count)
                  (toInt32 offset + toInt32 count - toInt32 offset).toNat
                  (toInt32 offset))))
    ∧ ∀ (fuel i depth : Nat) (path : List Nat),
        (∀ x ∈ visited (render_tree env fuel ver tree names data i depth path).trace,
          (if ver = 1 then 14 else 22) * (x + 1) ≤ 4294967296) →
        render_tree env fuel ver tree2 names data i depth path =
          render_tree env fuel ver tree names data i depth path := by
  refine ⟨fun _ => readNode_eq _ _ _, ?_,
    render_tree_congr_visited env ver tree tree2 names data hagree⟩
  intro fuel i depth path name_offset flags count offset name fullpath h0 h4 h6 h10 hname hpath
    hfit
  have hnode : readNode env.host tree (nodeOffset ver i) =
      { name_offset := name_offset, flags := flags, count := count, offset := offset } := by
    rw [readNode_eq, h0, h4, h6, h10]
  have hpath2 : path ++ [47] ++ nodeName env names i
      { name_offset := name_offset, flags := flags, count := count, offset := offset } =
      fullpath := by
    rw [← hpath, ← hname]
    rfl
  have hfileEq : flags &&& Directory = 0 →
      render_tree env (fuel + 1) ver tree names data i depth path =
        Res.after [Event.enter depth i flags, Event.showPath fullpath name_offset]
          (render_file env data
            { name_offset := name_offset, flags := flags, count := count, offset := offset }
            fullpath) := fun hfile =>
    render_tree_file_eq env fuel ver tree names data i depth path _ fullpath hnode hpath2 hfit
      hfile
  have hdirEq : flags &&& Directory ≠ 0 →
      -2147483648 ≤ toInt32 offset + toInt32 count →
      toInt32 offset + toInt32 count ≤ 2147483647 →
      render_tree env (fuel + 1) ver tree names data i depth path =
        Res.after
          [Event.enter depth i flags, Event.showPath fullpath name_offset,
           Event.showDir count offset, Event.mkdir fullpath]
          (childLoop
            (fun c => render_tree env fuel ver tree names data c
              ((depth + 1) % 4294967296) fullpath)
            (toInt32 offset + toInt32 count)
            (toInt32 offset + toInt32 count - toInt32 offset).toNat
            (toInt32 offset)) := fun hdir hlo hhi =>
    render_tree_dir_eq env fuel ver tree names data i depth path _ fullpath hnode hpath2 hfit
      hdir hlo hhi
  refine ⟨?_, ?_, hdirEq⟩
  · by_cases hdir : flags &&& Directory = 0
    · rw [hfileEq hdir]
      rfl
    · by_cases hov : toInt32 offset + toInt32 count < -2147483648 ∨
          2147483647 < toInt32 offset + toInt32 count
      · rw [render_tree_dir_overflow env fuel ver tree names data i depth path _ fullpath hnode
          hpath2 hfit hdir hov]
        rfl
      · rw [hdirEq hdir (by omega) (by omega)]
        rfl
  · intro hfile
    refine ⟨hfileEq hfile, ?_⟩
    rw [hfileEq hfile]
    have h2 := (render_file_events env data
      { name_offset := name_offset, flags := flags, count := count, offset := offset }
      fullpath).1
    simp only [Res.after, List.cons_append, List.nil_append, List.take_succ_cons]
    rw [h2]

/-- Witness of C3: the two nodes of the version 2 tree `tinyTree2`, with and without
content in bytes 14..21 of the records. -/
theorem readNode_big_endian_witness :
    render_tree stdEnv 5 2 tinyTree2Hashed helloEntry (bufOfList [0, 0, 0, 1, 65]) 0 0 [47] =
      render_tree stdEnv 5 2 tinyTree2 helloEntry (bufOfList [0, 0, 0, 1, 65]) 0 0 [47] :=
  (readNode_big_endian stdEnv 2 tinyTree2 tinyTree2Hashed helloEntry
    (bufOfList [0, 0, 0, 1, 65])
    (by
      intro j k _ hk
      rcases j with _ | _ | j
      · interval_cases k <;> rfl
      · interval_cases k <;> rfl
      · rw [tinyTree2, tinyTree2Hashed, bufOfList_of_le _ _ (by simp; omega),
          bufOfList_of_le _ _ (by simp; omega)])).2.2 5 0 0 [47] (by decide)

/-- Counterexample to C3 as stated: the version 2 tree buffers `farChildTree 0` and
`farChildTree 8` have the same bytes 0..13 in every record (they differ in byte 21 of
record 0 only).  Their root is a directory with the one child 195225787, whose record
`render_tree` reads at `(22 * 195225787) mod 2^32 = 18`: its `name_offset` is made of
bytes 18..21 of record 0.  The file of that child is opened under the name "a" for the
first buffer and "b" for the second. -/
theorem readNode_big_endian_counterexample :
    (∀ j k, k < 14 → farChildTree 8 (22 * j + k) = farChildTree 0 (22 * j + k))
    ∧ readNode Endian.little (farChildTree 0) (nodeOffset 2 0) =
        { name_offset := 0, flags := 2, count := 1, offset := 195225787 }
    ∧ nodeOffset 2 195225787 = 18
    ∧ (render_tree stdEnv 2 2 (farChildTree 0) nestedNames (bufOfList [0, 0, 0, 1, 65])
        0 0 [47, 116]).trace.filter Event.isFopen =
        [Event.fopen ([47, 116, 47] ++ rootName 0 ++ [47, 97])]
    ∧ (render_tree stdEnv 2 2 (farChildTree 8) nestedNames (bufOfList [0, 0, 0, 1, 65])
        0 0 [47, 116]).trace.filter Event.isFopen =
        [Event.fopen ([47, 116, 47] ++ rootName 0 ++ [47, 98])] := by
  refine ⟨?_, by decide, by decide, by decide, by decide⟩
  intro j k hk
  have h : 22 * j + k ≠ 21 := by omega
  simp only [farChildTree, h, if_false]

end QtExtract
